import Mathlib

/-!
# packer-tutorial: a shallow embedding of the packer and of the stub loader

The packer (`src/main.cpp`) appends a compressed copy of a target program to a
stub executable as a new `.packed` section and patches the stub's headers.  The
stub (`stub/src/main.cpp`) finds that section in its own image, decompresses
it, maps it, resolves its imports and relocates it.

Conventions of the embedding:

* a byte is a `Fin 256`; a `std::vector<std::uint8_t>` is a `List Byte`;
* memory reached through a raw pointer (`std::uint8_t *image`) is a total map
  from offsets (relative to that pointer) to bytes;
* fixed-width unsigned arithmetic is arithmetic on `Nat` reduced modulo `2^w`;
* multi-byte fields are little-endian (the code runs on x86-64);
* a run stops with `Halt.exit code` at `ExitProcess(code)`, with `Halt.fault`
  at an access outside a vector, a division by zero or a pointer before the
  start of the buffer, with `Halt.abort` when an allocation throws, and with
  `Halt.fuel` when a loop outlives its step bound;
* a `std::vector` that grows beyond its capacity moves to a new block; the
  capacity is implementation-defined and is a parameter where the code depends
  on it; a pointer into the block left behind still reads and writes that
  block, and what is written there is lost.
-/

namespace PackerTutorial

/-! ## Bytes, buffers and memory -/

/-- One octet. -/
abbrev Byte := Fin 256

/-- A `std::vector<std::uint8_t>`. -/
abbrev Bytes := List Byte

/-- Memory seen through a raw byte pointer: offset from the pointer to the byte there. -/
abbrev Mem := Nat → Byte

/-- The low eight bits of a number, as a byte (`static_cast<std::uint8_t>`). -/
def byteOf (n : Nat) : Byte := ⟨n % 256, Nat.mod_lt n (by decide)⟩

/-- Why a run ended without returning a value. -/
inductive Halt where
  /-- Call of `ExitProcess(code)`. -/
  | exit (code : Nat)
  /-- Undefined behaviour: access outside a vector, `% 0`, pointer before the buffer. -/
  | fault
  /-- An exception nobody catches (`std::bad_alloc`, `std::length_error`): `std::terminate`. -/
  | abort
  /-- The step bound of a `while` loop ran out. -/
  | fuel
  deriving DecidableEq, Repr

/-- A computation that returns a value or halts. -/
abbrev Run := Except Halt

deriving instance DecidableEq for Except

/-- Little-endian value of the `n` bytes of `m` starting at offset `a`
(`*reinterpret_cast<const uintN *>(p + a)`). -/
def Mem.read (m : Mem) (a : Nat) : Nat → Nat
  | 0 => 0
  | n + 1 => (m a).val + 256 * Mem.read m (a + 1) n

/-- Store of the low `n` bytes of `v`, little-endian, at offset `a`. -/
def Mem.write (m : Mem) (a n v : Nat) : Mem :=
  fun x => if a ≤ x ∧ x < a + n then byteOf (v / 256 ^ (x - a)) else m x

/-- The `n` low bytes of `v`, least significant first: the object representation
of an `n`-byte unsigned integer. -/
def leBytes (n v : Nat) : Bytes :=
  (List.range n).map fun i => byteOf (v / 256 ^ i)

/-- A vector read as memory; offsets past the end are never consulted by a
checked access, they read as zero here. -/
def Bytes.toMem (b : Bytes) : Mem := fun i => b.getD i 0

/-- Overwrite of `d.length` bytes of `b` from offset `off` on (`memcpy(b.data() + off, d, |d|)`),
meant for `off + d.length ≤ b.length`. -/
def Bytes.patch (b : Bytes) (off : Nat) (d : Bytes) : Bytes :=
  b.take off ++ d ++ b.drop (off + d.length)

/-- A bounds-checked read of an `n`-byte little-endian field of a vector. -/
def Bytes.rd (b : Bytes) (off n : Nat) : Run Nat :=
  if off + n ≤ b.length then .ok (b.toMem.read off n) else .error .fault

/-- A bounds-checked store of an `n`-byte little-endian field into a vector. -/
def Bytes.wr (b : Bytes) (off n v : Nat) : Run Bytes :=
  if off + n ≤ b.length then .ok (b.patch off (leBytes n v)) else .error .fault

/-- A bounds-checked `memcpy` into a vector. -/
def Bytes.copyIn (b : Bytes) (off : Nat) (d : Bytes) : Run Bytes :=
  if off + d.length ≤ b.length then .ok (b.patch off d) else .error .fault

/-- The call `std::vector::resize(n)`: truncate, or extend with zero bytes. -/
def Bytes.resize (b : Bytes) (n : Nat) : Bytes :=
  b.take n ++ List.replicate (n - b.length) 0

/-! ## `align` (src/main.cpp, lines 78-82) -/

/-- The template `align<T>` at an unsigned type `T` of `w` bits:
`value + ((value % alignment == 0) ? 0 : alignment - (value % alignment))`,
the sum reduced modulo `2^w`.  Callers guard `alignment = 0` (a division by zero). -/
def align (w value alignment : Nat) : Nat :=
  (value + (if value % alignment = 0 then 0 else alignment - value % alignment)) % 2 ^ w

/-! ## Layout of the PE structures (winnt.h)

Offsets used below, in bytes.  `IMAGE_DOS_HEADER`: `e_magic` 0 (2), `e_lfanew` 60 (4, signed).
`IMAGE_NT_HEADERS64` at `nt`: `Signature` 0 (4); `FileHeader` at 4 with
`NumberOfSections` `nt + 6` (2) and `SizeOfOptionalHeader` `nt + 20` (2);
`OptionalHeader` at `nt + 24` with `Magic` +0 (2), `ImageBase` +24 (8),
`SectionAlignment` +32 (4), `FileAlignment` +36 (4), `SizeOfImage` +56 (4),
`SizeOfHeaders` +60 (4), `DllCharacteristics` +70 (2), `DataDirectory[i]` +112+8i
(`VirtualAddress` 4, `Size` 4).  `IMAGE_SECTION_HEADER` (40 bytes): `Name` 0 (8),
`VirtualSize` 8, `VirtualAddress` 12, `SizeOfRawData` 16, `PointerToRawData` 20,
`PointerToRelocations` 24, `PointerToLinenumbers` 28, `NumberOfRelocations` 32 (2),
`NumberOfLinenumbers` 34 (2), `Characteristics` 36.  `IMAGE_IMPORT_DESCRIPTOR`
(20 bytes): `OriginalFirstThunk` 0, `Name` 12, `FirstThunk` 16.
`IMAGE_BASE_RELOCATION` (8 bytes): `VirtualAddress` 0, `SizeOfBlock` 4. -/

/-- The flag `IMAGE_SCN_MEM_READ`. -/
def IMAGE_SCN_MEM_READ : Nat := 0x40000000

/-- The flag `IMAGE_SCN_CNT_INITIALIZED_DATA`. -/
def IMAGE_SCN_CNT_INITIALIZED_DATA : Nat := 0x00000040

/-- The flag `IMAGE_SCN_MEM_WRITE` (not set by the packer). -/
def IMAGE_SCN_MEM_WRITE : Nat := 0x80000000

/-- The flag `IMAGE_SCN_MEM_EXECUTE` (not set by the packer). -/
def IMAGE_SCN_MEM_EXECUTE : Nat := 0x20000000

/-- The flag `IMAGE_ORDINAL_FLAG64`, bit 63. -/
def IMAGE_ORDINAL_FLAG64 : Nat := 0x8000000000000000

/-- The flag `IMAGE_DLLCHARACTERISTICS_DYNAMIC_BASE`. -/
def IMAGE_DLLCHARACTERISTICS_DYNAMIC_BASE : Nat := 0x0040

/-- The index `IMAGE_DIRECTORY_ENTRY_IMPORT`. -/
def IMAGE_DIRECTORY_ENTRY_IMPORT : Nat := 1

/-- The index `IMAGE_DIRECTORY_ENTRY_BASERELOC`. -/
def IMAGE_DIRECTORY_ENTRY_BASERELOC : Nat := 5

/-- The relocation type `IMAGE_REL_BASED_DIR64`. -/
def IMAGE_REL_BASED_DIR64 : Nat := 10

/-- The eight bytes of the string literal `".packed"`: seven characters and the
terminating NUL, as `memcpy(..., ".packed", 8)` and `memcmp(..., ".packed", 8)` see it. -/
def dotPacked : Bytes := [0x2E, 0x70, 0x61, 0x63, 0x6B, 0x65, 0x64, 0x00]

/-! ## The packer (src/main.cpp, `main`, lines 113-180) -/

namespace Packer

/-- The field `dos_header->e_lfanew`, a signed 32-bit `LONG`: a negative value
puts the NT headers before the buffer. -/
def e_lfanew (b : Bytes) : Run Nat := do
  let v ← b.rd 60 4
  if v < 2 ^ 31 then pure v else throw .fault

/-- The function `validate_target` (lines 30-55): the DOS signature, the NT
signature and the optional-header magic of the target. -/
def validate_target (target : Bytes) : Run Unit := do
  let e_magic ← target.rd 0 2
  -- IMAGE_DOS_SIGNATURE is 0x5A4D (for "MZ")
  if e_magic ≠ 0x5A4D then throw (.exit 3)
  let nt_header ← e_lfanew target
  let signature ← target.rd nt_header 4
  -- IMAGE_NT_SIGNATURE is 0x4550 (for "PE")
  if signature ≠ 0x4550 then throw (.exit 4)
  let magic ← target.rd (nt_header + 24) 2
  -- IMAGE_NT_OPTIONAL_HDR64_MAGIC is 0x020B
  if magic ≠ 0x020B then throw (.exit 5)

/-- Lines 123-140 of `main`: pad the stub to the file alignment, remember the
offset, append the 8-byte size and the compressed data.  Returns the buffer as
line 144 finds it, `raw_offset` and `section_size`. -/
def append_payload (stub target packed : Bytes) (file_alignment : Nat) : Bytes × Nat × Nat :=
  -- align the buffer to the file boundary if it isn't already
  let stub_data :=
    if stub.length % file_alignment ≠ 0 then
      stub.resize (align 64 stub.length file_alignment)
    else stub
  let raw_offset := stub_data.length % 2 ^ 32
  -- encode the size of the unpacked data, then add the compressed data
  let unpacked_size := target.length
  let stub_data := stub_data ++ leBytes 8 unpacked_size
  let stub_data := stub_data ++ packed
  let section_size := (packed.length + 8) % 2 ^ 32
  (stub_data, raw_offset, section_size)

/-- Lines 150-180 of `main`: bump `NumberOfSections`, fill the section header at
the old count and recompute `SizeOfImage`; `nt` is the offset of the NT headers. -/
def patch_headers (stub_data : Bytes)
    (nt file_alignment section_alignment raw_offset section_size : Nat) : Run Bytes := do
  -- increment the number of sections in the file header
  let section_index ← stub_data.rd (nt + 6) 2
  let stub_data ← stub_data.wr (nt + 6) 2 ((section_index + 1) % 2 ^ 16)
  -- acquire a pointer to the section table
  let size_of_header ← stub_data.rd (nt + 20) 2
  let section_table := nt + 24 + size_of_header
  -- the new section and the previous section
  let section_hdr := section_table + 40 * section_index
  if section_hdr < 40 then throw .fault
  let prev_section := section_hdr - 40
  let prev_va ← stub_data.rd (prev_section + 12) 4
  let prev_vs ← stub_data.rd (prev_section + 8) 4
  if section_alignment = 0 then throw .fault
  let virtual_offset := align 32 ((prev_va + prev_vs) % 2 ^ 32) section_alignment
  let virtual_size := section_size
  let raw_size := align 32 section_size file_alignment
  -- assign the section metadata
  let stub_data ← stub_data.copyIn section_hdr dotPacked
  let stub_data ← stub_data.wr (section_hdr + 8) 4 virtual_size
  let stub_data ← stub_data.wr (section_hdr + 12) 4 virtual_offset
  let stub_data ← stub_data.wr (section_hdr + 16) 4 raw_size
  let stub_data ← stub_data.wr (section_hdr + 20) 4 raw_offset
  let stub_data ← stub_data.wr (section_hdr + 36) 4
    (IMAGE_SCN_MEM_READ ||| IMAGE_SCN_CNT_INITIALIZED_DATA)
  -- calculate the new size of the image
  stub_data.wr (nt + 24 + 56) 4
    (align 32 ((virtual_offset + virtual_size) % 2 ^ 32) section_alignment)

/-- Lines 113-180 of `main`: from the stub template, the target and its
compressed bytes `packed` to the buffer that is written to `packed.exe`.
`capacity` is the capacity of `stub_data` when line 147 is reached.  Line 144
takes `nt_header` in the buffer as it is then; when the `resize` of line 148 asks
for more than the capacity the vector moves, and lines 151-180 read and store
through the pointer into the block left behind: the buffer that is written out
has the padding and none of the stores. -/
def pack (capacity : Nat) (stub target packed : Bytes) : Run Bytes := do
  let nt ← e_lfanew stub
  let file_alignment ← stub.rd (nt + 24 + 36) 4
  let section_alignment ← stub.rd (nt + 24 + 32) 4
  -- `stub_data.size() % file_alignment`
  if file_alignment = 0 then throw .fault
  let (held, raw_offset, section_size) := append_payload stub target packed file_alignment
  -- line 144: `nt_header` points into `held`
  -- pad the section data with 0s
  if held.length % file_alignment ≠ 0 then
    let stub_data := held.resize (align 64 held.length file_alignment)
    if capacity < stub_data.length then
      -- the vector has moved; `nt_header` still points into the old block
      let _ ← patch_headers held nt file_alignment section_alignment raw_offset section_size
      pure stub_data
    else patch_headers stub_data nt file_alignment section_alignment raw_offset section_size
  else patch_headers held nt file_alignment section_alignment raw_offset section_size

end Packer

/-! ## The packer's `main` with its surroundings (src/main.cpp, lines 84-195) -/

namespace Packer

/-- What `main` finds around it: the command line, the file system, zlib and
the resource section of the packer's own executable. -/
structure Env where
  /-- The argument count `argc`. -/
  argc : Nat
  /-- The bytes of the file `argv[1]`; `none` when it cannot be opened. -/
  file : Option Bytes
  /-- Width of zlib's `uLong` (zconf.h: `unsigned long`). -/
  uLong_bits : Nat
  /-- The call `compress(dest, &destLen, source, sourceLen)` with `destLen =
  compressBound(sourceLen)`: `some` of the produced bytes when it returns `Z_OK`. -/
  compress : Bytes → Option Bytes
  /-- Whether `FindResourceA` finds the stub resource. -/
  resource_found : Bool
  /-- The bytes of the stub resource; `none` when `LoadResource` returns `nullptr`. -/
  resource : Option Bytes
  /-- The capacity of `stub_data` when line 147 is reached (implementation-defined). -/
  capacity : Nat
  /-- Whether `packed.exe` can be opened for writing. -/
  output_opens : Bool

/-- The function `read_file` (lines 14-28). -/
def read_file (env : Env) : Run Bytes :=
  match env.file with
  | none => .error (.exit 2)
  | some vec_data => .ok vec_data

/-- The function `load_resource` (lines 57-76). -/
def load_resource (env : Env) : Run Bytes :=
  if ¬ env.resource_found then .error (.exit 6)
  else
    match env.resource with
    | none => .error (.exit 7)
    | some byte_buffer => .ok byte_buffer

/-- The function `main` (lines 84-195).  The result is how the run ended
(`.ok ()` is `return 0`) and the file `packed.exe`: `none` while the run has not
opened it, `some b` once it was opened and `b` written to it. -/
def main (env : Env) : Run Unit × Option Bytes :=
  if env.argc ≠ 2 then (.error (.exit 1), none)
  else
    -- read the file to pack
    match read_file env with
    | .error e => (.error e, none)
    | .ok target =>
      -- validate that this is a PE file we can pack
      match validate_target target with
      | .error e => (.error e, none)
      | .ok () =>
        -- `target.size()` is passed as a `uLong`
        match env.compress (target.take (target.length % 2 ^ env.uLong_bits)) with
        | none => (.error (.exit 8), none)
        | some packed =>
          -- next, load the stub
          match load_resource env with
          | .error e => (.error e, none)
          | .ok stub =>
            match pack env.capacity stub target packed with
            | .error e => (.error e, none)
            | .ok stub_data =>
              -- `std::ofstream fp("packed.exe", std::ios::binary)`
              if ¬ env.output_opens then (.error (.exit 9), none)
              else (.ok (), some stub_data)

end Packer

/-! ## The stub loader (stub/src/main.cpp) -/

namespace Stub

/-- The function `get_nt_headers`: the offset `image + dos_header->e_lfanew` of the
NT headers; `e_lfanew` is a signed `LONG`, a negative one leaves the image. -/
def get_nt_headers (image : Mem) : Run Nat :=
  let e_lfanew := image.read 60 4
  if e_lfanew < 2 ^ 31 then .ok e_lfanew else .error .fault

/-- The `n` bytes of memory from offset `a` on. -/
def bytes_at (m : Mem) (a n : Nat) : Bytes :=
  (List.range n).map fun i => m (a + i)

/-- The `for` loop of `get_image` (lines 30-37): from index `i`, with `count`
indices left, the offset of the first section header whose eight name bytes
compare equal to `".packed"`. -/
def find_packed (base : Mem) (section_table : Nat) : Nat → Nat → Option Nat
  | 0, _ => none
  | count + 1, i =>
    if bytes_at base (section_table + 40 * i) 8 = dotPacked then
      some (section_table + 40 * i)
    else find_packed base section_table count (i + 1)

/-- The function `get_image` (lines 20-61).  `base` is the loaded carrier,
`uncompress source destLen` is zlib's `uncompress`: `some d` when it returns
`Z_OK` having produced the bytes `d`, `none` otherwise.  zlib's `uLong` has
`uLong_bits` bits (zconf.h: `unsigned long`).  `allocates n` tells whether a
vector of `n` bytes can be constructed. -/
def get_image (uncompress : Bytes → Nat → Option Bytes) (uLong_bits : Nat)
    (allocates : Nat → Bool) (base : Mem) : Run Bytes := do
  -- find our packed section
  let nt_header ← get_nt_headers base
  let section_table := nt_header + 24 + base.read (nt_header + 20) 2
  match find_packed base section_table (base.read (nt_header + 6) 2) 0 with
  | none => throw (.exit 1)
  | some packed_section =>
    -- decompress our packed image
    let section_start := base.read (packed_section + 12) 4
    let unpacked_size := base.read section_start 8
    let packed_data := section_start + 8
    let packed_size := (base.read (packed_section + 8) 4 + 2 ^ 64 - 8) % 2 ^ 64
    -- `std::vector<std::uint8_t>(unpacked_size)`
    if ¬ allocates unpacked_size then throw .abort
    let decompressed_size := unpacked_size % 2 ^ uLong_bits
    match uncompress (bytes_at base packed_data (packed_size % 2 ^ uLong_bits))
        decompressed_size with
    | none => throw (.exit 2)
    | some d =>
      -- `decompressed` keeps its `unpacked_size` bytes; the codec filled the first `d.length`
      if d.length ≤ decompressed_size then
        pure (d ++ List.replicate (unpacked_size - d.length) 0)
      else throw .fault

/-- The services of the operating system that `load_imports` calls.  A result
`0` is `nullptr`. -/
structure Os where
  /-- Call of `LoadLibraryA(image + name)`: the module handle. -/
  LoadLibraryA : Mem → Nat → Nat
  /-- Call of `GetProcAddress(module, (LPSTR) ordinal)`. -/
  GetProcAddress_ordinal : Nat → Nat → Nat
  /-- Call of `GetProcAddress(module, image + name)`, the name read from the image. -/
  GetProcAddress_name : Mem → Nat → Nat → Nat

/-- The test of line 138, `lookup_address & IMAGE_ORDINAL_FLAG64 != 0`, as C++
parses it: `!=` binds tighter than `&`, so it is
`lookup_address & (IMAGE_ORDINAL_FLAG64 != 0)`, the comparison converted to `1` or `0`. -/
def ordinal_test (lookup_address : Nat) : Bool :=
  lookup_address &&& (if IMAGE_ORDINAL_FLAG64 ≠ 0 then 1 else 0) ≠ 0

/-- The inner `while` loop of `load_imports` (lines 131-169) over the lookup
table at `lookup_table` and the address table at `address_table`. -/
def resolve_thunks (os : Os) (dll_import : Nat) : Nat → Mem → Nat → Nat → Run Mem
  | 0, _, _, _ => .error .fuel
  | fuel + 1, image, lookup_table, address_table =>
    let lookup_address := image.read lookup_table 8
    if lookup_address = 0 then .ok image
    else if ordinal_test lookup_address then
      -- the function ordinal: the lower 32 bits of the lookup address
      let function := os.GetProcAddress_ordinal dll_import (lookup_address &&& 0xFFFFFFFF)
      if function = 0 then .error (.exit 5)
      else resolve_thunks os dll_import fuel (image.write address_table 8 function)
        (lookup_table + 8) (address_table + 8)
    else
      -- the `Name` member of the `IMAGE_IMPORT_BY_NAME` at `image + lookup_address`
      let function := os.GetProcAddress_name image dll_import (lookup_address + 2)
      if function = 0 then .error (.exit 6)
      else resolve_thunks os dll_import fuel (image.write address_table 8 function)
        (lookup_table + 8) (address_table + 8)

/-- The outer `while` loop of `load_imports` (lines 110-173) over the import
descriptors from `import_table` on. -/
def resolve_descriptors (os : Os) : Nat → Mem → Nat → Run Mem
  | 0, _, _ => .error .fuel
  | fuel + 1, image, import_table =>
    if image.read import_table 4 = 0 then .ok image
    else
      let dll_import := os.LoadLibraryA image (image.read (import_table + 12) 4)
      if dll_import = 0 then .error (.exit 4)
      else
        match resolve_thunks os dll_import fuel image
            (image.read import_table 4) (image.read (import_table + 16) 4) with
        | .error e => .error e
        | .ok image => resolve_descriptors os fuel image (import_table + 20)

/-- The function `load_imports` (lines 96-174). -/
def load_imports (os : Os) (fuel : Nat) (image : Mem) : Run Mem := do
  let nt_header ← get_nt_headers image
  let directory_va := image.read (nt_header + 24 + 112 + 8 * IMAGE_DIRECTORY_ENTRY_IMPORT) 4
  -- if there are no imports, that's fine
  if directory_va = 0 then pure image
  else resolve_descriptors os fuel image directory_va

/-- The test of line 181,
`DllCharacteristics & IMAGE_DLLCHARACTERISTICS_DYNAMIC_BASE == 0`, as C++ parses
it: `==` binds tighter than `&`, so it is
`DllCharacteristics & (IMAGE_DLLCHARACTERISTICS_DYNAMIC_BASE == 0)`. -/
def not_relocatable_test (dll_characteristics : Nat) : Bool :=
  dll_characteristics &&& (if IMAGE_DLLCHARACTERISTICS_DYNAMIC_BASE = 0 then 1 else 0) ≠ 0

/-- The `for` loop of `relocate` (lines 216-234) on the block whose header is at
`relocation_table`: entries `i`, `i + 1`, ... with `count` of them left. -/
def apply_entries (delta relocation_table : Nat) : Nat → Nat → Mem → Mem
  | 0, _, image => image
  | count + 1, i, image =>
    let relocation := image.read (relocation_table + 8 + 2 * i) 2
    let type := relocation >>> 12
    let offset := relocation &&& 0xFFF
    let ptr := image.read relocation_table 4 + offset
    let image :=
      if type = IMAGE_REL_BASED_DIR64 then
        image.write ptr 8 ((image.read ptr 8 + delta) % 2 ^ 64)
      else image
    apply_entries delta relocation_table count (i + 1) image

/-- The `while` loop of `relocate` (lines 205-240) from the block header at
`relocation_table` on. -/
def apply_blocks (delta : Nat) : Nat → Mem → Nat → Run Mem
  | 0, _, _ => .error .fuel
  | fuel + 1, image, relocation_table =>
    if image.read relocation_table 4 = 0 then .ok image
    else
      -- `(SizeOfBlock - sizeof(IMAGE_BASE_RELOCATION)) / sizeof(std::uint16_t)` in `size_t`
      let relocations := (image.read (relocation_table + 4) 4 + 2 ^ 64 - 8) % 2 ^ 64 / 2
      let image := apply_entries delta relocation_table relocations 0 image
      apply_blocks delta fuel image (relocation_table + image.read (relocation_table + 4) 4)

/-- The function `relocate` (lines 176-241); `image_address` is the value of the
pointer `image` as a `std::uintptr_t`. -/
def relocate (fuel : Nat) (image : Mem) (image_address : Nat) : Run Mem := do
  let nt_header ← get_nt_headers image
  if not_relocatable_test (image.read (nt_header + 24 + 70) 2) then throw (.exit 7)
  -- make sure a relocation directory is present
  let directory_va := image.read (nt_header + 24 + 112 + 8 * IMAGE_DIRECTORY_ENTRY_BASERELOC) 4
  if directory_va = 0 then throw (.exit 8)
  let delta := (image_address + 2 ^ 64 - image.read (nt_header + 24 + 24) 8) % 2 ^ 64
  apply_blocks delta fuel image directory_va

end Stub

/-! ## Views of an image, used to state the properties -/

namespace Image

/-- Offset of the NT headers: the `e_lfanew` field of the DOS header. -/
def nt (b : Bytes) : Nat := b.toMem.read 60 4

/-- The field `FileHeader.NumberOfSections`. -/
def NumberOfSections (b : Bytes) : Nat := b.toMem.read (nt b + 6) 2

/-- The field `FileHeader.SizeOfOptionalHeader`. -/
def SizeOfOptionalHeader (b : Bytes) : Nat := b.toMem.read (nt b + 20) 2

/-- The field `OptionalHeader.SectionAlignment`. -/
def SectionAlignment (b : Bytes) : Nat := b.toMem.read (nt b + 24 + 32) 4

/-- The field `OptionalHeader.FileAlignment`. -/
def FileAlignment (b : Bytes) : Nat := b.toMem.read (nt b + 24 + 36) 4

/-- The field `OptionalHeader.SizeOfImage`. -/
def SizeOfImage (b : Bytes) : Nat := b.toMem.read (nt b + 24 + 56) 4

/-- Offset of the section table: `&OptionalHeader + SizeOfOptionalHeader`. -/
def section_table (b : Bytes) : Nat := nt b + 24 + SizeOfOptionalHeader b

/-- Offset of the section header of index `i`. -/
def section_header (b : Bytes) (i : Nat) : Nat := section_table b + 40 * i

/-- The eight `Name` bytes of section `i`. -/
def Name (b : Bytes) (i : Nat) : Bytes :=
  (List.range 8).map fun k => b.toMem (section_header b i + k)

/-- The field `Misc.VirtualSize` of section `i`. -/
def VirtualSize (b : Bytes) (i : Nat) : Nat := b.toMem.read (section_header b i + 8) 4

/-- The field `VirtualAddress` of section `i`. -/
def VirtualAddress (b : Bytes) (i : Nat) : Nat := b.toMem.read (section_header b i + 12) 4

/-- The field `SizeOfRawData` of section `i`. -/
def SizeOfRawData (b : Bytes) (i : Nat) : Nat := b.toMem.read (section_header b i + 16) 4

/-- The field `PointerToRawData` of section `i`. -/
def PointerToRawData (b : Bytes) (i : Nat) : Nat := b.toMem.read (section_header b i + 20) 4

/-- The field `Characteristics` of section `i`. -/
def Characteristics (b : Bytes) (i : Nat) : Nat := b.toMem.read (section_header b i + 36) 4

end Image

/-- A stub template: a byte string that parses as a 64-bit image and has room
for one more section header.  It is a resource, so its size is a `DWORD`; its NT
headers follow the 64-byte DOS header; its section table starts after the fixed
part of the optional header that holds `SizeOfImage` (60 bytes; any PE32+
optional header has at least 112); the slot after its last section header lies
inside it and the 16-bit section count can still grow; both alignments are
non-zero; and the stub padded to its file alignment is still addressed by a
32-bit file offset, as every raw pointer of a PE file is. -/
structure StubTemplate (s : Bytes) : Prop where
  size : s.length < 2 ^ 32
  raw_offset : align 64 s.length (Image.FileAlignment s) < 2 ^ 32
  dos_header : 64 ≤ Image.nt s
  lfanew : Image.nt s < 2 ^ 31
  optional_header : 60 ≤ Image.SizeOfOptionalHeader s
  spare_slot : Image.section_header s (Image.NumberOfSections s + 1) ≤ s.length
  count : Image.NumberOfSections s + 1 < 2 ^ 16
  file_alignment : 0 < Image.FileAlignment s
  section_alignment : 0 < Image.SectionAlignment s

/-- The padding of lines 147-148 moves the vector: the buffer of line 144, of
`align(|s|, a) + 8 + |c|` bytes, is not a multiple of the file alignment `a`
long, and its padded size exceeds the capacity. -/
def Moved (capacity : Nat) (s c : Bytes) : Prop :=
  (align 64 s.length (Image.FileAlignment s) + 8 + c.length) % Image.FileAlignment s ≠ 0 ∧
  capacity <
    align 64 (align 64 s.length (Image.FileAlignment s) + 8 + c.length) (Image.FileAlignment s)

/-- What `Packer.pack` returns for `s`, `t`, `c` in every case: `out` is the stub
`s` padded to the file alignment, then the 8-byte size of `t`, then `c`, padded
again; inside the stub part at most `NumberOfSections`, `SizeOfImage` and 28
bytes of the section header of index `NumberOfSections s` differ from `s`. -/
structure Laid (s t c out : Bytes) : Prop where
  length : out.length =
    align 64 (align 64 s.length (Image.FileAlignment s) + 8 + c.length) (Image.FileAlignment s)
  tail : out.drop s.length =
    List.replicate (align 64 s.length (Image.FileAlignment s) - s.length) 0 ++
      leBytes 8 t.length ++ c ++
      List.replicate
        (align 64 (align 64 s.length (Image.FileAlignment s) + 8 + c.length)
            (Image.FileAlignment s) -
          (align 64 s.length (Image.FileAlignment s) + 8 + c.length)) 0
  frame : ∀ x, x < s.length →
    (x < Image.nt s + 6 ∨ Image.nt s + 8 ≤ x) →
    (x < Image.nt s + 80 ∨ Image.nt s + 84 ≤ x) →
    (x < Image.section_header s (Image.NumberOfSections s) ∨
      Image.section_header s (Image.NumberOfSections s) + 24 ≤ x) →
    (x < Image.section_header s (Image.NumberOfSections s) + 36 ∨
      Image.section_header s (Image.NumberOfSections s) + 40 ≤ x) →
    out.toMem x = s.toMem x

/-- What `Packer.pack` returns for `s`, `t`, `c` when the stores of lines
151-180 reach the buffer, field by field: `out` is the stub `s` padded to the
file alignment, then the 8-byte size of `t`, then `c`, padded again; inside the
stub part only `NumberOfSections`, `SizeOfImage` and 28 bytes of the section
header of index `NumberOfSections s` differ from `s`. -/
structure Packed (s t c out : Bytes) : Prop where
  length : out.length =
    align 64 (align 64 s.length (Image.FileAlignment s) + 8 + c.length) (Image.FileAlignment s)
  tail : out.drop s.length =
    List.replicate (align 64 s.length (Image.FileAlignment s) - s.length) 0 ++
      leBytes 8 t.length ++ c ++
      List.replicate
        (align 64 (align 64 s.length (Image.FileAlignment s) + 8 + c.length)
            (Image.FileAlignment s) -
          (align 64 s.length (Image.FileAlignment s) + 8 + c.length)) 0
  frame : ∀ x, x < s.length →
    (x < Image.nt s + 6 ∨ Image.nt s + 8 ≤ x) →
    (x < Image.nt s + 80 ∨ Image.nt s + 84 ≤ x) →
    (x < Image.section_header s (Image.NumberOfSections s) ∨
      Image.section_header s (Image.NumberOfSections s) + 24 ≤ x) →
    (x < Image.section_header s (Image.NumberOfSections s) + 36 ∨
      Image.section_header s (Image.NumberOfSections s) + 40 ≤ x) →
    out.toMem x = s.toMem x
  nt : Image.nt out = Image.nt s
  size_of_optional_header : Image.SizeOfOptionalHeader out = Image.SizeOfOptionalHeader s
  section_alignment : Image.SectionAlignment out = Image.SectionAlignment s
  file_alignment : Image.FileAlignment out = Image.FileAlignment s
  number_of_sections : Image.NumberOfSections out = Image.NumberOfSections s + 1
  name : Image.Name out (Image.NumberOfSections s) = dotPacked
  virtual_size : Image.VirtualSize out (Image.NumberOfSections s) = (c.length + 8) % 2 ^ 32
  virtual_address : Image.VirtualAddress out (Image.NumberOfSections s) =
    align 32
      ((s.toMem.read (Image.section_header s (Image.NumberOfSections s) - 40 + 12) 4 +
        s.toMem.read (Image.section_header s (Image.NumberOfSections s) - 40 + 8) 4) % 2 ^ 32)
      (Image.SectionAlignment s)
  size_of_raw_data : Image.SizeOfRawData out (Image.NumberOfSections s) =
    align 32 ((c.length + 8) % 2 ^ 32) (Image.FileAlignment s)
  pointer_to_raw_data : Image.PointerToRawData out (Image.NumberOfSections s) =
    align 64 s.length (Image.FileAlignment s)
  characteristics : Image.Characteristics out (Image.NumberOfSections s) =
    (IMAGE_SCN_MEM_READ ||| IMAGE_SCN_CNT_INITIALIZED_DATA)
  size_of_image : Image.SizeOfImage out =
    align 32
      ((Image.VirtualAddress out (Image.NumberOfSections s) +
        Image.VirtualSize out (Image.NumberOfSections s)) % 2 ^ 32)
      (Image.SectionAlignment s)

/-- The carrier file `out` as the operating-system loader has mapped it at
`base`: the headers, through the end of the section table, lie at offset 0, and
the raw bytes of the last section lie at that section's `VirtualAddress`. -/
structure CarrierLoaded (out : Bytes) (base : Mem) : Prop where
  headers : ∀ x, x < Image.section_header out (Image.NumberOfSections out) →
    base x = out.toMem x
  last_section : ∀ i, i < Image.VirtualSize out (Image.NumberOfSections out - 1) →
    base (Image.VirtualAddress out (Image.NumberOfSections out - 1) + i) =
      out.toMem (Image.PointerToRawData out (Image.NumberOfSections out - 1) + i)

/-- The carrier file as the operating-system loader maps it, as far as
`get_image` looks: the file's bytes at the same offsets (the headers), except
that the virtual extent of the last section holds that section's raw bytes. -/
def map_carrier (out : Bytes) : Mem := fun x =>
  if Image.VirtualAddress out (Image.NumberOfSections out - 1) ≤ x ∧
      x < Image.VirtualAddress out (Image.NumberOfSections out - 1) +
        Image.VirtualSize out (Image.NumberOfSections out - 1) then
    out.toMem (Image.PointerToRawData out (Image.NumberOfSections out - 1) +
      (x - Image.VirtualAddress out (Image.NumberOfSections out - 1)))
  else out.toMem x

/-! ## Views of a relocation table, used to state the properties -/

namespace Reloc

/-- The memory from offset `p` on holds the relocation blocks `bs`, given as
pairs (`VirtualAddress`, `SizeOfBlock`) with `VirtualAddress ≠ 0` and
`SizeOfBlock ≥ 8`, each block `SizeOfBlock` bytes after the previous one, and
after the last block a header whose `VirtualAddress` is zero. -/
def Table (m : Mem) : Nat → List (Nat × Nat) → Prop
  | p, [] => m.read p 4 = 0
  | p, (va, sz) :: bs =>
    m.read p 4 = va ∧ va ≠ 0 ∧ m.read (p + 4) 4 = sz ∧ 8 ≤ sz ∧ Table m (p + sz) bs

/-- Offset just past the `VirtualAddress` field of the terminating header: the
table occupies `[p, table_end p bs)`. -/
def table_end : Nat → List (Nat × Nat) → Nat
  | p, [] => p + 4
  | p, (_, sz) :: bs => table_end (p + sz) bs

/-- Offsets of the 8-byte words addressed by the entries of type
`IMAGE_REL_BASED_DIR64` among the entries `i, ..., i + count - 1` of the block at
`p`, in table order: `VirtualAddress + (entry & 0xFFF)`. -/
def block_targets (m : Mem) (p : Nat) : Nat → Nat → List Nat
  | 0, _ => []
  | count + 1, i =>
    (if m.read (p + 8 + 2 * i) 2 >>> 12 = IMAGE_REL_BASED_DIR64 then
        [m.read p 4 + (m.read (p + 8 + 2 * i) 2 &&& 0xFFF)]
      else []) ++ block_targets m p count (i + 1)

/-- The `IMAGE_REL_BASED_DIR64` targets of the whole table, in table order; a
block of `SizeOfBlock = sz` has `(sz - 8) / 2` entries. -/
def targets (m : Mem) : Nat → List (Nat × Nat) → List Nat
  | _, [] => []
  | p, (_, sz) :: bs => block_targets m p ((sz - 8) / 2) 0 ++ targets m (p + sz) bs

/-- Adding `delta` modulo `2^64` to the 8-byte words at the offsets `ts`, one
after the other. -/
def fix_all (delta : Nat) (ts : List Nat) (m : Mem) : Mem :=
  ts.foldl (fun m a => m.write a 8 ((m.read a 8 + delta) % 2 ^ 64)) m

/-- The field `DataDirectory[IMAGE_DIRECTORY_ENTRY_BASERELOC].VirtualAddress`. -/
def directory (image : Mem) : Nat :=
  image.read (image.read 60 4 + 24 + 112 + 8 * IMAGE_DIRECTORY_ENTRY_BASERELOC) 4

/-- The value `delta = image_address - ImageBase` modulo `2^64`. -/
def delta (image : Mem) (image_address : Nat) : Nat :=
  (image_address + 2 ^ 64 - image.read (image.read 60 4 + 24 + 24) 8) % 2 ^ 64

end Reloc

/-! ## `load_image` (stub/src/main.cpp, lines 63-94)

The source image is a vector: its fields and bytes are read with bounds checks.
The region returned by `VirtualAlloc` is a buffer of `SizeOfImage` zero bytes
(committed pages are zero-initialised); a `memcpy` that would leave it is a fault.
(`VirtualAlloc` rounds the size up to whole pages; the bytes of the last page
past `SizeOfImage` are not part of the region here.) -/

namespace Stub

/-- The `for` loop of `load_image` (lines 86-91) over the sections `i`, `i + 1`,
... with `count` of them left; `base` is the region. -/
def copy_sections (image : Bytes) (section_table : Nat) : Nat → Nat → Bytes → Run Bytes
  | 0, _, base => .ok base
  | count + 1, i, base =>
    match image.rd (section_table + 40 * i + 16) 4 with
    | .error e => .error e
    | .ok size_of_raw_data =>
      if size_of_raw_data > 0 then
        match image.rd (section_table + 40 * i + 12) 4,
            image.rd (section_table + 40 * i + 20) 4 with
        | .ok virtual_address, .ok pointer_to_raw_data =>
          if image.length < pointer_to_raw_data + size_of_raw_data then .error .fault
          else
            match base.copyIn virtual_address
                ((image.drop pointer_to_raw_data).take size_of_raw_data) with
            | .error e => .error e
            | .ok base => copy_sections image section_table count (i + 1) base
        | _, _ => .error .fault
      else copy_sections image section_table count (i + 1) base

/-- The function `load_image`.  `VirtualAlloc size` tells whether the allocation
of `size` bytes succeeds. -/
def load_image (VirtualAlloc : Nat → Bool) (image : Bytes) : Run Bytes := do
  -- get the original image section table
  let e_lfanew ← image.rd 60 4
  if ¬ e_lfanew < 2 ^ 31 then throw .fault
  let nt_header := e_lfanew
  let size_of_optional_header ← image.rd (nt_header + 20) 2
  let section_table := nt_header + 24 + size_of_optional_header
  -- a new buffer that will fit our image
  let image_size ← image.rd (nt_header + 24 + 56) 4
  if ¬ VirtualAlloc image_size then throw (.exit 3)
  let base : Bytes := List.replicate image_size 0
  -- copy the headers to our new virtually allocated image
  let size_of_headers ← image.rd (nt_header + 24 + 60) 4
  if image.length < size_of_headers then throw .fault
  let base ← base.copyIn 0 (image.take size_of_headers)
  -- copy our sections to their given addresses in the virtual image
  let number_of_sections ← image.rd (nt_header + 6) 2
  copy_sections image section_table number_of_sections 0 base

end Stub

/-- The field `OptionalHeader.SizeOfHeaders`. -/
def Image.SizeOfHeaders (b : Bytes) : Nat := b.toMem.read (Image.nt b + 24 + 60) 4

/-! ## `relocate` observed: final memory and blocks visited

The same routine as `Stub.relocate`, returning in addition the memory at the
moment it ended (also when it ended at `ExitProcess`) and, as a ghost value, the
relocation blocks the `while` loop visited, each with the indices of the entries
its `for` loop processed. -/

namespace Stub

/-- How a run of `relocate` ended. -/
structure Walk where
  /-- The halt that ended the run; `none` when the routine returned. -/
  halt : Option Halt
  /-- The memory at that moment. -/
  image : Mem
  /-- Offset of each block header visited, with the entry indices processed there. -/
  visited : List (Nat × List Nat)

/-- The `for` loop of `relocate` (lines 216-234), as `apply_entries`, with the
indices `i` it ran through. -/
def apply_entries_walk (delta relocation_table : Nat) : Nat → Nat → Mem → List Nat × Mem
  | 0, _, image => ([], image)
  | count + 1, i, image =>
    let relocation := image.read (relocation_table + 8 + 2 * i) 2
    let type := relocation >>> 12
    let offset := relocation &&& 0xFFF
    let ptr := image.read relocation_table 4 + offset
    let image :=
      if type = IMAGE_REL_BASED_DIR64 then
        image.write ptr 8 ((image.read ptr 8 + delta) % 2 ^ 64)
      else image
    let rest := apply_entries_walk delta relocation_table count (i + 1) image
    (i :: rest.1, rest.2)

/-- The `while` loop of `relocate` (lines 205-240), as `apply_blocks`, with the
blocks it visited. -/
def apply_blocks_walk (delta : Nat) : Nat → Mem → Nat → Walk
  | 0, image, _ => ⟨some .fuel, image, []⟩
  | fuel + 1, image, relocation_table =>
    if image.read relocation_table 4 = 0 then ⟨none, image, []⟩
    else
      let relocations := (image.read (relocation_table + 4) 4 + 2 ^ 64 - 8) % 2 ^ 64 / 2
      let entries := apply_entries_walk delta relocation_table relocations 0 image
      let rest := apply_blocks_walk delta fuel entries.2
        (relocation_table + entries.2.read (relocation_table + 4) 4)
      ⟨rest.halt, rest.image, (relocation_table, entries.1) :: rest.visited⟩

/-- The function `relocate` (lines 176-241), as `relocate`, observed. -/
def relocate_walk (fuel : Nat) (image : Mem) (image_address : Nat) : Walk :=
  match get_nt_headers image with
  | .error e => ⟨some e, image, []⟩
  | .ok nt_header =>
    if not_relocatable_test (image.read (nt_header + 24 + 70) 2) then
      ⟨some (.exit 7), image, []⟩
    else
      let directory_va :=
        image.read (nt_header + 24 + 112 + 8 * IMAGE_DIRECTORY_ENTRY_BASERELOC) 4
      if directory_va = 0 then ⟨some (.exit 8), image, []⟩
      else
        let delta := (image_address + 2 ^ 64 - image.read (nt_header + 24 + 24) 8) % 2 ^ 64
        apply_blocks_walk delta fuel image directory_va

/-- The result of `relocate` read off a walk. -/
def Walk.result (w : Walk) : Run Mem :=
  match w.halt with
  | none => .ok w.image
  | some h => .error h

end Stub

/-- The blocks of a relocation table from offset `p` on, each with the indices
`0, ..., (SizeOfBlock - 8) / 2 - 1` of its entries, in address order. -/
def Reloc.blocks : Nat → List (Nat × Nat) → List (Nat × List Nat)
  | _, [] => []
  | p, (_, sz) :: bs => (p, List.range ((sz - 8) / 2)) :: Reloc.blocks (p + sz) bs

/-! ## `load_imports` observed: final memory and the stores made

The same routine as `Stub.load_imports`, returning in addition the memory at the
moment it ended (also when it ended at `ExitProcess`) and, as a ghost value, the
stores into the address tables in the order they were made. -/

namespace Stub

/-- One pass through lines 133-168: the store of line 164 with what led to it. -/
structure Resolution where
  /-- Offset of the import descriptor being processed (`import_table`). -/
  descriptor : Nat
  /-- Offset of the lookup entry read (`lookup_table`). -/
  lookup_table : Nat
  /-- Offset of the address-table entry stored to (`address_table`). -/
  address_table : Nat
  /-- The address `GetProcAddress` returned (`function`). -/
  function : Nat

/-- The descriptor, the lookup entry and the address-table entry of a store. -/
def Resolution.key (x : Resolution) : Nat × Nat × Nat :=
  (x.descriptor, x.lookup_table, x.address_table)

/-- How a run of `load_imports` ended. -/
structure ImportWalk where
  /-- The halt that ended the run; `none` when the routine returned. -/
  halt : Option Halt
  /-- The memory at that moment. -/
  image : Mem
  /-- The stores made, in order. -/
  resolved : List Resolution

/-- The inner `while` loop of `load_imports` (lines 131-169), as `resolve_thunks`,
with the stores it made; `import_table` is the descriptor it works for. -/
def resolve_thunks_walk (os : Os) (dll_import import_table : Nat) :
    Nat → Mem → Nat → Nat → ImportWalk
  | 0, image, _, _ => ⟨some .fuel, image, []⟩
  | fuel + 1, image, lookup_table, address_table =>
    let lookup_address := image.read lookup_table 8
    if lookup_address = 0 then ⟨none, image, []⟩
    else if ordinal_test lookup_address then
      let function := os.GetProcAddress_ordinal dll_import (lookup_address &&& 0xFFFFFFFF)
      if function = 0 then ⟨some (.exit 5), image, []⟩
      else
        let rest := resolve_thunks_walk os dll_import import_table fuel
          (image.write address_table 8 function) (lookup_table + 8) (address_table + 8)
        ⟨rest.halt, rest.image,
          ⟨import_table, lookup_table, address_table, function⟩ :: rest.resolved⟩
    else
      let function := os.GetProcAddress_name image dll_import (lookup_address + 2)
      if function = 0 then ⟨some (.exit 6), image, []⟩
      else
        let rest := resolve_thunks_walk os dll_import import_table fuel
          (image.write address_table 8 function) (lookup_table + 8) (address_table + 8)
        ⟨rest.halt, rest.image,
          ⟨import_table, lookup_table, address_table, function⟩ :: rest.resolved⟩

/-- The outer `while` loop of `load_imports` (lines 110-173), as
`resolve_descriptors`, with the stores made. -/
def resolve_descriptors_walk (os : Os) : Nat → Mem → Nat → ImportWalk
  | 0, image, _ => ⟨some .fuel, image, []⟩
  | fuel + 1, image, import_table =>
    if image.read import_table 4 = 0 then ⟨none, image, []⟩
    else
      let dll_import := os.LoadLibraryA image (image.read (import_table + 12) 4)
      if dll_import = 0 then ⟨some (.exit 4), image, []⟩
      else
        let thunks := resolve_thunks_walk os dll_import import_table fuel image
          (image.read import_table 4) (image.read (import_table + 16) 4)
        match thunks.halt with
        | some e => ⟨some e, thunks.image, thunks.resolved⟩
        | none =>
          let rest := resolve_descriptors_walk os fuel thunks.image (import_table + 20)
          ⟨rest.halt, rest.image, thunks.resolved ++ rest.resolved⟩

/-- The function `load_imports` (lines 96-174), as `load_imports`, observed. -/
def load_imports_walk (os : Os) (fuel : Nat) (image : Mem) : ImportWalk :=
  match get_nt_headers image with
  | .error e => ⟨some e, image, []⟩
  | .ok nt_header =>
    let directory_va := image.read (nt_header + 24 + 112 + 8 * IMAGE_DIRECTORY_ENTRY_IMPORT) 4
    if directory_va = 0 then ⟨none, image, []⟩
    else resolve_descriptors_walk os fuel image directory_va

/-- The result of `load_imports` read off a walk. -/
def ImportWalk.result (w : ImportWalk) : Run Mem :=
  match w.halt with
  | none => .ok w.image
  | some h => .error h

end Stub

/-! ## Views of an import table, used to state the properties -/

namespace Import

/-- An import descriptor as the loader reads it, with the non-zero entries of
its lookup table. -/
structure Descriptor where
  /-- The field `OriginalFirstThunk`: offset of the lookup table. -/
  OriginalFirstThunk : Nat
  /-- The field `Name`: offset of the module name. -/
  Name : Nat
  /-- The field `FirstThunk`: offset of the address table. -/
  FirstThunk : Nat
  /-- The lookup entries before the zero entry. -/
  entries : List Nat

/-- The memory from offset `p` on holds the 8-byte lookup entries `es`, all
non-zero, and after them a zero entry. -/
def Lookup (m : Mem) : Nat → List Nat → Prop
  | p, [] => m.read p 8 = 0
  | p, e :: es => m.read p 8 = e ∧ e ≠ 0 ∧ Lookup m (p + 8) es

/-- The memory from offset `p` on holds the import descriptors `ds`, 20 bytes
each, every one with a non-zero `OriginalFirstThunk` that leads to its lookup
table, and after them a descriptor whose `OriginalFirstThunk` is zero. -/
def Table (m : Mem) : Nat → List Descriptor → Prop
  | p, [] => m.read p 4 = 0
  | p, d :: ds =>
    m.read p 4 = d.OriginalFirstThunk ∧ d.OriginalFirstThunk ≠ 0 ∧
    m.read (p + 12) 4 = d.Name ∧ m.read (p + 16) 4 = d.FirstThunk ∧
    Lookup m d.OriginalFirstThunk d.entries ∧ Table m (p + 20) ds

/-- The entries `0, ..., n - 1` of the descriptor at `import_table`, as triples
(descriptor, offset of the lookup entry, offset of the address-table entry). -/
def entries_of (import_table : Nat) : Nat → Nat → Nat → List (Nat × Nat × Nat)
  | _, _, 0 => []
  | lookup_table, address_table, n + 1 =>
    (import_table, lookup_table, address_table) ::
      entries_of import_table (lookup_table + 8) (address_table + 8) n

/-- All entries of all descriptors of the table at `p`, in the order of the
table. -/
def entries : Nat → List Descriptor → List (Nat × Nat × Nat)
  | _, [] => []
  | p, d :: ds =>
    entries_of p d.OriginalFirstThunk d.FirstThunk d.entries.length ++ entries (p + 20) ds

/-- Byte `x` belongs to the descriptor array at `p` (the `OriginalFirstThunk` of
the terminator included) or to a lookup table (its zero entry included). -/
def reads : Nat → List Descriptor → Nat → Prop
  | p, [], x => p ≤ x ∧ x < p + 4
  | p, d :: ds, x =>
    (p ≤ x ∧ x < p + 20) ∨
    (d.OriginalFirstThunk ≤ x ∧ x < d.OriginalFirstThunk + 8 * (d.entries.length + 1)) ∨
    reads (p + 20) ds x

/-- Byte `x` belongs to the address-table entry of one of the entries `keys`. -/
def written (keys : List (Nat × Nat × Nat)) (x : Nat) : Prop :=
  ∃ k ∈ keys, k.2.2 ≤ x ∧ x < k.2.2 + 8

/-- The directory field `DataDirectory[IMAGE_DIRECTORY_ENTRY_IMPORT].VirtualAddress`. -/
def directory (image : Mem) : Nat :=
  image.read (image.read 60 4 + 24 + 112 + 8 * IMAGE_DIRECTORY_ENTRY_IMPORT) 4

/-- What the resolver answers for the lookup entry `e` of a module: by ordinal
when the test of line 138 holds, by the name at `image + e + 2` otherwise. -/
def resolve (os : Stub.Os) (image : Mem) (module e : Nat) : Nat :=
  if Stub.ordinal_test e then os.GetProcAddress_ordinal module (e &&& 0xFFFFFFFF)
  else os.GetProcAddress_name image module (e + 2)

/-- The stores `rs` made one after the other on `m`. -/
def replay (rs : List Stub.Resolution) (m : Mem) : Mem :=
  rs.foldl (fun m r => m.write r.address_table 8 r.function) m

/-- The answers of the resolver to the calls made for the table `ds` do not
depend on the bytes of the address-table entries `keys`: the module names and
the import names lie elsewhere. -/
def Stable (os : Stub.Os) (image : Mem) (keys : List (Nat × Nat × Nat))
    (ds : List Descriptor) : Prop :=
  ∀ m : Mem, (∀ x, ¬ written keys x → m x = image x) →
    (∀ d ∈ ds, os.LoadLibraryA m d.Name = os.LoadLibraryA image d.Name) ∧
    (∀ d ∈ ds, ∀ e ∈ d.entries, ∀ module,
      os.GetProcAddress_name m module (e + 2) = os.GetProcAddress_name image module (e + 2))

end Import

/-! ## Sample inputs -/

/-- A small 64-bit image of 560 bytes used as a concrete stub, written field by
field with the offset of each field: DOS header with `e_lfanew = 64`, NT
signature, an optional header of 240 bytes, one section `.text` whose header is
at offset 328 and a zeroed spare slot at 368.  The declared `SizeOfImage` and
the virtual extent of `.text` are parameters. -/
def sample_stub (size_of_image virtual_address virtual_size : Nat) : Bytes :=
  leBytes 2 0x5A4D ++ List.replicate 58 0 ++          -- 0: e_magic "MZ"
  leBytes 4 64 ++                                     -- 60: e_lfanew
  leBytes 4 0x4550 ++ List.replicate 2 0 ++           -- 64: Signature "PE"
  leBytes 2 1 ++ List.replicate 12 0 ++               -- 70: NumberOfSections
  leBytes 2 240 ++ List.replicate 2 0 ++              -- 84: SizeOfOptionalHeader
  leBytes 2 0x20B ++ List.replicate 30 0 ++           -- 88: Magic
  leBytes 4 0x1000 ++                                 -- 120: SectionAlignment
  leBytes 4 0x200 ++ List.replicate 16 0 ++           -- 124: FileAlignment
  leBytes 4 size_of_image ++                          -- 144: SizeOfImage
  leBytes 4 0x200 ++ List.replicate 176 0 ++          -- 148: SizeOfHeaders
  [0x2E, 0x74, 0x65, 0x78, 0x74, 0, 0, 0] ++          -- 328: Name ".text"
  leBytes 4 virtual_size ++                           -- 336: VirtualSize
  leBytes 4 virtual_address ++                        -- 340: VirtualAddress
  leBytes 4 0x200 ++                                  -- 344: SizeOfRawData
  leBytes 4 0x200 ++ List.replicate 12 0 ++           -- 348: PointerToRawData
  leBytes 4 0x60000020 ++                             -- 364: Characteristics
  List.replicate 192 0                                -- 368: spare slot, then padding

/-- A mapped image with a relocation table, as writes on zeroed memory:
`e_lfanew = 64`; `ImageBase = 0x140000000`; `DllCharacteristics` as given; the
base-relocation directory at `0x3000`.  The table has a block for page `0x1000`
with `SizeOfBlock = 12` (a `DIR64` entry for offset `0x10`, an `ABSOLUTE` entry
for offset `0x20`), a block for page `0x2000` with `SizeOfBlock = 10` (a `DIR64`
entry for offset `0x08`) and the terminator.  The two target words hold
addresses inside the image at its preferred base; the word at `0x1020`, named by
the `ABSOLUTE` entry, holds `0x1122334455667788`. -/
def sample_image (dll_characteristics : Nat) : Mem :=
  let m : Mem := fun _ => 0
  let m := m.write 60 4 64                        -- e_lfanew
  let m := m.write 112 8 0x140000000              -- OptionalHeader.ImageBase
  let m := m.write 158 2 dll_characteristics      -- OptionalHeader.DllCharacteristics
  let m := m.write 240 4 0x3000                   -- DataDirectory[5].VirtualAddress
  let m := m.write 0x3000 4 0x1000                -- block 0: VirtualAddress
  let m := m.write 0x3004 4 12                    -- block 0: SizeOfBlock
  let m := m.write 0x3008 2 0xA010                -- DIR64, offset 0x010
  let m := m.write 0x300A 2 0x0020                -- ABSOLUTE, offset 0x020
  let m := m.write 0x300C 4 0x2000                -- block 1: VirtualAddress
  let m := m.write 0x3010 4 10                    -- block 1: SizeOfBlock
  let m := m.write 0x3014 2 0xA008                -- DIR64, offset 0x008
  let m := m.write 0x3016 4 0                     -- terminator: VirtualAddress
  let m := m.write 0x1010 8 0x140001234
  let m := m.write 0x1020 8 0x1122334455667788
  m.write 0x2008 8 0x140005678

/-- A mapped image with one import descriptor at `0x300` (`OriginalFirstThunk =
0x400`, `Name = 0x500`, `FirstThunk = 0x600`) followed by the zero descriptor;
the lookup table at `0x400` holds the one entry `lookup_entry` and the zero
terminator; an `IMAGE_IMPORT_BY_NAME` with the name `"open"` is at `0x700`. -/
def sample_import_image (lookup_entry : Nat) : Mem :=
  let m : Mem := fun _ => 0
  let m := m.write 60 4 64                        -- e_lfanew
  let m := m.write 208 4 0x300                    -- DataDirectory[1].VirtualAddress
  let m := m.write 0x300 4 0x400                  -- OriginalFirstThunk
  let m := m.write 0x30C 4 0x500                  -- Name
  let m := m.write 0x310 4 0x600                  -- FirstThunk
  let m := m.write 0x400 8 lookup_entry           -- lookup table, entry 0
  let m := m.write 0x500 6 0x6C6C642E61           -- "a.dll"
  m.write 0x702 5 0x6E65706F                      -- IMAGE_IMPORT_BY_NAME.Name "open"

/-- A resolver for the sample import image: the module `a.dll` loads at handle
`0x7FFA0000`, exports ordinal 2 at `0x7FFA1111` and the name `"open"` at
`0x7FFA2222`; every other lookup fails. -/
def sample_os : Stub.Os where
  LoadLibraryA := fun _ name => if name = 0x500 then 0x7FFA0000 else 0
  GetProcAddress_ordinal := fun module ordinal =>
    if module = 0x7FFA0000 ∧ ordinal = 2 then 0x7FFA1111 else 0
  GetProcAddress_name := fun image module name =>
    if module = 0x7FFA0000 ∧ Stub.bytes_at image name 5 = [0x6F, 0x70, 0x65, 0x6E, 0] then
      0x7FFA2222
    else 0

/-- A stand-in codec for the sample run: it inflates the five bytes
`9 8 7 6 5` into the three bytes `1 2 3` when given room for three bytes, and
fails otherwise. -/
def sample_uncompress (source : Bytes) (destLen : Nat) : Option Bytes :=
  if source = [9, 8, 7, 6, 5] ∧ destLen = 3 then some [1, 2, 3] else none

/-- A loaded carrier, as writes on zeroed memory: `e_lfanew = 64`, two section
headers after an optional header of 240 bytes, `.text` at 328 and `.packed` at
368 with `VirtualSize = 13` and `VirtualAddress = 0x2000`; at `0x2000` the
8-byte length prefix `unpacked_size`, then the five bytes `9 8 7 6 5`. -/
def sample_carrier (unpacked_size : Nat) : Mem :=
  let m : Mem := fun _ => 0
  let m := m.write 60 4 64                        -- e_lfanew
  let m := m.write 70 2 2                         -- NumberOfSections
  let m := m.write 84 2 240                       -- SizeOfOptionalHeader
  let m := m.write 328 8 0x000000747865742E       -- Name ".text"
  let m := m.write 336 4 0x30                     -- VirtualSize
  let m := m.write 340 4 0x1000                   -- VirtualAddress
  let m := m.write 368 8 0x0064656B6361702E       -- Name ".packed"
  let m := m.write 376 4 13                       -- VirtualSize
  let m := m.write 380 4 0x2000                   -- VirtualAddress
  let m := m.write 0x2000 8 unpacked_size         -- length prefix
  m.write 0x2008 5 0x0506070809                   -- compressed bytes 9 8 7 6 5

/-- A codec given by its call contract: the compressed bytes decode to `data`;
decompression into a destination of capacity `destLen` fails when `destLen` is
smaller than `data`, and otherwise succeeds and produces `data`. -/
def contract_uncompress (data : Bytes) (_source : Bytes) (destLen : Nat) : Option Bytes :=
  if destLen < data.length then none else some data

/-- A source image of 412 bytes for `load_image`, written field by field with
the offset of each field: `SizeOfImage = 0x240`, `SizeOfHeaders = 0x198` (the end
of the section table), a section `.bss` with no raw data and the virtual extent
`[0x200, 0x210)`, and a section `.data` at the virtual address `data_address`
whose four raw bytes `DE AD BE EF` are the last four bytes of the file. -/
def sample_source (data_address : Nat) : Bytes :=
  leBytes 2 0x5A4D ++ List.replicate 58 0 ++          -- 0: e_magic "MZ"
  leBytes 4 64 ++                                     -- 60: e_lfanew
  leBytes 4 0x4550 ++ List.replicate 2 0 ++           -- 64: Signature "PE"
  leBytes 2 2 ++ List.replicate 12 0 ++               -- 70: NumberOfSections
  leBytes 2 240 ++ List.replicate 2 0 ++              -- 84: SizeOfOptionalHeader
  leBytes 2 0x20B ++ List.replicate 54 0 ++           -- 88: Magic
  leBytes 4 0x240 ++                                  -- 144: SizeOfImage
  leBytes 4 0x198 ++ List.replicate 176 0 ++          -- 148: SizeOfHeaders
  [0x2E, 0x62, 0x73, 0x73, 0, 0, 0, 0] ++             -- 328: Name ".bss"
  leBytes 4 0x10 ++                                   -- 336: VirtualSize
  leBytes 4 0x200 ++                                  -- 340: VirtualAddress
  leBytes 4 0 ++                                      -- 344: SizeOfRawData
  leBytes 4 0 ++ List.replicate 12 0 ++               -- 348: PointerToRawData
  leBytes 4 0xC0000080 ++                             -- 364: Characteristics
  [0x2E, 0x64, 0x61, 0x74, 0x61, 0, 0, 0] ++          -- 368: Name ".data"
  leBytes 4 4 ++                                      -- 376: VirtualSize
  leBytes 4 data_address ++                           -- 380: VirtualAddress
  leBytes 4 4 ++                                      -- 384: SizeOfRawData
  leBytes 4 0x198 ++ List.replicate 12 0 ++           -- 388: PointerToRawData
  leBytes 4 0xC0000040 ++                             -- 404: Characteristics
  [0xDE, 0xAD, 0xBE, 0xEF]                            -- 408: raw data of ".data"

/-- The sample image with imports and a second lookup entry: the lookup table at
`0x400` holds the entry `0x700` (the name `"open"`), then `second_entry`, then the
zero entry at `0x410`. -/
def sample_import_pair (second_entry : Nat) : Mem :=
  (sample_import_image 0x700).write 0x408 8 second_entry

/-! ## Theorems -/

set_option maxRecDepth 100000

/-! ### Buffers and memory -/

theorem byteOf_val (n : Nat) : (byteOf n).val = n % 256 := rfl

theorem toMem_append (a b : Bytes) (x : Nat) :
    Bytes.toMem (a ++ b) x = if x < a.length then a.toMem x else b.toMem (x - a.length) := by
  unfold Bytes.toMem
  by_cases h : x < a.length
  · simp [List.getD_eq_getElem?_getD, List.getElem?_append_left h, h]
  · simp [List.getD_eq_getElem?_getD, List.getElem?_append_right (Nat.le_of_not_lt h), h]

theorem toMem_replicate (n x : Nat) : Bytes.toMem (List.replicate n (0 : Byte)) x = 0 := by
  unfold Bytes.toMem
  by_cases h : x < n
  · simp [List.getD_eq_getElem?_getD, List.getElem?_replicate, h]
  · simp [List.getD_eq_getElem?_getD, List.getElem?_replicate, h]

theorem toMem_take (b : Bytes) (n x : Nat) :
    Bytes.toMem (b.take n) x = if x < n then b.toMem x else 0 := by
  unfold Bytes.toMem
  by_cases h : x < n
  · simp [List.getD_eq_getElem?_getD, List.getElem?_take, h]
  · simp [List.getD_eq_getElem?_getD, List.getElem?_take, h]

theorem toMem_drop (b : Bytes) (n x : Nat) : Bytes.toMem (b.drop n) x = b.toMem (n + x) := by
  unfold Bytes.toMem
  simp [List.getD_eq_getElem?_getD, List.getElem?_drop]

theorem length_leBytes (n v : Nat) : (leBytes n v).length = n := by
  simp [leBytes]

theorem toMem_leBytes (n v x : Nat) :
    Bytes.toMem (leBytes n v) x = if x < n then byteOf (v / 256 ^ x) else 0 := by
  unfold Bytes.toMem leBytes
  by_cases h : x < n
  · simp [List.getD_eq_getElem?_getD, List.getElem?_map, List.getElem?_range, h]
  · simp [List.getD_eq_getElem?_getD, List.getElem?_map, h,
      List.getElem?_eq_none (l := List.range n) (by simpa using Nat.le_of_not_lt h)]

theorem length_patch (b d : Bytes) (off : Nat) (h : off + d.length ≤ b.length) :
    (b.patch off d).length = b.length := by
  simp [Bytes.patch]; omega

theorem toMem_patch (b d : Bytes) (off x : Nat) (h : off + d.length ≤ b.length) :
    Bytes.toMem (b.patch off d) x =
      if off ≤ x ∧ x < off + d.length then d.toMem (x - off) else b.toMem x := by
  have hl : (List.take off b).length = off := by simp; omega
  unfold Bytes.patch
  rw [List.append_assoc, toMem_append, hl, toMem_append, toMem_take, toMem_drop]
  by_cases h1 : x < off
  · have : ¬ (off ≤ x ∧ x < off + d.length) := by omega
    simp only [h1, this, if_true, if_false]
  · by_cases h2 : x - off < d.length
    · have : off ≤ x ∧ x < off + d.length := by omega
      simp [h1, h2, this]
    · have : ¬ (off ≤ x ∧ x < off + d.length) := by omega
      simp only [h1, h2, this, if_false]
      congr 1; omega

theorem read_lt (m : Mem) (a n : Nat) : m.read a n < 256 ^ n := by
  induction n generalizing a with
  | zero => simp [Mem.read]
  | succ n ih =>
    have h1 := ih (a + 1)
    have h2 : (m a).val < 256 := (m a).isLt
    rw [Mem.read, Nat.pow_succ]
    omega

theorem read_congr (m m' : Mem) (a n : Nat) (h : ∀ i, i < n → m (a + i) = m' (a + i)) :
    m.read a n = m'.read a n := by
  induction n generalizing a with
  | zero => rfl
  | succ n ih =>
    have h0 := h 0 (Nat.succ_pos n)
    rw [Nat.add_zero] at h0
    rw [Mem.read, Mem.read, h0, ih (a + 1)]
    intro i hi
    have := h (i + 1) (Nat.succ_lt_succ hi)
    rwa [Nat.add_assoc, Nat.add_comm 1 i]

theorem write_of_not_mem (m : Mem) (a n v x : Nat) (h : x < a ∨ a + n ≤ x) :
    m.write a n v x = m x := by
  unfold Mem.write
  rw [if_neg (by omega)]

theorem write_of_mem (m : Mem) (a n v x : Nat) (h1 : a ≤ x) (h2 : x < a + n) :
    m.write a n v x = byteOf (v / 256 ^ (x - a)) := by
  unfold Mem.write
  rw [if_pos ⟨h1, h2⟩]

theorem read_write_other (m : Mem) (a n v b k : Nat) (h : b + k ≤ a ∨ a + n ≤ b) :
    (m.write a n v).read b k = m.read b k :=
  read_congr _ _ _ _ fun i hi => write_of_not_mem m a n v (b + i) (by omega)

theorem read_write_same (m : Mem) (a n v : Nat) : (m.write a n v).read a n = v % 256 ^ n := by
  induction n generalizing a v m with
  | zero => simp [Mem.read, Nat.mod_one]
  | succ n ih =>
    have hstep : (m.write a (n + 1) v).read (a + 1) n =
        ((m.write a 1 v).write (a + 1) n (v / 256)).read (a + 1) n := by
      apply read_congr
      intro i hi
      rw [write_of_mem _ _ _ _ _ (by omega) (by omega),
        write_of_mem _ _ _ _ _ (by omega) (by omega)]
      have e1 : a + 1 + i - a = i + 1 := by omega
      have e2 : a + 1 + i - (a + 1) = i := by omega
      rw [e1, e2, Nat.pow_succ, Nat.mul_comm, Nat.div_div_eq_div_mul]
    rw [Mem.read, hstep, ih, write_of_mem _ _ _ _ _ (Nat.le_refl a) (by omega), Nat.sub_self,
      Nat.pow_zero, Nat.div_one, byteOf_val, Nat.pow_succ, Nat.mul_comm (256 ^ n) 256,
      Nat.mod_mul]

theorem read_byte (m : Mem) (a n i : Nat) (h : i < n) :
    (m (a + i)).val = m.read a n / 256 ^ i % 256 := by
  induction n generalizing a i with
  | zero => omega
  | succ n ih =>
    have hb : (m a).val < 256 := (m a).isLt
    rw [Mem.read]
    cases i with
    | zero => simp; omega
    | succ j =>
      have := ih (a + 1) j (by omega)
      rw [Nat.add_assoc, Nat.add_comm 1 j] at this
      rw [this, Nat.pow_succ, Nat.mul_comm (256 ^ j) 256, ← Nat.div_div_eq_div_mul]
      congr 2
      omega

theorem write_read_self (m : Mem) (a n : Nat) : m.write a n (m.read a n) = m := by
  funext x
  unfold Mem.write
  split
  · rename_i h
    apply Fin.ext
    rw [byteOf_val, ← read_byte m a n (x - a) (by omega)]
    congr 2
    omega
  · rfl

/-! ### The header patch -/

theorem rd_ok (b : Bytes) (off n : Nat) (h : off + n ≤ b.length) :
    b.rd off n = .ok (b.toMem.read off n) := if_pos h

theorem wr_ok (b : Bytes) (off n v : Nat) (h : off + n ≤ b.length) :
    b.wr off n v = .ok (b.patch off (leBytes n v)) := if_pos h

theorem copyIn_ok (b d : Bytes) (off : Nat) (h : off + d.length ≤ b.length) :
    b.copyIn off d = .ok (b.patch off d) := if_pos h

theorem toMem_wr (b : Bytes) (off n v : Nat) (h : off + n ≤ b.length) :
    Bytes.toMem (b.patch off (leBytes n v)) = (Bytes.toMem b).write off n v := by
  funext x
  rw [toMem_patch b _ off x (by rw [length_leBytes]; exact h), length_leBytes, toMem_leBytes]
  unfold Mem.write
  by_cases hx : off ≤ x ∧ x < off + n
  · rw [if_pos hx, if_pos hx, if_pos (by omega)]
  · rw [if_neg hx, if_neg hx]

theorem length_wr (b : Bytes) (off n v : Nat) (h : off + n ≤ b.length) :
    (b.patch off (leBytes n v)).length = b.length :=
  length_patch b _ off (by rw [length_leBytes]; exact h)

theorem dotPacked_eq : dotPacked = leBytes 8 0x0064656B6361702E := by decide

theorem patch_headers_spec (b : Bytes)
    (nt fa sa ro ss n soh : Nat) (hsa : 0 < sa)
    (hn : b.toMem.read (nt + 6) 2 = n) (hsoh : b.toMem.read (nt + 20) 2 = soh)
    (h60 : 60 ≤ soh) (hslot : nt + 24 + soh + 40 * n + 40 ≤ b.length) :
    ∃ out, Packer.patch_headers b nt fa sa ro ss = .ok out ∧ out.length = b.length ∧
      out.toMem =
        (((((((b.toMem.write (nt + 6) 2 ((n + 1) % 2 ^ 16)).write
          (nt + 24 + soh + 40 * n) 8 0x0064656B6361702E).write
          (nt + 24 + soh + 40 * n + 8) 4 ss).write
          (nt + 24 + soh + 40 * n + 12) 4
            (align 32 ((b.toMem.read (nt + 24 + soh + 40 * n - 40 + 12) 4 +
              b.toMem.read (nt + 24 + soh + 40 * n - 40 + 8) 4) % 2 ^ 32) sa)).write
          (nt + 24 + soh + 40 * n + 16) 4 (align 32 ss fa)).write
          (nt + 24 + soh + 40 * n + 20) 4 ro).write
          (nt + 24 + soh + 40 * n + 36) 4
            (IMAGE_SCN_MEM_READ ||| IMAGE_SCN_CNT_INITIALIZED_DATA)).write
          (nt + 24 + 56) 4
            (align 32 ((align 32 ((b.toMem.read (nt + 24 + soh + 40 * n - 40 + 12) 4 +
              b.toMem.read (nt + 24 + soh + 40 * n - 40 + 8) 4) % 2 ^ 32) sa + ss) % 2 ^ 32)
              sa) := by
  unfold Packer.patch_headers
  rw [rd_ok b (nt + 6) 2 (by omega), hn]
  simp only [bind, Except.bind]
  -- NumberOfSections
  have l1 := length_wr b (nt + 6) 2 ((n + 1) % 2 ^ 16) (by omega)
  have m1 := toMem_wr b (nt + 6) 2 ((n + 1) % 2 ^ 16) (by omega)
  rw [wr_ok b (nt + 6) 2 _ (by omega)]
  try simp only []
  generalize b.patch (nt + 6) (leBytes 2 ((n + 1) % 2 ^ 16)) = b1 at l1 m1 ⊢
  have hsoh1 : b1.toMem.read (nt + 20) 2 = soh := by
    rw [m1, read_write_other _ _ _ _ _ _ (by omega), hsoh]
  rw [rd_ok b1 (nt + 20) 2 (by omega), hsoh1]
  try simp only []
  rw [if_neg (by omega)]
  simp only [pure, Except.pure]
  rw [rd_ok b1 _ 4 (by omega), rd_ok b1 _ 4 (by omega)]
  try simp only []
  rw [if_neg (by omega)]
  try simp only []
  have hva : b1.toMem.read (nt + 24 + soh + 40 * n - 40 + 12) 4 =
      b.toMem.read (nt + 24 + soh + 40 * n - 40 + 12) 4 := by
    rw [m1, read_write_other _ _ _ _ _ _ (by omega)]
  have hvs : b1.toMem.read (nt + 24 + soh + 40 * n - 40 + 8) 4 =
      b.toMem.read (nt + 24 + soh + 40 * n - 40 + 8) 4 := by
    rw [m1, read_write_other _ _ _ _ _ _ (by omega)]
  rw [hva, hvs]
  generalize align 32 ((b.toMem.read (nt + 24 + soh + 40 * n - 40 + 12) 4 +
    b.toMem.read (nt + 24 + soh + 40 * n - 40 + 8) 4) % 2 ^ 32) sa = va
  -- Name
  rw [copyIn_ok b1 dotPacked _ (by simp [dotPacked]; omega), dotPacked_eq]
  try simp only []
  have l2 := length_wr b1 (nt + 24 + soh + 40 * n) 8 0x0064656B6361702E (by omega)
  have m2 := toMem_wr b1 (nt + 24 + soh + 40 * n) 8 0x0064656B6361702E (by omega)
  generalize b1.patch (nt + 24 + soh + 40 * n) (leBytes 8 0x0064656B6361702E) = b2 at l2 m2 ⊢
  -- VirtualSize
  have l3 := length_wr b2 (nt + 24 + soh + 40 * n + 8) 4 ss (by omega)
  have m3 := toMem_wr b2 (nt + 24 + soh + 40 * n + 8) 4 ss (by omega)
  rw [wr_ok b2 _ 4 _ (by omega)]
  try simp only []
  generalize b2.patch (nt + 24 + soh + 40 * n + 8) (leBytes 4 ss) = b3 at l3 m3 ⊢
  -- VirtualAddress
  have l4 := length_wr b3 (nt + 24 + soh + 40 * n + 12) 4 va (by omega)
  have m4 := toMem_wr b3 (nt + 24 + soh + 40 * n + 12) 4 va (by omega)
  rw [wr_ok b3 _ 4 _ (by omega)]
  try simp only []
  generalize b3.patch (nt + 24 + soh + 40 * n + 12) (leBytes 4 va) = b4 at l4 m4 ⊢
  -- SizeOfRawData
  have l5 := length_wr b4 (nt + 24 + soh + 40 * n + 16) 4 (align 32 ss fa) (by omega)
  have m5 := toMem_wr b4 (nt + 24 + soh + 40 * n + 16) 4 (align 32 ss fa) (by omega)
  rw [wr_ok b4 _ 4 _ (by omega)]
  try simp only []
  generalize b4.patch (nt + 24 + soh + 40 * n + 16) (leBytes 4 (align 32 ss fa)) = b5 at l5 m5 ⊢
  -- PointerToRawData
  have l6 := length_wr b5 (nt + 24 + soh + 40 * n + 20) 4 ro (by omega)
  have m6 := toMem_wr b5 (nt + 24 + soh + 40 * n + 20) 4 ro (by omega)
  rw [wr_ok b5 _ 4 _ (by omega)]
  try simp only []
  generalize b5.patch (nt + 24 + soh + 40 * n + 20) (leBytes 4 ro) = b6 at l6 m6 ⊢
  -- Characteristics
  have l7 := length_wr b6 (nt + 24 + soh + 40 * n + 36) 4
    (IMAGE_SCN_MEM_READ ||| IMAGE_SCN_CNT_INITIALIZED_DATA) (by omega)
  have m7 := toMem_wr b6 (nt + 24 + soh + 40 * n + 36) 4
    (IMAGE_SCN_MEM_READ ||| IMAGE_SCN_CNT_INITIALIZED_DATA) (by omega)
  rw [wr_ok b6 _ 4 _ (by omega)]
  try simp only []
  generalize b6.patch (nt + 24 + soh + 40 * n + 36)
    (leBytes 4 (IMAGE_SCN_MEM_READ ||| IMAGE_SCN_CNT_INITIALIZED_DATA)) = b7 at l7 m7 ⊢
  -- SizeOfImage
  have l8 := length_wr b7 (nt + 24 + 56) 4 (align 32 ((va + ss) % 2 ^ 32) sa) (by omega)
  have m8 := toMem_wr b7 (nt + 24 + 56) 4 (align 32 ((va + ss) % 2 ^ 32) sa) (by omega)
  rw [wr_ok b7 _ 4 _ (by omega)]
  refine ⟨_, rfl, by omega, ?_⟩
  rw [m8, m7, m6, m5, m4, m3, m2, m1]

/-! ### `align` -/

theorem align_of_dvd (w v a : Nat) (hv : v < 2 ^ w) (h : v % a = 0) : align w v a = v := by
  simp [align, h, Nat.mod_eq_of_lt hv]

theorem align_exact (w v a : Nat) (ha : 0 < a) (hov : v + a ≤ 2 ^ w) :
    align w v a = (v + a - 1) / a * a := by
  have hlt : v % a < a := Nat.mod_lt v ha
  have hdm : a * (v / a) + v % a = v := Nat.div_add_mod v a
  unfold align
  by_cases h : v % a = 0
  · have hq : (v + a - 1) / a = v / a := by
      have e : v + a - 1 = (a - 1) + a * (v / a) := by omega
      rw [e, Nat.add_mul_div_left _ _ ha, Nat.div_eq_of_lt (by omega)]; omega
    rw [if_pos h, hq, Nat.add_zero, Nat.mod_eq_of_lt (by omega), Nat.mul_comm]; omega
  · have hq : (v + a - 1) / a = v / a + 1 := by
      have e : v + a - 1 = (v % a - 1) + a * (v / a + 1) := by
        rw [Nat.mul_add]; omega
      rw [e, Nat.add_mul_div_left _ _ ha, Nat.div_eq_of_lt (by omega)]; omega
    rw [if_neg h, hq, Nat.mod_eq_of_lt (by omega), Nat.add_mul, Nat.mul_comm]; omega

/-- **C4.** When `v + a` does not overflow the `w`-bit type and `a > 0` (a power
of two in particular), `align v a` is the least multiple of `a` that is `≥ v`:
`a` divides it, it is `≥ v`, and every multiple `m ≥ v` of `a` is `≥ align v a`. -/
theorem align_least_multiple (w v a : Nat) (ha : 0 < a) (hov : v + a < 2 ^ w) :
    a ∣ align w v a ∧ v ≤ align w v a ∧ ∀ m, a ∣ m → v ≤ m → align w v a ≤ m := by
  rw [align_exact w v a ha (Nat.le_of_lt hov)]
  have hlt : (v + a - 1) % a < a := Nat.mod_lt _ ha
  have hdm : a * ((v + a - 1) / a) + (v + a - 1) % a = v + a - 1 := Nat.div_add_mod _ a
  refine ⟨Nat.dvd_mul_left _ _, ?_, ?_⟩
  · rw [Nat.mul_comm]; omega
  · rintro m ⟨q, rfl⟩ hvm
    rw [Nat.mul_comm a q]
    apply Nat.mul_le_mul_right
    apply Nat.le_of_lt_succ
    rw [Nat.div_lt_iff_lt_mul ha, Nat.succ_mul, Nat.mul_comm q a]
    omega

/-- Witness of C4 at the 32-bit instantiation: `align<DWORD>(0x1234, 0x200)`. -/
theorem align_least_multiple_witness :
    512 ∣ align 32 4660 512 ∧ 4660 ≤ align 32 4660 512 ∧
      ∀ m, 512 ∣ m → 4660 ≤ m → align 32 4660 512 ≤ m :=
  align_least_multiple 32 4660 512 (by decide) (by decide)

theorem align_lt_add (w v a : Nat) (ha : 0 < a) : align w v a < v + a := by
  have hlt : v % a < a := Nat.mod_lt v ha
  unfold align
  refine Nat.lt_of_le_of_lt (Nat.mod_le _ _) ?_
  split <;> omega

theorem align_dvd_pow (w k v : Nat) (hk : k ≤ w) : 2 ^ k ∣ align w v (2 ^ k) := by
  have ha : 0 < 2 ^ k := Nat.pow_pos (by decide)
  have hlt : v % 2 ^ k < 2 ^ k := Nat.mod_lt v ha
  have hdm : 2 ^ k * (v / 2 ^ k) + v % 2 ^ k = v := Nat.div_add_mod v _
  unfold align
  apply (Nat.dvd_mod_iff (Nat.pow_dvd_pow 2 hk)).2
  by_cases h : v % 2 ^ k = 0
  · rw [if_pos h, Nat.add_zero]; exact Nat.dvd_of_mod_eq_zero h
  · rw [if_neg h]
    refine ⟨v / 2 ^ k + 1, ?_⟩
    rw [Nat.mul_add]; omega

theorem align_lt_pow (w v a : Nat) : align w v a < 2 ^ w :=
  Nat.mod_lt _ (Nat.pow_pos (by decide))

theorem align_wrap_zero (w k v : Nat) (hk : k < w) (hv : v < 2 ^ w) :
    v ≤ align w v (2 ^ k) ∨ align w v (2 ^ k) = 0 := by
  have ha : 0 < 2 ^ k := Nat.pow_pos (by decide)
  have hlt : v % 2 ^ k < 2 ^ k := Nat.mod_lt v ha
  have hw : 0 < 2 ^ w := Nat.pow_pos (by decide)
  by_cases h0 : v % 2 ^ k = 0
  · left; rw [align_of_dvd w v _ hv h0]
  · by_cases hfit : v + (2 ^ k - v % 2 ^ k) < 2 ^ w
    · left
      unfold align
      rw [if_neg h0, Nat.mod_eq_of_lt hfit]
      omega
    · right
      have hd1 : 2 ^ k ∣ v + (2 ^ k - v % 2 ^ k) := by
        have hdm : 2 ^ k * (v / 2 ^ k) + v % 2 ^ k = v := Nat.div_add_mod v _
        refine ⟨v / 2 ^ k + 1, ?_⟩
        rw [Nat.mul_add]; omega
      have hd2 : 2 ^ k ∣ 2 ^ w := Nat.pow_dvd_pow 2 (Nat.le_of_lt hk)
      have hd3 : 2 ^ k ∣ v + (2 ^ k - v % 2 ^ k) - 2 ^ w := Nat.dvd_sub' hd1 hd2
      have hz : v + (2 ^ k - v % 2 ^ k) - 2 ^ w = 0 :=
        Nat.eq_zero_of_dvd_of_lt hd3 (by omega)
      unfold align
      rw [if_neg h0, show v + (2 ^ k - v % 2 ^ k) = 2 ^ w by omega, Nat.mod_self]

/-- **C5 (amended).** For a `w`-bit unsigned type, every representable `v` and
every power of two `a = 2^k` of that type: `align` is idempotent and
`align v a < v + a`; `align v a ≥ v` whenever `v + a ≤ 2^w`; and in every case
either `align v a ≥ v` or the rounding has left the type and `align v a = 0`. -/
theorem align_idempotent_bounds (w k v : Nat) (hk : k < w) (hv : v < 2 ^ w) :
    align w (align w v (2 ^ k)) (2 ^ k) = align w v (2 ^ k) ∧
      align w v (2 ^ k) < v + 2 ^ k ∧
      (v + 2 ^ k ≤ 2 ^ w → v ≤ align w v (2 ^ k)) ∧
      (v ≤ align w v (2 ^ k) ∨ align w v (2 ^ k) = 0) := by
  have ha : 0 < 2 ^ k := Nat.pow_pos (by decide)
  refine ⟨?_, align_lt_add w v _ ha, ?_, align_wrap_zero w k v hk hv⟩
  · exact align_of_dvd w _ _ (align_lt_pow w v _)
      (Nat.mod_eq_zero_of_dvd (align_dvd_pow w k v (Nat.le_of_lt hk)))
  · intro hov
    have hlt : v % 2 ^ k < 2 ^ k := Nat.mod_lt v ha
    unfold align
    rw [Nat.mod_eq_of_lt (by split <;> omega)]
    omega

/-- Witness of the amended C5 at `align<DWORD>(0x1234, 0x200)`, which is `0x1400`. -/
theorem align_idempotent_bounds_witness :
    align 32 4660 (2 ^ 9) = 5120 ∧
      align 32 (align 32 4660 (2 ^ 9)) (2 ^ 9) = align 32 4660 (2 ^ 9) ∧
      align 32 4660 (2 ^ 9) < 4660 + 2 ^ 9 :=
  ⟨by decide, (align_idempotent_bounds 32 9 4660 (by decide) (by decide)).1,
    (align_idempotent_bounds 32 9 4660 (by decide) (by decide)).2.1⟩

/-- **C5, counterexample.** At `DWORD`, `align(0xFFFFFFFF, 2)` wraps to `0`, which
is below `v`; the same happens at `size_t` for `v = 2^64 - 1`. -/
theorem align_ge_fails_on_wrap :
    (4294967295 < 2 ^ 32 ∧ align 32 4294967295 (2 ^ 1) = 0 ∧
        ¬ 4294967295 ≤ align 32 4294967295 (2 ^ 1)) ∧
      (18446744073709551615 < 2 ^ 64 ∧ align 64 18446744073709551615 (2 ^ 1) = 0 ∧
        ¬ 18446744073709551615 ≤ align 64 18446744073709551615 (2 ^ 1)) := by
  decide

/-! ### The packer's output -/

theorem le_align (w v a : Nat) (ha : 0 < a) (hov : v + a ≤ 2 ^ w) : v ≤ align w v a := by
  have hlt : v % a < a := Nat.mod_lt v ha
  unfold align
  rw [Nat.mod_eq_of_lt (by split <;> omega)]
  omega

theorem resize_pad (b : Bytes) (a : Nat) (ha : 0 < a) (h : b.length + a ≤ 2 ^ 64) :
    (if b.length % a ≠ 0 then b.resize (align 64 b.length a) else b) =
      b ++ List.replicate (align 64 b.length a - b.length) 0 := by
  by_cases h0 : b.length % a = 0
  · rw [if_neg (by simpa using h0), align_of_dvd 64 _ a (by omega) h0]
    simp
  · rw [if_pos h0]
    unfold Bytes.resize
    rw [List.take_of_length_le (le_align 64 _ a ha h)]

theorem append_payload_eq (s t c : Bytes) (fa : Nat) (hfa : 0 < fa) (hs : s.length < 2 ^ 32)
    (hfa32 : fa < 2 ^ 32) :
    Packer.append_payload s t c fa =
      (s ++ List.replicate (align 64 s.length fa - s.length) 0 ++ leBytes 8 t.length ++ c,
        align 64 s.length fa % 2 ^ 32, (c.length + 8) % 2 ^ 32) := by
  have hle := le_align 64 s.length fa hfa (by omega)
  unfold Packer.append_payload
  simp only []
  rw [resize_pad s fa hfa (by omega)]
  simp
  omega

theorem e_lfanew_ok (s : Bytes) (h : 64 ≤ s.length) (hnt : Image.nt s < 2 ^ 31) :
    Packer.e_lfanew s = .ok (Image.nt s) := by
  unfold Packer.e_lfanew
  rw [rd_ok s 60 4 (by omega)]
  simp only [bind, Except.bind]
  rw [if_pos (show s.toMem.read 60 4 < 2 ^ 31 from hnt)]
  rfl

theorem toMem_append_left (a b : Bytes) (x : Nat) (h : x < a.length) :
    Bytes.toMem (a ++ b) x = a.toMem x := by
  rw [toMem_append, if_pos h]

theorem drop_eq_of_toMem (a b : Bytes) (k : Nat) (hl : a.length = b.length)
    (h : ∀ x, k ≤ x → a.toMem x = b.toMem x) : a.drop k = b.drop k := by
  apply List.ext_getElem?
  intro i
  rw [List.getElem?_drop, List.getElem?_drop]
  have := h (k + i) (by omega)
  unfold Bytes.toMem at this
  rw [List.getD_eq_getElem?_getD, List.getD_eq_getElem?_getD] at this
  by_cases hi : k + i < a.length
  · rw [List.getElem?_eq_getElem hi, List.getElem?_eq_getElem (hl ▸ hi)] at this ⊢
    simpa using this
  · rw [List.getElem?_eq_none (by omega), List.getElem?_eq_none (by omega)]

theorem pow256_4 : (256 : Nat) ^ 4 = 2 ^ 32 := by norm_num
theorem pow256_2 : (256 : Nat) ^ 2 = 2 ^ 16 := by norm_num
theorem pow256_8 : (256 : Nat) ^ 8 = 2 ^ 64 := by norm_num

theorem pack_eq (capacity : Nat) (s t c : Bytes) (hs : StubTemplate s)
    (hc : c.length < 2 ^ 63) :
    Packer.pack capacity s t c =
      if (align 64 s.length (Image.FileAlignment s) + 8 + c.length) % Image.FileAlignment s ≠ 0 ∧
          capacity < align 64 (align 64 s.length (Image.FileAlignment s) + 8 + c.length)
            (Image.FileAlignment s) then
        match Packer.patch_headers
          (s ++ List.replicate (align 64 s.length (Image.FileAlignment s) - s.length) 0 ++
            leBytes 8 t.length ++ c)
          (Image.nt s) (Image.FileAlignment s) (Image.SectionAlignment s)
          (align 64 s.length (Image.FileAlignment s) % 2 ^ 32) ((c.length + 8) % 2 ^ 32) with
        | .error e => .error e
        | .ok _ => .ok
          (s ++ List.replicate (align 64 s.length (Image.FileAlignment s) - s.length) 0 ++
            leBytes 8 t.length ++ c ++
            List.replicate (align 64 (align 64 s.length (Image.FileAlignment s) + 8 + c.length)
              (Image.FileAlignment s) -
                (align 64 s.length (Image.FileAlignment s) + 8 + c.length)) 0)
      else
        Packer.patch_headers
          (s ++ List.replicate (align 64 s.length (Image.FileAlignment s) - s.length) 0 ++
            leBytes 8 t.length ++ c ++
            List.replicate (align 64 (align 64 s.length (Image.FileAlignment s) + 8 + c.length)
              (Image.FileAlignment s) -
                (align 64 s.length (Image.FileAlignment s) + 8 + c.length)) 0)
          (Image.nt s) (Image.FileAlignment s) (Image.SectionAlignment s)
          (align 64 s.length (Image.FileAlignment s) % 2 ^ 32) ((c.length + 8) % 2 ^ 32) := by
  obtain ⟨hsize, hraw, hdos, hlf, hopt, hspare, hcount, hfa, hsa⟩ := hs
  have hfa32 : Image.FileAlignment s < 2 ^ 32 := by
    rw [← pow256_4]; exact read_lt _ _ _
  have hel := e_lfanew_ok s
    (by unfold Image.section_header Image.section_table at hspare; omega) hlf
  have hle := le_align 64 s.length _ hfa (by omega)
  have hlt := align_lt_add 64 s.length _ hfa
  have hle2 := le_align 64 (align 64 s.length (Image.FileAlignment s) + 8 + c.length) _ hfa
    (by omega)
  unfold Packer.pack
  rw [hel]
  simp only [bind, Except.bind]
  unfold Image.section_header Image.section_table at hspare
  rw [rd_ok s _ 4 (by omega), rd_ok s _ 4 (by omega)]
  simp only []
  rw [if_neg (by
    show ¬ Image.FileAlignment s = 0
    omega)]
  simp only [pure, Except.pure]
  rw [show s.toMem.read (Image.nt s + 24 + 36) 4 = Image.FileAlignment s from rfl,
    show s.toMem.read (Image.nt s + 24 + 32) 4 = Image.SectionAlignment s from rfl,
    append_payload_eq s t c _ hfa hsize hfa32]
  simp only []
  have hlen : (s ++ List.replicate (align 64 s.length (Image.FileAlignment s) - s.length) 0 ++
      leBytes 8 t.length ++ c).length =
      align 64 s.length (Image.FileAlignment s) + 8 + c.length := by
    simp [length_leBytes]; omega
  rw [hlen]
  generalize s ++ List.replicate (align 64 s.length (Image.FileAlignment s) - s.length) 0 ++
      leBytes 8 t.length ++ c = H at hlen ⊢
  generalize align 64 s.length (Image.FileAlignment s) = r at *
  by_cases h0 : (r + 8 + c.length) % Image.FileAlignment s = 0
  · rw [if_neg (by simpa using h0), if_neg (by
      intro h; exact h.1 h0), align_of_dvd 64 _ _ (by omega) h0]
    simp
  · have hres : H.resize (align 64 (r + 8 + c.length) (Image.FileAlignment s)) =
        H ++ List.replicate (align 64 (r + 8 + c.length) (Image.FileAlignment s) -
          (r + 8 + c.length)) 0 := by
      unfold Bytes.resize
      rw [List.take_of_length_le (by rw [hlen]; exact hle2), hlen]
    rw [if_pos h0, hres]
    have hl2 : (H ++ List.replicate (align 64 (r + 8 + c.length) (Image.FileAlignment s) -
          (r + 8 + c.length)) 0).length =
        align 64 (r + 8 + c.length) (Image.FileAlignment s) := by
      rw [List.length_append, List.length_replicate, hlen]; omega
    rw [hl2]
    by_cases hcap : capacity < align 64 (r + 8 + c.length) (Image.FileAlignment s)
    · rw [if_pos hcap, if_pos ⟨h0, hcap⟩]
      cases Packer.patch_headers H (Image.nt s) (Image.FileAlignment s)
        (Image.SectionAlignment s) (r % 2 ^ 32) ((c.length + 8) % 2 ^ 32) <;> rfl
    · rw [if_neg hcap, if_neg (by intro h; exact hcap h.2)]


theorem pack_spec (capacity : Nat) (s t c : Bytes) (hs : StubTemplate s)
    (hc : c.length < 2 ^ 63) (hplace : ¬ Moved capacity s c) :
    ∃ out, Packer.pack capacity s t c = .ok out ∧ Packed s t c out := by
  rw [pack_eq capacity s t c hs hc]
  obtain ⟨hsize, hraw, hdos, hlf, hopt, hspare, hcount, hfa, hsa⟩ := hs
  have hfa32 : Image.FileAlignment s < 2 ^ 32 := by
    rw [← pow256_4]; exact read_lt _ _ _
  have hle := le_align 64 s.length _ hfa (by omega)
  have hlt := align_lt_add 64 s.length _ hfa
  have hle2 := le_align 64 (align 64 s.length (Image.FileAlignment s) + 8 + c.length) _ hfa
    (by omega)
  unfold Moved at hplace
  rw [if_neg hplace]
  unfold Image.section_header Image.section_table at hspare
  generalize hG : s ++ List.replicate (align 64 s.length (Image.FileAlignment s) - s.length) 0 ++
    leBytes 8 t.length ++ c ++
    List.replicate (align 64 (align 64 s.length (Image.FileAlignment s) + 8 + c.length)
      (Image.FileAlignment s) - (align 64 s.length (Image.FileAlignment s) + 8 + c.length)) 0 = G
  have hGs : G = s ++ (List.replicate (align 64 s.length (Image.FileAlignment s) - s.length) 0 ++
    leBytes 8 t.length ++ c ++
    List.replicate (align 64 (align 64 s.length (Image.FileAlignment s) + 8 + c.length)
      (Image.FileAlignment s) - (align 64 s.length (Image.FileAlignment s) + 8 + c.length)) 0) := by
    rw [← hG]; simp only [List.append_assoc]
  have hGlen : G.length =
      align 64 (align 64 s.length (Image.FileAlignment s) + 8 + c.length)
        (Image.FileAlignment s) := by
    rw [← hG]; simp [length_leBytes]; omega
  have hGmem : ∀ x, x < s.length → G.toMem x = s.toMem x := by
    intro x hx; rw [hGs, toMem_append_left _ _ _ hx]
  have rdG : ∀ off k, off + k ≤ s.length → G.toMem.read off k = s.toMem.read off k := by
    intro off k h
    exact read_congr _ _ _ _ fun i hi => hGmem _ (by omega)
  obtain ⟨out, hout, hlen, hmem⟩ := patch_headers_spec G (Image.nt s) (Image.FileAlignment s)
    (Image.SectionAlignment s) (align 64 s.length (Image.FileAlignment s) % 2 ^ 32)
    ((c.length + 8) % 2 ^ 32) (Image.NumberOfSections s) (Image.SizeOfOptionalHeader s) hsa
    (rdG _ _ (by omega)) (rdG _ _ (by omega)) hopt (by omega)
  rw [rdG _ 4 (by omega), rdG _ 4 (by omega)] at hmem
  refine ⟨out, hout, ?_⟩
  have hnt : Image.nt out = Image.nt s := by
    unfold Image.nt
    rw [hmem]
    iterate 8 rw [read_write_other _ _ _ _ _ _ (by omega)]
    exact rdG _ _ (by omega)
  have hsoh : Image.SizeOfOptionalHeader out = Image.SizeOfOptionalHeader s := by
    unfold Image.SizeOfOptionalHeader
    rw [hnt, hmem]
    iterate 8 rw [read_write_other _ _ _ _ _ _ (by omega)]
    exact rdG _ _ (by omega)
  have hvs : Image.VirtualSize out (Image.NumberOfSections s) = (c.length + 8) % 2 ^ 32 := by
    unfold Image.VirtualSize Image.section_header Image.section_table
    rw [hnt, hsoh, hmem]
    iterate 5 rw [read_write_other _ _ _ _ _ _ (by omega)]
    rw [read_write_same, pow256_4, Nat.mod_mod]
  have hva : Image.VirtualAddress out (Image.NumberOfSections s) =
      align 32
        ((s.toMem.read (Image.section_header s (Image.NumberOfSections s) - 40 + 12) 4 +
          s.toMem.read (Image.section_header s (Image.NumberOfSections s) - 40 + 8) 4) % 2 ^ 32)
        (Image.SectionAlignment s) := by
    unfold Image.VirtualAddress Image.section_header Image.section_table
    rw [hnt, hsoh, hmem]
    iterate 4 rw [read_write_other _ _ _ _ _ _ (by omega)]
    rw [read_write_same, pow256_4, Nat.mod_eq_of_lt (align_lt_pow _ _ _)]
  exact
    { length := by rw [hlen, hGlen]
      tail := by
        rw [drop_eq_of_toMem out G s.length (by rw [hlen]) (fun x hx => by
          rw [hmem]
          iterate 8 rw [write_of_not_mem _ _ _ _ _ (by omega)]), hGs]
        simp
      frame := by
        intro x hx h1 h2 h3 h4
        unfold Image.section_header Image.section_table at h3 h4
        rw [hmem]
        iterate 8 rw [write_of_not_mem _ _ _ _ _ (by omega)]
        exact hGmem x hx
      nt := hnt
      size_of_optional_header := hsoh
      section_alignment := by
        unfold Image.SectionAlignment
        rw [hnt, hmem]
        iterate 8 rw [read_write_other _ _ _ _ _ _ (by omega)]
        exact rdG _ _ (by omega)
      file_alignment := by
        unfold Image.FileAlignment
        rw [hnt, hmem]
        iterate 8 rw [read_write_other _ _ _ _ _ _ (by omega)]
        exact rdG _ _ (by omega)
      number_of_sections := by
        unfold Image.NumberOfSections
        rw [hnt, hmem]
        iterate 7 rw [read_write_other _ _ _ _ _ _ (by omega)]
        rw [read_write_same, pow256_2, Nat.mod_mod]
        exact Nat.mod_eq_of_lt hcount
      name := by
        unfold Image.Name Image.section_header Image.section_table
        rw [hnt, hsoh, hmem, dotPacked_eq]
        unfold leBytes
        apply List.map_congr_left
        intro k hk
        have hk8 : k < 8 := List.mem_range.1 hk
        iterate 6 rw [write_of_not_mem _ _ _ _ _ (by omega)]
        rw [write_of_mem _ _ _ _ _ (by omega) (by omega)]
        congr 3
        omega
      virtual_size := hvs
      virtual_address := hva
      size_of_raw_data := by
        unfold Image.SizeOfRawData Image.section_header Image.section_table
        rw [hnt, hsoh, hmem]
        iterate 3 rw [read_write_other _ _ _ _ _ _ (by omega)]
        rw [read_write_same, pow256_4, Nat.mod_eq_of_lt (align_lt_pow _ _ _)]
      pointer_to_raw_data := by
        unfold Image.PointerToRawData Image.section_header Image.section_table
        rw [hnt, hsoh, hmem]
        iterate 2 rw [read_write_other _ _ _ _ _ _ (by omega)]
        rw [read_write_same, pow256_4, Nat.mod_mod]
        exact Nat.mod_eq_of_lt hraw
      characteristics := by
        unfold Image.Characteristics Image.section_header Image.section_table
        rw [hnt, hsoh, hmem]
        iterate 1 rw [read_write_other _ _ _ _ _ _ (by omega)]
        rw [read_write_same]
        decide
      size_of_image := by
        rw [hvs, hva]
        unfold Image.SizeOfImage Image.section_header Image.section_table
        rw [hnt, hmem, read_write_same, pow256_4, Nat.mod_eq_of_lt (align_lt_pow _ _ _)] }


theorem pack_moved (capacity : Nat) (s t c : Bytes) (hs : StubTemplate s)
    (hc : c.length < 2 ^ 63) (hm : Moved capacity s c) :
    Packer.pack capacity s t c = .ok
      (s ++ (List.replicate (align 64 s.length (Image.FileAlignment s) - s.length) 0 ++
        leBytes 8 t.length ++ c ++
        List.replicate (align 64 (align 64 s.length (Image.FileAlignment s) + 8 + c.length)
          (Image.FileAlignment s) -
            (align 64 s.length (Image.FileAlignment s) + 8 + c.length)) 0)) := by
  rw [pack_eq capacity s t c hs hc]
  obtain ⟨hsize, hraw, hdos, hlf, hopt, hspare, hcount, hfa, hsa⟩ := hs
  have hle := le_align 64 s.length _ hfa (by
    have : Image.FileAlignment s < 2 ^ 32 := by rw [← pow256_4]; exact read_lt _ _ _
    omega)
  unfold Moved at hm
  rw [if_pos hm]
  unfold Image.section_header Image.section_table at hspare
  have hHs : s ++ List.replicate (align 64 s.length (Image.FileAlignment s) - s.length) 0 ++
      leBytes 8 t.length ++ c =
      s ++ (List.replicate (align 64 s.length (Image.FileAlignment s) - s.length) 0 ++
        leBytes 8 t.length ++ c) := by simp only [List.append_assoc]
  have rdH : ∀ off k, off + k ≤ s.length →
      (Bytes.toMem (s ++ List.replicate (align 64 s.length (Image.FileAlignment s) - s.length) 0
        ++ leBytes 8 t.length ++ c)).read off k = s.toMem.read off k := by
    intro off k h
    exact read_congr _ _ _ _ fun i hi => by
      rw [hHs, toMem_append_left _ _ _ (by omega)]
  obtain ⟨out, hout, _, _⟩ := patch_headers_spec
    (s ++ List.replicate (align 64 s.length (Image.FileAlignment s) - s.length) 0 ++
      leBytes 8 t.length ++ c) (Image.nt s) (Image.FileAlignment s)
    (Image.SectionAlignment s) (align 64 s.length (Image.FileAlignment s) % 2 ^ 32)
    ((c.length + 8) % 2 ^ 32) (Image.NumberOfSections s) (Image.SizeOfOptionalHeader s) hsa
    (rdH _ _ (by omega)) (rdH _ _ (by omega)) hopt (by
      simp only [List.length_append, List.length_replicate, length_leBytes]; omega)
  rw [hout]
  simp only [List.append_assoc]

theorem Packed.laid {s t c out : Bytes} (hp : Packed s t c out) : Laid s t c out :=
  ⟨hp.length, hp.tail, hp.frame⟩

theorem pack_layout (capacity : Nat) (s t c : Bytes) (hs : StubTemplate s)
    (hc : c.length < 2 ^ 63) :
    ∃ out, Packer.pack capacity s t c = .ok out ∧ Laid s t c out := by
  by_cases hm : Moved capacity s c
  · refine ⟨_, pack_moved capacity s t c hs hc hm, ?_, ?_, ?_⟩
    · have hfa := hs.file_alignment
      have hfa32 : Image.FileAlignment s < 2 ^ 32 := by
        rw [← pow256_4]; exact read_lt _ _ _
      have hsz := hs.size
      have hle := le_align 64 s.length _ hfa (by omega)
      have hlt := align_lt_add 64 s.length _ hfa
      have hle2 := le_align 64 (align 64 s.length (Image.FileAlignment s) + 8 + c.length) _ hfa
        (by omega)
      simp only [List.length_append, List.length_replicate, length_leBytes]
      omega
    · rw [List.drop_left]
    · intro x hx _ _ _ _
      exact toMem_append_left _ _ _ hx
  · obtain ⟨out, hout, hp⟩ := pack_spec capacity s t c hs hc hm
    exact ⟨out, hout, hp.laid⟩


theorem getElem?_of_toMem (b : Bytes) (x : Nat) (h : x < b.length) :
    b[x]? = some (b.toMem x) := by
  unfold Bytes.toMem
  rw [List.getD_eq_getElem?_getD, List.getElem?_eq_getElem h]
  rfl

theorem toMem_of_drop (b tl : Bytes) (k x : Nat) (h : b.drop k = tl) (hx : k ≤ x) :
    b.toMem x = tl.toMem (x - k) := by
  rw [← h, toMem_drop]
  congr 1
  omega

/-- **C3.** For a stub template `s` (so `a = FileAlignment > 0`), a target `t` and
its compressed bytes `c`, the packer returns a buffer of length
`align(align(|s|, a) + 8 + |c|, a)`; with `r = align(|s|, a)`: the bytes from `|s|`
up to `r` are zero, the bytes `[r, r+8)` are `|t|` as a 64-bit little-endian
integer, the bytes `[r+8, r+8+|c|)` are `c`, and the bytes from `r+8+|c|` to the
end are zero, whatever the capacity of the vector.  (`align` is the `size_t`
instance the code uses; buffer lengths are below `2^63`, the `max_size` of a
vector.) -/
theorem output_file_layout (capacity : Nat) (s t c : Bytes) (hs : StubTemplate s)
    (hc : c.length < 2 ^ 63) :
    ∃ out, Packer.pack capacity s t c = .ok out ∧
      out.length =
        align 64 (align 64 s.length (Image.FileAlignment s) + 8 + c.length)
          (Image.FileAlignment s) ∧
      (∀ x, s.length ≤ x → x < align 64 s.length (Image.FileAlignment s) → out[x]? = some 0) ∧
      (∀ i, i < 8 → out[align 64 s.length (Image.FileAlignment s) + i]? =
        some (byteOf (t.length / 256 ^ i))) ∧
      (∀ i, i < c.length → out[align 64 s.length (Image.FileAlignment s) + 8 + i]? = (c)[i]?) ∧
      (∀ x, align 64 s.length (Image.FileAlignment s) + 8 + c.length ≤ x → x < out.length →
        out[x]? = some 0) := by
  obtain ⟨out, hout, hp⟩ := pack_layout capacity s t c hs hc
  have hfa := hs.file_alignment
  have hfa32 : Image.FileAlignment s < 2 ^ 32 := by
    rw [← pow256_4]; exact read_lt _ _ _
  have hsz := hs.size
  have hle := le_align 64 s.length _ hfa (by omega)
  have hlt := align_lt_add 64 s.length _ hfa
  have hle2 := le_align 64 (align 64 s.length (Image.FileAlignment s) + 8 + c.length) _ hfa
    (by omega)
  have hlen := hp.length
  have htl := hp.tail
  generalize align 64 s.length (Image.FileAlignment s) = r at *
  generalize align 64 (r + 8 + c.length) (Image.FileAlignment s) = L at *
  have key : ∀ x, s.length ≤ x → x < out.length → out[x]? =
      some (Bytes.toMem (List.replicate (r - s.length) 0 ++ leBytes 8 t.length ++ c ++
        List.replicate (L - (r + 8 + c.length)) 0) (x - s.length)) := by
    intro x h1 h2
    rw [getElem?_of_toMem out x h2, toMem_of_drop out _ s.length x htl h1]
  refine ⟨out, hout, hlen, ?_, ?_, ?_, ?_⟩
  · intro x h1 h2
    rw [key x h1 (by omega), toMem_append, toMem_append, toMem_append]
    simp only [List.length_append, List.length_replicate, length_leBytes]
    rw [if_pos (by omega), if_pos (by omega), if_pos (by omega), toMem_replicate]
  · intro i hi
    rw [key _ (by omega) (by omega), toMem_append, toMem_append, toMem_append]
    simp only [List.length_append, List.length_replicate, length_leBytes]
    rw [if_pos (by omega), if_pos (by omega), if_neg (by omega), toMem_leBytes, if_pos (by omega)]
    congr 4
    omega
  · intro i hi
    rw [key _ (by omega) (by omega), toMem_append, toMem_append]
    simp only [List.length_append, List.length_replicate, length_leBytes]
    rw [if_pos (by omega), if_neg (by omega), getElem?_of_toMem c i hi]
    congr 2
    omega
  · intro x h1 h2
    rw [key x (by omega) h2, toMem_append]
    simp only [List.length_append, List.length_replicate, length_leBytes]
    rw [if_neg (by omega), toMem_replicate]

theorem sample_stub_template : StubTemplate (sample_stub 0x2000 0x1000 0x30) :=
  ⟨by decide!, by decide!, by decide!, by decide!, by decide!, by decide!, by decide!,
    by decide!, by decide!⟩

/-- Witness of C3: packing 3 target bytes compressed to 5 bytes into the 560-byte
sample stub gives a file of 1536 bytes (here with a capacity of 1120 bytes). -/
theorem output_file_layout_witness :
    ∃ out, Packer.pack 1120 (sample_stub 0x2000 0x1000 0x30) [1, 2, 3] [9, 8, 7, 6, 5] =
        .ok out ∧
      out.length = 1536 ∧ out[1024]? = some 3 ∧ out[1032]? = some 9 := by
  obtain ⟨out, h, hl, _, h8, hc, _⟩ :=
    output_file_layout 1120 (sample_stub 0x2000 0x1000 0x30) [1, 2, 3] [9, 8, 7, 6, 5]
      sample_stub_template (by decide)
  have e1 : align 64 (sample_stub 0x2000 0x1000 0x30).length
      (Image.FileAlignment (sample_stub 0x2000 0x1000 0x30)) = 1024 := by decide!
  rw [e1] at hl h8 hc
  exact ⟨out, h, hl, h8 0 (by decide), hc 0 (by decide)⟩

/-! ### The header stores and the move of the vector -/

theorem sample_moved : Moved 1120 (sample_stub 0x2000 0x1000 0x30) [9, 8, 7, 6, 5] := by
  unfold Moved
  decide!

theorem sample_in_place : ¬ Moved 1536 (sample_stub 0x2000 0x1000 0x30) [9, 8, 7, 6, 5] := by
  unfold Moved
  decide!

theorem stub_fields_of_append (s rest : Bytes) (hs : StubTemplate s) :
    (∀ x, x < s.length → Bytes.toMem (s ++ rest) x = s.toMem x) ∧
    Image.nt (s ++ rest) = Image.nt s ∧
    Image.NumberOfSections (s ++ rest) = Image.NumberOfSections s ∧
    Image.SizeOfImage (s ++ rest) = Image.SizeOfImage s := by
  obtain ⟨hsize, hraw, hdos, hlf, hopt, hspare, hcount, hfa, hsa⟩ := hs
  unfold Image.section_header Image.section_table at hspare
  have hmem : ∀ x, x < s.length → Bytes.toMem (s ++ rest) x = s.toMem x :=
    fun x hx => toMem_append_left _ _ _ hx
  have rd : ∀ off k, off + k ≤ s.length →
      (Bytes.toMem (s ++ rest)).read off k = s.toMem.read off k := fun off k h =>
    read_congr _ _ _ _ fun i hi => hmem _ (by omega)
  have hnt : Image.nt (s ++ rest) = Image.nt s := rd 60 4 (by omega)
  refine ⟨hmem, hnt, ?_, ?_⟩
  · unfold Image.NumberOfSections
    rw [hnt]
    exact rd _ _ (by omega)
  · unfold Image.SizeOfImage
    rw [hnt]
    exact rd _ _ (by omega)

/-- Where the vector moves, the file that is written keeps the header of the
stub: every byte below `|s|`, and so `NumberOfSections` and `SizeOfImage`. -/
theorem moved_header_unchanged (capacity : Nat) (s t c : Bytes) (hs : StubTemplate s)
    (hc : c.length < 2 ^ 63) (hm : Moved capacity s c) :
    ∃ out, Packer.pack capacity s t c = .ok out ∧
      (∀ x, x < s.length → out[x]? = s[x]?) ∧
      Image.NumberOfSections out = Image.NumberOfSections s ∧
      Image.SizeOfImage out = Image.SizeOfImage s := by
  obtain ⟨h1, _, h3, h4⟩ := stub_fields_of_append s
    (List.replicate (align 64 s.length (Image.FileAlignment s) - s.length) 0 ++
        leBytes 8 t.length ++ c ++
        List.replicate (align 64 (align 64 s.length (Image.FileAlignment s) + 8 + c.length)
          (Image.FileAlignment s) -
            (align 64 s.length (Image.FileAlignment s) + 8 + c.length)) 0) hs
  refine ⟨_, pack_moved capacity s t c hs hc hm, ?_, h3, h4⟩
  intro x hx
  rw [getElem?_of_toMem _ x (by rw [List.length_append]; omega), getElem?_of_toMem s x hx,
    h1 x hx]

/-- Where the vector stays, the output has one section more than the stub and
`SizeOfImage` is the `DWORD` `align` of the `DWORD` sum `VirtualAddress +
VirtualSize` of the new section. -/
theorem count_and_size_in_place (capacity : Nat) (s t c : Bytes) (hs : StubTemplate s)
    (hc : c.length < 2 ^ 63) (hplace : ¬ Moved capacity s c) :
    ∃ out, Packer.pack capacity s t c = .ok out ∧
      Image.NumberOfSections out = Image.NumberOfSections s + 1 ∧
      Image.SizeOfImage out =
        align 32
          ((Image.VirtualAddress out (Image.NumberOfSections out - 1) +
            Image.VirtualSize out (Image.NumberOfSections out - 1)) % 2 ^ 32)
          (Image.SectionAlignment out) := by
  obtain ⟨out, hout, hp⟩ := pack_spec capacity s t c hs hc hplace
  refine ⟨out, hout, hp.number_of_sections, ?_⟩
  rw [hp.number_of_sections, Nat.add_sub_cancel, hp.section_alignment]
  exact hp.size_of_image

/-- **C6 (the stores of lines 152 and 180 are lost when the vector moves).** The
sample stub (560 bytes, one section, `SizeOfImage = 0x2000`, `FileAlignment =
0x200`), a target of 3 bytes compressed to 5 bytes.  With a capacity of 1120
bytes when line 147 is reached (560 doubled by the `resize` of line 125) the
`resize` of line 148, to 1536 bytes, moves the vector, and the file written has
`NumberOfSections = 1` and `SizeOfImage = 0x2000`, those of the stub.  With a
capacity of 1536 bytes the vector stays and the file has `NumberOfSections = 2`
and `SizeOfImage = 0x3000`, as the claim says. -/
theorem section_count_lost_when_buffer_moves :
    (Image.NumberOfSections (sample_stub 0x2000 0x1000 0x30) = 1 ∧
      Image.SizeOfImage (sample_stub 0x2000 0x1000 0x30) = 0x2000) ∧
    (∃ out, Packer.pack 1120 (sample_stub 0x2000 0x1000 0x30) [1, 2, 3] [9, 8, 7, 6, 5] =
        .ok out ∧
      out.length = 1536 ∧ Image.NumberOfSections out = 1 ∧ Image.SizeOfImage out = 0x2000) ∧
    (∃ out, Packer.pack 1536 (sample_stub 0x2000 0x1000 0x30) [1, 2, 3] [9, 8, 7, 6, 5] =
        .ok out ∧
      out.length = 1536 ∧ Image.NumberOfSections out = 2 ∧ Image.SizeOfImage out = 0x3000) := by
  refine ⟨⟨by decide!, by decide!⟩, ?_, ?_⟩
  · exact ⟨_, pack_moved 1120 _ _ _ sample_stub_template (by decide) sample_moved,
      by decide!, by decide!, by decide!⟩
  · obtain ⟨out, hout, hp⟩ := pack_spec 1536 (sample_stub 0x2000 0x1000 0x30) [1, 2, 3]
      [9, 8, 7, 6, 5] sample_stub_template (by decide) sample_in_place
    refine ⟨out, hout, ?_, ?_, ?_⟩
    · rw [hp.length]; decide!
    · rw [hp.number_of_sections]; decide!
    · rw [hp.size_of_image, hp.virtual_address, hp.virtual_size]; decide!

theorem prev_section_fields (s : Bytes) (hn : 1 ≤ Image.NumberOfSections s) :
    s.toMem.read (Image.section_header s (Image.NumberOfSections s) - 40 + 12) 4 =
        Image.VirtualAddress s (Image.NumberOfSections s - 1) ∧
      s.toMem.read (Image.section_header s (Image.NumberOfSections s) - 40 + 8) 4 =
        Image.VirtualSize s (Image.NumberOfSections s - 1) := by
  unfold Image.VirtualAddress Image.VirtualSize Image.section_header
  constructor <;> congr 1 <;> omega

/-- **C7 (amended).** If the stub template has at least one section, its declared
`SizeOfImage` does not exceed the aligned end of its last listed section, and
appending the payload section does not leave the 32-bit range, then the
`SizeOfImage` of the packer's output is `≥` the `SizeOfImage` of the stub,
whatever the capacity of the vector (where the vector moves the field keeps the
stub's value). -/
theorem image_size_non_decreasing (capacity : Nat) (s t c : Bytes) (hs : StubTemplate s)
    (hc : c.length < 2 ^ 63) (hn : 1 ≤ Image.NumberOfSections s)
    (hdecl : Image.SizeOfImage s ≤
      align 32 (Image.VirtualAddress s (Image.NumberOfSections s - 1) +
        Image.VirtualSize s (Image.NumberOfSections s - 1)) (Image.SectionAlignment s))
    (hfit : Image.VirtualAddress s (Image.NumberOfSections s - 1) +
      Image.VirtualSize s (Image.NumberOfSections s - 1) + Image.SectionAlignment s +
      (c.length + 8) + Image.SectionAlignment s ≤ 2 ^ 32) :
    ∃ out, Packer.pack capacity s t c = .ok out ∧
      Image.SizeOfImage s ≤ Image.SizeOfImage out := by
  by_cases hm : Moved capacity s c
  · obtain ⟨out, hout, _, _, h4⟩ := moved_header_unchanged capacity s t c hs hc hm
    exact ⟨out, hout, by rw [h4]⟩
  obtain ⟨out, hout, hp⟩ := pack_spec capacity s t c hs hc hm
  refine ⟨out, hout, ?_⟩
  obtain ⟨e1, e2⟩ := prev_section_fields s hn
  have hsa := hs.section_alignment
  rw [hp.size_of_image, hp.virtual_address, hp.virtual_size, e1, e2]
  generalize Image.VirtualAddress s (Image.NumberOfSections s - 1) +
    Image.VirtualSize s (Image.NumberOfSections s - 1) = E at *
  generalize Image.SectionAlignment s = sa at *
  rw [Nat.mod_eq_of_lt (show E < 2 ^ 32 by omega),
    Nat.mod_eq_of_lt (show c.length + 8 < 2 ^ 32 by omega)]
  have h1 := le_align 32 E sa hsa (by omega)
  have h2 := align_lt_add 32 E sa hsa
  rw [Nat.mod_eq_of_lt (show align 32 E sa + (c.length + 8) < 2 ^ 32 by omega)]
  have h3 := le_align 32 (align 32 E sa + (c.length + 8)) sa hsa (by omega)
  omega

theorem sample_stub_oversized : StubTemplate (sample_stub 0x10000 0x1000 0x30) :=
  ⟨by decide!, by decide!, by decide!, by decide!, by decide!, by decide!, by decide!,
    by decide!, by decide!⟩

theorem sample_stub_high : StubTemplate (sample_stub 0xFFFFF000 0xFFFFE000 0x1000) :=
  ⟨by decide!, by decide!, by decide!, by decide!, by decide!, by decide!, by decide!,
    by decide!, by decide!⟩

theorem sample_stub_wrapping : StubTemplate (sample_stub 0x2000 0xFFFFF000 0x2000) :=
  ⟨by decide!, by decide!, by decide!, by decide!, by decide!, by decide!, by decide!,
    by decide!, by decide!⟩

/-- Witness of the amended C7 on the sample stub with a capacity of 1536 bytes:
the image grows from `0x2000` to `0x3000`. -/
theorem image_size_non_decreasing_witness :
    ∃ out, Packer.pack 1536 (sample_stub 0x2000 0x1000 0x30) [1, 2, 3] [9, 8, 7, 6, 5] =
        .ok out ∧
      Image.SizeOfImage (sample_stub 0x2000 0x1000 0x30) ≤ Image.SizeOfImage out :=
  image_size_non_decreasing 1536 (sample_stub 0x2000 0x1000 0x30) [1, 2, 3] [9, 8, 7, 6, 5]
    sample_stub_template (by decide) (by decide!) (by decide!) (by decide!)

theorem aligned_in_place (capacity size_of_image virtual_address virtual_size n : Nat)
    (h : (align 64 (sample_stub size_of_image virtual_address virtual_size).length
      (Image.FileAlignment (sample_stub size_of_image virtual_address virtual_size)) + 8 + n) %
        Image.FileAlignment (sample_stub size_of_image virtual_address virtual_size) = 0) :
    ¬ Moved capacity (sample_stub size_of_image virtual_address virtual_size)
      (List.replicate n 0) := by
  unfold Moved
  rw [List.length_replicate]
  exact fun hm => hm.1 h

/-- **C7, counterexample.** Stubs that pass `validate_target`, have one section
and power-of-two alignments, and payloads that end on a multiple of the file
alignment, so that line 148 does not resize and the stores reach the file
whatever the capacity.  (1) The stub declares `SizeOfImage = 0x10000` while its
only section ends at `0x1030`; with 504 compressed bytes the output declares
`0x3000`.  (2) The stub's section ends at `0xFFFFF000`, its declared size; with
504 compressed bytes the new image size wraps to `0`.  (3) The stub is
consistent (`SizeOfImage = 0x2000`, section end `0x1030`) and the compressed
payload has `2^32 - 0x2008` bytes: the new image size wraps to `0`. -/
theorem image_size_can_shrink :
    (Packer.validate_target (sample_stub 0x10000 0x1000 0x30) = .ok () ∧
      Image.NumberOfSections (sample_stub 0x10000 0x1000 0x30) = 1 ∧
      Image.SectionAlignment (sample_stub 0x10000 0x1000 0x30) = 2 ^ 12 ∧
      Image.FileAlignment (sample_stub 0x10000 0x1000 0x30) = 2 ^ 9 ∧
      Image.SizeOfImage (sample_stub 0x10000 0x1000 0x30) = 0x10000 ∧
      ∀ capacity, ∃ out, Packer.pack capacity (sample_stub 0x10000 0x1000 0x30) [1, 2, 3]
          (List.replicate 504 0) = .ok out ∧
        Image.SizeOfImage out = 0x3000) ∧
    (Packer.validate_target (sample_stub 0xFFFFF000 0xFFFFE000 0x1000) = .ok () ∧
      Image.NumberOfSections (sample_stub 0xFFFFF000 0xFFFFE000 0x1000) = 1 ∧
      Image.SectionAlignment (sample_stub 0xFFFFF000 0xFFFFE000 0x1000) = 2 ^ 12 ∧
      Image.FileAlignment (sample_stub 0xFFFFF000 0xFFFFE000 0x1000) = 2 ^ 9 ∧
      Image.SizeOfImage (sample_stub 0xFFFFF000 0xFFFFE000 0x1000) = 0xFFFFF000 ∧
      ∀ capacity, ∃ out, Packer.pack capacity (sample_stub 0xFFFFF000 0xFFFFE000 0x1000)
          [1, 2, 3] (List.replicate 504 0) = .ok out ∧
        Image.SizeOfImage out = 0) ∧
    (Packer.validate_target (sample_stub 0x2000 0x1000 0x30) = .ok () ∧
      Image.NumberOfSections (sample_stub 0x2000 0x1000 0x30) = 1 ∧
      Image.SectionAlignment (sample_stub 0x2000 0x1000 0x30) = 2 ^ 12 ∧
      Image.FileAlignment (sample_stub 0x2000 0x1000 0x30) = 2 ^ 9 ∧
      Image.SizeOfImage (sample_stub 0x2000 0x1000 0x30) = 0x2000 ∧
      ∀ capacity, ∃ out, Packer.pack capacity (sample_stub 0x2000 0x1000 0x30) [1, 2, 3]
          (List.replicate (2 ^ 32 - 0x2008) 0) = .ok out ∧
        Image.SizeOfImage out = 0) := by
  refine ⟨⟨by decide!, by decide!, by decide!, by decide!, by decide!, ?_⟩,
    ⟨by decide!, by decide!, by decide!, by decide!, by decide!, ?_⟩,
    ⟨by decide!, by decide!, by decide!, by decide!, by decide!, ?_⟩⟩
  · intro capacity
    obtain ⟨out, hout, hp⟩ := pack_spec capacity (sample_stub 0x10000 0x1000 0x30) [1, 2, 3]
      (List.replicate 504 0) sample_stub_oversized (by rw [List.length_replicate]; decide)
      (aligned_in_place capacity _ _ _ _ (by decide!))
    refine ⟨out, hout, ?_⟩
    rw [hp.size_of_image, hp.virtual_address, hp.virtual_size, List.length_replicate]
    decide!
  · intro capacity
    obtain ⟨out, hout, hp⟩ := pack_spec capacity (sample_stub 0xFFFFF000 0xFFFFE000 0x1000)
      [1, 2, 3] (List.replicate 504 0) sample_stub_high
      (by rw [List.length_replicate]; decide) (aligned_in_place capacity _ _ _ _ (by decide!))
    refine ⟨out, hout, ?_⟩
    rw [hp.size_of_image, hp.virtual_address, hp.virtual_size, List.length_replicate]
    decide!
  · intro capacity
    obtain ⟨out, hout, hp⟩ := pack_spec capacity (sample_stub 0x2000 0x1000 0x30) [1, 2, 3]
      (List.replicate (2 ^ 32 - 0x2008) 0) sample_stub_template
      (by rw [List.length_replicate]; decide) (aligned_in_place capacity _ _ _ _ (by decide!))
    refine ⟨out, hout, ?_⟩
    rw [hp.size_of_image, hp.virtual_address, hp.virtual_size, List.length_replicate]
    decide!

/-- Where the vector stays, the packer writes at section-table index `n` the
descriptor of the `.packed` section: the name, `VirtualSize = (8 + |c|) mod
2^32`, `VirtualAddress` the `DWORD` `align` of the end of the previous section
(a multiple of `SectionAlignment` at or after that end when nothing wraps),
`SizeOfRawData`, `PointerToRawData` and the two characteristics flags. -/
theorem descriptor_in_place (capacity : Nat) (s t c : Bytes) (hs : StubTemplate s)
    (hc : c.length < 2 ^ 63) (hn : 1 ≤ Image.NumberOfSections s)
    (hplace : ¬ Moved capacity s c) :
    ∃ out, Packer.pack capacity s t c = .ok out ∧
      Image.Name out (Image.NumberOfSections s) = dotPacked ∧
      Image.VirtualSize out (Image.NumberOfSections s) = (8 + c.length) % 2 ^ 32 ∧
      Image.VirtualAddress out (Image.NumberOfSections s) =
        align 32
          ((Image.VirtualAddress s (Image.NumberOfSections s - 1) +
            Image.VirtualSize s (Image.NumberOfSections s - 1)) % 2 ^ 32)
          (Image.SectionAlignment s) ∧
      (Image.VirtualAddress s (Image.NumberOfSections s - 1) +
          Image.VirtualSize s (Image.NumberOfSections s - 1) + Image.SectionAlignment s ≤ 2 ^ 32 →
        Image.SectionAlignment s ∣ Image.VirtualAddress out (Image.NumberOfSections s) ∧
        Image.VirtualAddress s (Image.NumberOfSections s - 1) +
          Image.VirtualSize s (Image.NumberOfSections s - 1) ≤
            Image.VirtualAddress out (Image.NumberOfSections s)) ∧
      Image.SizeOfRawData out (Image.NumberOfSections s) =
        align 32 ((8 + c.length) % 2 ^ 32) (Image.FileAlignment s) ∧
      Image.PointerToRawData out (Image.NumberOfSections s) =
        align 64 s.length (Image.FileAlignment s) ∧
      Image.Characteristics out (Image.NumberOfSections s) =
        (IMAGE_SCN_MEM_READ ||| IMAGE_SCN_CNT_INITIALIZED_DATA) ∧
      Image.Characteristics out (Image.NumberOfSections s) &&& IMAGE_SCN_MEM_WRITE = 0 ∧
      Image.Characteristics out (Image.NumberOfSections s) &&& IMAGE_SCN_MEM_EXECUTE = 0 := by
  obtain ⟨out, hout, hp⟩ := pack_spec capacity s t c hs hc hplace
  obtain ⟨e1, e2⟩ := prev_section_fields s hn
  have hva := hp.virtual_address
  rw [e1, e2] at hva
  refine ⟨out, hout, hp.name, by rw [hp.virtual_size, Nat.add_comm], hva, ?_,
    by rw [hp.size_of_raw_data, Nat.add_comm], hp.pointer_to_raw_data, hp.characteristics,
    by rw [hp.characteristics]; decide, by rw [hp.characteristics]; decide⟩
  intro hfit
  have hsa := hs.section_alignment
  rw [hva, Nat.mod_eq_of_lt (by omega), align_exact 32 _ _ hsa hfit]
  constructor
  · exact Nat.dvd_mul_left _ _
  · rw [← align_exact 32 _ _ hsa hfit]
    exact le_align 32 _ _ hsa hfit

/-- **C2 (the stores of lines 170-177 are lost when the vector moves).** The
sample stub (560 bytes, one section, a zeroed spare slot at index 1), a target
of 3 bytes compressed to 5 bytes.  With a capacity of 1120 bytes when line 147
is reached the `resize` of line 148, to 1536 bytes, moves the vector, and in
the file written the slot of index 1 is still zero: no name, no sizes, no
addresses, no characteristics.  With a capacity of 1536 bytes the vector stays
and the slot holds the descriptor the claim describes. -/
theorem descriptor_lost_when_buffer_moves :
    (∃ out, Packer.pack 1120 (sample_stub 0x2000 0x1000 0x30) [1, 2, 3] [9, 8, 7, 6, 5] =
        .ok out ∧
      Image.Name out 1 = [0, 0, 0, 0, 0, 0, 0, 0] ∧ Image.Name out 1 ≠ dotPacked ∧
      Image.VirtualSize out 1 = 0 ∧ Image.VirtualAddress out 1 = 0 ∧
      Image.SizeOfRawData out 1 = 0 ∧ Image.PointerToRawData out 1 = 0 ∧
      Image.Characteristics out 1 = 0) ∧
    (∃ out, Packer.pack 1536 (sample_stub 0x2000 0x1000 0x30) [1, 2, 3] [9, 8, 7, 6, 5] =
        .ok out ∧
      Image.Name out 1 = dotPacked ∧ Image.VirtualSize out 1 = 13 ∧
      Image.VirtualAddress out 1 = 0x2000 ∧ Image.SizeOfRawData out 1 = 0x200 ∧
      Image.PointerToRawData out 1 = 0x400 ∧ Image.Characteristics out 1 = 0x40000040) := by
  constructor
  · exact ⟨_, pack_moved 1120 _ _ _ sample_stub_template (by decide) sample_moved,
      by decide!, by decide!, by decide!, by decide!, by decide!, by decide!, by decide!⟩
  · obtain ⟨out, h, h1, h2, h3, _, h5, h6, h7, _⟩ :=
      descriptor_in_place 1536 (sample_stub 0x2000 0x1000 0x30) [1, 2, 3] [9, 8, 7, 6, 5]
        sample_stub_template (by decide) (by decide!) sample_in_place
    have hn : Image.NumberOfSections (sample_stub 0x2000 0x1000 0x30) = 1 := by decide!
    rw [hn] at h1 h2 h3 h5 h6 h7
    exact ⟨out, h, h1, by rw [h2]; decide, by rw [h3]; decide!, by rw [h5]; decide!,
      by rw [h6]; decide!, by rw [h7]; decide⟩

/-! ### `get_image`: the scan and the length prefix -/

theorem find_packed_none (base : Mem) (tbl : Nat) :
    ∀ count i, Stub.find_packed base tbl count i = none ↔
      ∀ j, i ≤ j → j < i + count → Stub.bytes_at base (tbl + 40 * j) 8 ≠ dotPacked := by
  intro count
  induction count with
  | zero =>
    intro i
    unfold Stub.find_packed
    exact ⟨fun _ j h1 h2 => by omega, fun _ => rfl⟩
  | succ count ih =>
    intro i
    unfold Stub.find_packed
    by_cases h : Stub.bytes_at base (tbl + 40 * i) 8 = dotPacked
    · rw [if_pos h]
      constructor
      · intro hc; cases hc
      · intro hall; exact absurd h (hall i (Nat.le_refl i) (by omega))
    · rw [if_neg h, ih (i + 1)]
      constructor
      · intro hall j h1 h2
        by_cases hj : j = i
        · subst hj; exact h
        · exact hall j (by omega) (by omega)
      · intro hall j h1 h2
        exact hall j (by omega) (by omega)

theorem find_packed_some (base : Mem) (tbl : Nat) :
    ∀ count i p, Stub.find_packed base tbl count i = some p ↔
      ∃ k, i ≤ k ∧ k < i + count ∧ p = tbl + 40 * k ∧
        Stub.bytes_at base (tbl + 40 * k) 8 = dotPacked ∧
        ∀ j, i ≤ j → j < k → Stub.bytes_at base (tbl + 40 * j) 8 ≠ dotPacked := by
  intro count
  induction count with
  | zero =>
    intro i p
    unfold Stub.find_packed
    constructor
    · intro h; cases h
    · rintro ⟨k, h1, h2, _⟩; omega
  | succ count ih =>
    intro i p
    unfold Stub.find_packed
    by_cases h : Stub.bytes_at base (tbl + 40 * i) 8 = dotPacked
    · rw [if_pos h]
      constructor
      · intro hp
        exact ⟨i, Nat.le_refl i, by omega, (Option.some.inj hp).symm, h, fun j h1 h2 => by omega⟩
      · rintro ⟨k, h1, h2, h3, h4, h5⟩
        have hk : k = i := by
          by_cases hki : k = i
          · exact hki
          · exact absurd h (h5 i (Nat.le_refl i) (by omega))
        rw [h3, hk]
    · rw [if_neg h, ih (i + 1) p]
      constructor
      · rintro ⟨k, h1, h2, h3, h4, h5⟩
        refine ⟨k, by omega, by omega, h3, h4, ?_⟩
        intro j hj1 hj2
        by_cases hj : j = i
        · subst hj; exact h
        · exact h5 j (by omega) hj2
      · rintro ⟨k, h1, h2, h3, h4, h5⟩
        have hki : k ≠ i := by
          intro hki; subst hki; exact h h4
        exact ⟨k, by omega, by omega, h3, h4, fun j hj1 hj2 => h5 j (by omega) hj2⟩

/-- **C16.** For a loaded carrier (its `e_lfanew` is not negative), with `n =
NumberOfSections` and the section table at `&OptionalHeader +
SizeOfOptionalHeader`: the scan of `get_image` selects the header at offset `p`
exactly when `p` is the header of the lowest index `k < n` whose eight `Name`
bytes are `".packed"` and a zero byte; and `get_image` terminates with exit code
1 exactly when no index below `n` has that name (whatever the codec and the
allocator do). -/
theorem locate_packed_section (uncompress : Bytes → Nat → Option Bytes) (uLong_bits : Nat)
    (allocates : Nat → Bool) (base : Mem) (hnt : base.read 60 4 < 2 ^ 31) :
    (∀ p, Stub.find_packed base (base.read 60 4 + 24 + base.read (base.read 60 4 + 20) 2)
        (base.read (base.read 60 4 + 6) 2) 0 = some p ↔
      ∃ k, k < base.read (base.read 60 4 + 6) 2 ∧
        p = base.read 60 4 + 24 + base.read (base.read 60 4 + 20) 2 + 40 * k ∧
        Stub.bytes_at base
          (base.read 60 4 + 24 + base.read (base.read 60 4 + 20) 2 + 40 * k) 8 = dotPacked ∧
        ∀ j, j < k → Stub.bytes_at base
          (base.read 60 4 + 24 + base.read (base.read 60 4 + 20) 2 + 40 * j) 8 ≠ dotPacked) ∧
    (Stub.get_image uncompress uLong_bits allocates base = .error (.exit 1) ↔
      ∀ k, k < base.read (base.read 60 4 + 6) 2 →
        Stub.bytes_at base
          (base.read 60 4 + 24 + base.read (base.read 60 4 + 20) 2 + 40 * k) 8 ≠ dotPacked) := by
  constructor
  · intro p
    rw [find_packed_some]
    constructor
    · rintro ⟨k, _, h2, h3, h4, h5⟩
      exact ⟨k, by omega, h3, h4, fun j hj => h5 j (Nat.zero_le j) hj⟩
    · rintro ⟨k, h2, h3, h4, h5⟩
      exact ⟨k, Nat.zero_le k, by omega, h3, h4, fun j _ hj => h5 j hj⟩
  · have hnone := find_packed_none base
      (base.read 60 4 + 24 + base.read (base.read 60 4 + 20) 2)
      (base.read (base.read 60 4 + 6) 2) 0
    unfold Stub.get_image Stub.get_nt_headers
    simp only [if_pos hnt, bind, Except.bind]
    cases hf : Stub.find_packed base (base.read 60 4 + 24 + base.read (base.read 60 4 + 20) 2)
        (base.read (base.read 60 4 + 6) 2) 0 with
    | none =>
      simp only []
      constructor
      · intro _ k hk
        exact (hnone.1 hf) k (Nat.zero_le k) (by omega)
      · intro _; rfl
    | some p =>
      simp only []
      constructor
      · intro h
        exfalso
        revert h
        split
        · intro h; cases h
        simp only [pure, Except.pure]
        cases uncompress _ _ with
        | none => intro h; cases h
        | some d =>
          simp only []
          split
          · intro h; cases h
          · intro h; cases h
      · intro hall
        have := hnone.2 (fun j _ hj => hall j (by omega))
        rw [hf] at this
        cases this

/-- Witness of C16 on the sample carrier: the scan passes `.text` and selects the
header at offset 368, the second of two. -/
theorem locate_packed_section_witness :
    Stub.find_packed (sample_carrier 3) 328 2 0 = some 368 := by
  have h := (locate_packed_section (contract_uncompress [1, 2, 3]) 32 (fun _ => true)
    (sample_carrier 3) (by decide!)).1 368
  have e1 : (sample_carrier 3).read 60 4 + 24 +
      (sample_carrier 3).read ((sample_carrier 3).read 60 4 + 20) 2 = 328 := by decide!
  have e2 : (sample_carrier 3).read ((sample_carrier 3).read 60 4 + 6) 2 = 2 := by decide!
  rw [e1, e2] at h
  exact h.2 ⟨1, by decide, by decide, by decide!, fun j hj => by
    have : j = 0 := by omega
    subst this
    decide!⟩

theorem get_image_not_found (uncompress : Bytes → Nat → Option Bytes) (uLong_bits : Nat)
    (allocates : Nat → Bool) (base : Mem) (hnt : base.read 60 4 < 2 ^ 31)
    (hfind : Stub.find_packed base (base.read 60 4 + 24 + base.read (base.read 60 4 + 20) 2)
      (base.read (base.read 60 4 + 6) 2) 0 = none) :
    Stub.get_image uncompress uLong_bits allocates base = .error (.exit 1) := by
  unfold Stub.get_image Stub.get_nt_headers
  simp only [if_pos hnt, bind, Except.bind, hfind]
  rfl

theorem get_image_found (uncompress : Bytes → Nat → Option Bytes) (uLong_bits : Nat)
    (allocates : Nat → Bool) (base : Mem) (p : Nat) (hnt : base.read 60 4 < 2 ^ 31)
    (hfind : Stub.find_packed base (base.read 60 4 + 24 + base.read (base.read 60 4 + 20) 2)
      (base.read (base.read 60 4 + 6) 2) 0 = some p) :
    Stub.get_image uncompress uLong_bits allocates base =
      if allocates (base.read (base.read (p + 12) 4) 8) = true then
        (match uncompress
            (Stub.bytes_at base (base.read (p + 12) 4 + 8)
              ((base.read (p + 8) 4 + 2 ^ 64 - 8) % 2 ^ 64 % 2 ^ uLong_bits))
            (base.read (base.read (p + 12) 4) 8 % 2 ^ uLong_bits) with
          | none => .error (.exit 2)
          | some d =>
            if d.length ≤ base.read (base.read (p + 12) 4) 8 % 2 ^ uLong_bits then
              .ok (d ++ List.replicate (base.read (base.read (p + 12) 4) 8 - d.length) 0)
            else .error .fault)
      else .error .abort := by
  unfold Stub.get_image Stub.get_nt_headers
  simp only [if_pos hnt, bind, Except.bind, hfind]
  by_cases ha : allocates (base.read (base.read (p + 12) 4) 8) = true
  · rw [if_pos ha, if_neg (by simpa using ha)]
    rfl
  · rw [if_neg ha, if_pos (by simpa using ha)]
    try rfl

/-- **C12 (amended).** Let the scan of `get_image` select the header at `p`, let
`n` be the 8-byte length prefix at the section's `VirtualAddress` and `n' = n mod
2^w` what zlib's `uLong` of `w` bits receives of it (`n' = n` when `n < 2^w`),
and let the codec follow its call contract for the compressed bytes handed to
it: they decode to `data`, of length `m`, and decompression into capacity `cap`
fails when `cap < m` and produces `data` otherwise.  If the vector of `n` bytes
of line 51 cannot be constructed, the run ends there with the exception.
Otherwise: if `n' < m`, `get_image` terminates with exit code 2 and returns no
buffer; if `n' ≥ m` (also when `n' > m`), `get_image` returns a buffer of `n`
bytes, `data` followed by `n - m` zero bytes. -/
theorem corrupt_length_field (uncompress : Bytes → Nat → Option Bytes) (uLong_bits : Nat)
    (allocates : Nat → Bool) (base : Mem) (p : Nat) (data : Bytes)
    (hnt : base.read 60 4 < 2 ^ 31)
    (hfind : Stub.find_packed base (base.read 60 4 + 24 + base.read (base.read 60 4 + 20) 2)
      (base.read (base.read 60 4 + 6) 2) 0 = some p)
    (hcodec : ∀ cap, uncompress
      (Stub.bytes_at base (base.read (p + 12) 4 + 8)
        ((base.read (p + 8) 4 + 2 ^ 64 - 8) % 2 ^ 64 % 2 ^ uLong_bits)) cap =
      if cap < data.length then none else some data) :
    (allocates (base.read (base.read (p + 12) 4) 8) = false →
      Stub.get_image uncompress uLong_bits allocates base = .error .abort) ∧
    (allocates (base.read (base.read (p + 12) 4) 8) = true →
      base.read (base.read (p + 12) 4) 8 % 2 ^ uLong_bits < data.length →
      Stub.get_image uncompress uLong_bits allocates base = .error (.exit 2)) ∧
    (allocates (base.read (base.read (p + 12) 4) 8) = true →
      data.length ≤ base.read (base.read (p + 12) 4) 8 % 2 ^ uLong_bits →
      Stub.get_image uncompress uLong_bits allocates base =
        .ok (data ++ List.replicate (base.read (base.read (p + 12) 4) 8 - data.length) 0) ∧
      (data ++ List.replicate (base.read (base.read (p + 12) 4) 8 - data.length) 0).length =
        base.read (base.read (p + 12) 4) 8) := by
  rw [get_image_found uncompress uLong_bits allocates base p hnt hfind, hcodec]
  refine ⟨?_, ?_, ?_⟩
  · intro ha
    rw [if_neg (by simp [ha])]
  · intro ha h
    rw [if_pos ha, if_pos h]
  · intro ha h
    rw [if_pos ha, if_neg (by omega)]
    simp only []
    rw [if_pos h]
    refine ⟨rfl, ?_⟩
    rw [List.length_append, List.length_replicate]
    have := Nat.mod_le (base.read (base.read (p + 12) 4) 8) (2 ^ uLong_bits)
    omega

/-- Witness of the amended C12 on the sample carrier with the length prefix `2`
and a codec whose output has 3 bytes: exit code 2. -/
theorem corrupt_length_field_witness :
    Stub.get_image (contract_uncompress [1, 2, 3]) 32 (fun _ => true) (sample_carrier 2) =
      .error (.exit 2) :=
  (corrupt_length_field (contract_uncompress [1, 2, 3]) 32 (fun _ => true) (sample_carrier 2)
    368 [1, 2, 3] (by decide!) (by decide!) (fun _ => rfl)).2.1 rfl (by decide!)

/-- **C12, counterexample.** The sample carrier with the length prefix `n = 5`
and compressed bytes that decode to `m = 3` bytes, the codec following its call
contract and the allocation succeeding: `n ≠ m`, yet `get_image` returns a
buffer, the three decoded bytes followed by two zero bytes. -/
theorem oversized_length_field_accepted :
    (sample_carrier 5).read 0x2000 8 = 5 ∧ ([1, 2, 3] : Bytes).length = 3 ∧
      Stub.get_image (contract_uncompress [1, 2, 3]) 32 (fun _ => true) (sample_carrier 5) =
        .ok [1, 2, 3, 0, 0] := by
  refine ⟨by decide!, rfl, by decide!⟩

/-! ### The round trip from the packer to `get_image` -/

theorem payload_bytes (s t c out : Bytes) (hs : StubTemplate s) (hc : c.length < 2 ^ 63)
    (hp : Packed s t c out) :
    (∀ i, i < 8 → out.toMem (align 64 s.length (Image.FileAlignment s) + i) =
      byteOf (t.length / 256 ^ i)) ∧
    (∀ i, i < c.length → out.toMem (align 64 s.length (Image.FileAlignment s) + 8 + i) =
      c.toMem i) := by
  have hfa := hs.file_alignment
  have hfa32 : Image.FileAlignment s < 2 ^ 32 := by
    rw [← pow256_4]; exact read_lt _ _ _
  have hsz := hs.size
  have hle := le_align 64 s.length _ hfa (by omega)
  have htl := hp.tail
  generalize align 64 s.length (Image.FileAlignment s) = r at *
  generalize align 64 (r + 8 + c.length) (Image.FileAlignment s) = L at *
  constructor
  · intro i hi
    rw [toMem_of_drop out _ s.length _ htl (by omega), toMem_append, toMem_append, toMem_append]
    simp only [List.length_append, List.length_replicate, length_leBytes]
    rw [if_pos (by omega), if_pos (by omega), if_neg (by omega), toMem_leBytes, if_pos (by omega)]
    congr 3
    omega
  · intro i hi
    rw [toMem_of_drop out _ s.length _ htl (by omega), toMem_append, toMem_append]
    simp only [List.length_append, List.length_replicate, length_leBytes]
    rw [if_pos (by omega), if_neg (by omega)]
    congr 1
    omega

theorem find_packed_spec (base : Mem) (tbl k : Nat)
    (hk : Stub.bytes_at base (tbl + 40 * k) 8 = dotPacked) :
    ∀ count i, i ≤ k → k < i + count →
      (∀ j, i ≤ j → j < k → Stub.bytes_at base (tbl + 40 * j) 8 ≠ dotPacked) →
      Stub.find_packed base tbl count i = some (tbl + 40 * k) := by
  intro count
  induction count with
  | zero => intro i h1 h2; omega
  | succ count ih =>
    intro i h1 h2 hne
    unfold Stub.find_packed
    by_cases hik : i = k
    · subst hik
      rw [if_pos hk]
    · rw [if_neg (hne i (Nat.le_refl i) (by omega))]
      exact ih (i + 1) (by omega) (by omega) fun j hj1 hj2 => hne j (by omega) hj2

theorem bytes_at_congr (m m' : Mem) (a n : Nat) (h : ∀ i, i < n → m (a + i) = m' (a + i)) :
    Stub.bytes_at m a n = Stub.bytes_at m' a n := by
  unfold Stub.bytes_at
  apply List.map_congr_left
  intro i hi
  exact h i (List.mem_range.1 hi)

theorem bytes_at_toMem (c : Bytes) : Stub.bytes_at c.toMem 0 c.length = c := by
  unfold Stub.bytes_at
  apply List.ext_getElem?
  intro i
  by_cases hi : i < c.length
  · rw [List.getElem?_map, List.getElem?_range hi, getElem?_of_toMem c i hi]
    simp
  · rw [List.getElem?_eq_none (by simpa using hi), List.getElem?_eq_none (by omega)]

/-- Where the vector stays, the round trip holds.  Let `s` be a stub template in
which no section is named `".packed"`, `t` a target and `c` its compressed bytes
with `8 + |c| < 2^32`, let `|t|` fit zlib's `uLong` and the vector of `|t|` bytes
be constructible.  The packer returns a file `out`, and for every carrier `base`
loaded from `out`: `get_image` selects the appended section; the 8 bytes at its
`VirtualAddress` read as `|t|`; the `VirtualSize - 8` bytes that follow are exactly
`c`; `get_image` is the codec called on `c` with destination size `|t|`; hence,
when the codec returns `t` on `(c, |t|)`, `get_image` returns exactly `t`. -/
theorem round_trip_in_place (uncompress : Bytes → Nat → Option Bytes) (uLong_bits : Nat)
    (allocates : Nat → Bool) (capacity : Nat)
    (s t c : Bytes) (hs : StubTemplate s)
    (hname : ∀ i, i < Image.NumberOfSections s → Image.Name s i ≠ dotPacked)
    (hc : 8 + c.length < 2 ^ 32) (ht : t.length < 2 ^ uLong_bits)
    (hL : 32 ≤ uLong_bits) (hL64 : uLong_bits ≤ 64)
    (hplace : ¬ Moved capacity s c) (halloc : allocates t.length = true) :
    ∃ out, Packer.pack capacity s t c = .ok out ∧ ∀ base, CarrierLoaded out base →
      Stub.find_packed base (Image.section_table out) (Image.NumberOfSections out) 0 =
        some (Image.section_header out (Image.NumberOfSections s)) ∧
      base.read (Image.VirtualAddress out (Image.NumberOfSections s)) 8 = t.length ∧
      Stub.bytes_at base (Image.VirtualAddress out (Image.NumberOfSections s) + 8)
        (Image.VirtualSize out (Image.NumberOfSections s) - 8) = c ∧
      Stub.get_image uncompress uLong_bits allocates base =
        (match uncompress c t.length with
          | none => .error (.exit 2)
          | some d =>
            if d.length ≤ t.length then .ok (d ++ List.replicate (t.length - d.length) 0)
            else .error .fault) ∧
      (uncompress c t.length = some t → Stub.get_image uncompress uLong_bits allocates base = .ok t) := by
  have hc63 : c.length < 2 ^ 63 := by omega
  obtain ⟨out, hout, hp⟩ := pack_spec capacity s t c hs hc63 hplace
  refine ⟨out, hout, ?_⟩
  intro base hb
  obtain ⟨hhdr, hsec⟩ := hb
  obtain ⟨hsize, hraw, hdos, hlf, hopt, hspare, hcount, hfa, hsa⟩ := hs
  have hs' : StubTemplate s := ⟨hsize, hraw, hdos, hlf, hopt, hspare, hcount, hfa, hsa⟩
  obtain ⟨hpay8, hpayc⟩ := payload_bytes s t c out hs' hc63 hp
  have hnt := hp.nt
  have hsoh := hp.size_of_optional_header
  have hcnt := hp.number_of_sections
  have hvs := hp.virtual_size
  have hptr := hp.pointer_to_raw_data
  have htbl : Image.section_table out = Image.section_table s := by
    unfold Image.section_table; rw [hnt, hsoh]
  have hsh : ∀ i, Image.section_header out i = Image.section_header s i := by
    intro i; unfold Image.section_header; rw [htbl]
  rw [hcnt, Nat.add_sub_cancel] at hsec
  rw [hcnt, hsh] at hhdr
  rw [hvs, Nat.mod_eq_of_lt (by omega)] at hsec
  -- header fields of the loaded carrier
  have rdb : ∀ off k, off + k ≤ Image.section_header s (Image.NumberOfSections s + 1) →
      base.read off k = out.toMem.read off k := fun off k h =>
    read_congr _ _ _ _ fun i hi => hhdr _ (by omega)
  unfold Image.section_header Image.section_table at hspare rdb hhdr
  have bnt : base.read 60 4 = Image.nt s := by
    rw [rdb 60 4 (by omega)]; exact hnt
  have bsoh : base.read (Image.nt s + 20) 2 = Image.SizeOfOptionalHeader s := by
    rw [rdb _ 2 (by omega), ← hnt]; exact hsoh
  have bcnt : base.read (Image.nt s + 6) 2 = Image.NumberOfSections s + 1 := by
    rw [rdb _ 2 (by omega), ← hnt]; exact hcnt
  -- the scan
  have hfind : Stub.find_packed base (Image.section_table s) (Image.NumberOfSections s + 1) 0 =
      some (Image.section_header s (Image.NumberOfSections s)) := by
    unfold Image.section_header
    apply find_packed_spec base _ _ _ _ 0 (Nat.zero_le _) (by omega)
    · intro j _ hj
      have hjs := hname j hj
      have : Stub.bytes_at base (Image.section_table s + 40 * j) 8 = Image.Name s j := by
        unfold Stub.bytes_at Image.Name Image.section_header
        apply List.map_congr_left
        intro k hk
        have hk8 : k < 8 := List.mem_range.1 hk
        unfold Image.section_table
        rw [hhdr _ (by omega)]
        apply hp.frame
        · omega
        · omega
        · omega
        · unfold Image.section_header Image.section_table; omega
        · unfold Image.section_header Image.section_table; omega
      rw [this]; exact hjs
    · have : Stub.bytes_at base (Image.section_table s + 40 * Image.NumberOfSections s) 8 =
          Image.Name out (Image.NumberOfSections s) := by
        unfold Stub.bytes_at Image.Name
        apply List.map_congr_left
        intro k hk
        have hk8 : k < 8 := List.mem_range.1 hk
        rw [hsh]
        unfold Image.section_header Image.section_table
        rw [hhdr _ (by omega)]
      rw [this]; exact hp.name
  -- the fields of the selected header
  have bva : base.read (Image.section_header s (Image.NumberOfSections s) + 12) 4 =
      Image.VirtualAddress out (Image.NumberOfSections s) := by
    unfold Image.VirtualAddress
    rw [hsh]
    unfold Image.section_header Image.section_table
    exact rdb _ 4 (by omega)
  have bvs : base.read (Image.section_header s (Image.NumberOfSections s) + 8) 4 =
      8 + c.length := by
    have : base.read (Image.section_header s (Image.NumberOfSections s) + 8) 4 =
        Image.VirtualSize out (Image.NumberOfSections s) := by
      unfold Image.VirtualSize
      rw [hsh]
      unfold Image.section_header Image.section_table
      exact rdb _ 4 (by omega)
    rw [this, hvs, Nat.add_comm]
    exact Nat.mod_eq_of_lt (by omega)
  rw [hptr] at hsec
  generalize Image.VirtualAddress out (Image.NumberOfSections s) = va at *
  -- the size prefix and the compressed bytes
  have hsize8 : base.read va 8 = t.length := by
    have h64 : t.length < 2 ^ 64 :=
      Nat.lt_of_lt_of_le ht (Nat.pow_le_pow_right (by decide) hL64)
    rw [read_congr base (base.write va 8 t.length) va 8 (fun i hi => by
      rw [hsec i (by omega), hpay8 i hi, write_of_mem _ _ _ _ _ (by omega) (by omega)]
      congr 3; omega), read_write_same, pow256_8]
    exact Nat.mod_eq_of_lt h64
  have hdata : Stub.bytes_at base (va + 8) c.length = c := by
    have e : Stub.bytes_at base (va + 8) c.length = Stub.bytes_at c.toMem 0 c.length := by
      unfold Stub.bytes_at
      apply List.map_congr_left
      intro i hi
      have hi' : i < c.length := List.mem_range.1 hi
      rw [Nat.add_assoc, hsec (8 + i) (by omega), ← Nat.add_assoc, hpayc i hi', Nat.zero_add]
    rw [e, bytes_at_toMem]
  have hpow : (2 : Nat) ^ 32 ≤ 2 ^ uLong_bits := Nat.pow_le_pow_right (by decide) hL
  have hget : Stub.get_image uncompress uLong_bits allocates base =
      (match uncompress c t.length with
        | none => .error (.exit 2)
        | some d =>
          if d.length ≤ t.length then .ok (d ++ List.replicate (t.length - d.length) 0)
          else .error .fault) := by
    unfold Stub.get_image Stub.get_nt_headers
    simp only [bnt, if_pos hlf, bind, Except.bind, bsoh, bcnt]
    rw [show Image.nt s + 24 + Image.SizeOfOptionalHeader s = Image.section_table s from rfl,
      hfind]
    simp only [bva, bvs, hsize8]
    rw [if_neg (by simpa using halloc)]
    simp only [pure, Except.pure]
    rw [show (8 + c.length + 2 ^ 64 - 8) % 2 ^ 64 = c.length by omega,
      Nat.mod_eq_of_lt (show c.length < 2 ^ uLong_bits by omega), Nat.mod_eq_of_lt ht, hdata]
    rfl
  refine ⟨by rw [htbl, hcnt, hsh]; exact hfind, hsize8, ?_, hget, ?_⟩
  · rw [hvs, Nat.mod_eq_of_lt (by omega), show c.length + 8 - 8 = c.length by omega]
    exact hdata
  · intro hu
    rw [hget, hu]
    simp

theorem map_carrier_loaded (out : Bytes)
    (h : Image.section_header out (Image.NumberOfSections out) ≤
      Image.VirtualAddress out (Image.NumberOfSections out - 1)) :
    CarrierLoaded out (map_carrier out) := by
  constructor
  · intro x hx
    unfold map_carrier
    rw [if_neg (by omega)]
  · intro i hi
    unfold map_carrier
    rw [if_pos (by omega)]
    congr 2
    omega

/-- Where the vector moves and no section of the stub is named `".packed"`, the
file that is written has no section of that name: on every carrier loaded from
it `get_image` ends with exit code 1. -/
theorem moved_carrier_not_found (uncompress : Bytes → Nat → Option Bytes) (uLong_bits : Nat)
    (allocates : Nat → Bool) (capacity : Nat) (s t c out : Bytes) (hs : StubTemplate s)
    (hname : ∀ i, i < Image.NumberOfSections s → Image.Name s i ≠ dotPacked)
    (hc : c.length < 2 ^ 63) (hm : Moved capacity s c)
    (hout : Packer.pack capacity s t c = .ok out) (base : Mem) (hb : CarrierLoaded out base) :
    Stub.get_image uncompress uLong_bits allocates base = .error (.exit 1) := by
  rw [pack_moved capacity s t c hs hc hm] at hout
  have hout := (Except.ok.inj hout).symm
  obtain ⟨hmem, hnt, hcnt, _⟩ := stub_fields_of_append s
    (List.replicate (align 64 s.length (Image.FileAlignment s) - s.length) 0 ++
        leBytes 8 t.length ++ c ++
        List.replicate (align 64 (align 64 s.length (Image.FileAlignment s) + 8 + c.length)
          (Image.FileAlignment s) -
            (align 64 s.length (Image.FileAlignment s) + 8 + c.length)) 0) hs
  rw [← hout] at hmem hnt hcnt
  obtain ⟨hsize, hraw, hdos, hlf, hopt, hspare, hcount, hfa, hsa⟩ := hs
  unfold Image.section_header Image.section_table at hspare
  have hsoh : Image.SizeOfOptionalHeader out = Image.SizeOfOptionalHeader s := by
    unfold Image.SizeOfOptionalHeader
    rw [hnt]
    exact read_congr _ _ _ _ fun i hi => hmem _ (by omega)
  obtain ⟨hhdr, _⟩ := hb
  unfold Image.section_header Image.section_table at hhdr
  rw [hcnt, hnt, hsoh] at hhdr
  have hbase : ∀ x, x < Image.nt s + 24 + Image.SizeOfOptionalHeader s +
      40 * Image.NumberOfSections s → base x = s.toMem x := fun x hx => by
    rw [hhdr x hx]; exact hmem x (by omega)
  -- the loader needs at least the headers up to the section table
  have rdb : ∀ off k, off + k ≤ Image.nt s + 24 + Image.SizeOfOptionalHeader s +
      40 * Image.NumberOfSections s → base.read off k = s.toMem.read off k := fun off k h =>
    read_congr _ _ _ _ fun i hi => hbase _ (by omega)
  have bnt : base.read 60 4 = Image.nt s := rdb 60 4 (by omega)
  have bsoh : base.read (Image.nt s + 20) 2 = Image.SizeOfOptionalHeader s :=
    rdb _ 2 (by omega)
  have bcnt : base.read (Image.nt s + 6) 2 = Image.NumberOfSections s := rdb _ 2 (by omega)
  apply get_image_not_found _ _ _ _ (by rw [bnt]; exact hlf)
  rw [bnt, bsoh, bcnt]
  rw [find_packed_none]
  intro j _ hj
  have : Stub.bytes_at base (Image.nt s + 24 + Image.SizeOfOptionalHeader s + 40 * j) 8 =
      Image.Name s j := by
    unfold Stub.bytes_at Image.Name Image.section_header Image.section_table
    apply List.map_congr_left
    intro k hk
    have hk8 : k < 8 := List.mem_range.1 hk
    exact hbase _ (by omega)
  rw [this]
  exact hname j (by omega)

/-- **C1 (the new section header is lost when the vector moves).** The sample
stub (560 bytes, one section `.text`), the target `1 2 3` compressed to
`9 8 7 6 5`.  With a capacity of 1120 bytes when line 147 is reached (560 doubled
by the `resize` of line 125) the `resize` of line 148, to 1536 bytes, moves the
vector; the stores of lines 151-180 go to the block left behind, the file
written has no `.packed` header, and on every carrier loaded from it, whatever
the codec, `get_image` ends with exit code 1 instead of returning `1 2 3`.  With
a capacity of 1536 bytes the vector stays and `get_image` returns `1 2 3`. -/
theorem round_trip_lost_when_buffer_moves :
    (∀ i, i < Image.NumberOfSections (sample_stub 0x2000 0x1000 0x30) →
      Image.Name (sample_stub 0x2000 0x1000 0x30) i ≠ dotPacked) ∧
    (∃ out, Packer.pack 1120 (sample_stub 0x2000 0x1000 0x30) [1, 2, 3] [9, 8, 7, 6, 5] =
        .ok out ∧
      CarrierLoaded out (map_carrier out) ∧
      (∀ (uncompress : Bytes → Nat → Option Bytes) (uLong_bits : Nat)
          (allocates : Nat → Bool) (base : Mem), CarrierLoaded out base →
        Stub.get_image uncompress uLong_bits allocates base = .error (.exit 1)) ∧
      Stub.get_image sample_uncompress 32 (fun _ => true) (map_carrier out) =
        .error (.exit 1)) ∧
    (∃ out, Packer.pack 1536 (sample_stub 0x2000 0x1000 0x30) [1, 2, 3] [9, 8, 7, 6, 5] =
        .ok out ∧
      CarrierLoaded out (map_carrier out) ∧
      Stub.get_image sample_uncompress 32 (fun _ => true) (map_carrier out) = .ok [1, 2, 3]) := by
  have hname : ∀ i, i < Image.NumberOfSections (sample_stub 0x2000 0x1000 0x30) →
      Image.Name (sample_stub 0x2000 0x1000 0x30) i ≠ dotPacked := by
    intro i hi
    have hn : Image.NumberOfSections (sample_stub 0x2000 0x1000 0x30) = 1 := by decide!
    have : i = 0 := by omega
    subst this
    decide!
  refine ⟨hname, ?_, ?_⟩
  · have hpm := pack_moved 1120 (sample_stub 0x2000 0x1000 0x30) [1, 2, 3] [9, 8, 7, 6, 5]
      sample_stub_template (by decide) sample_moved
    have hall := fun uncompress uLong_bits allocates base =>
      moved_carrier_not_found uncompress uLong_bits allocates 1120
        (sample_stub 0x2000 0x1000 0x30) [1, 2, 3] [9, 8, 7, 6, 5] _ sample_stub_template
        hname (by decide) sample_moved hpm base
    refine ⟨_, hpm, ?_, hall, ?_⟩
    · exact map_carrier_loaded _ (by decide!)
    · exact hall _ _ _ _ (map_carrier_loaded _ (by decide!))
  · obtain ⟨out, hout, hall⟩ := round_trip_in_place sample_uncompress 32 (fun _ => true) 1536
      (sample_stub 0x2000 0x1000 0x30) [1, 2, 3] [9, 8, 7, 6, 5] sample_stub_template hname
      (by decide) (by decide) (by decide) (by decide) sample_in_place rfl
    obtain ⟨out', hout', hp⟩ := pack_spec 1536 (sample_stub 0x2000 0x1000 0x30) [1, 2, 3]
      [9, 8, 7, 6, 5] sample_stub_template (by decide) sample_in_place
    have heq : out' = out := by
      rw [hout] at hout'
      exact (Except.ok.inj hout').symm
    subst heq
    have hn : Image.NumberOfSections out' = 2 := by rw [hp.number_of_sections]; decide!
    have hs1 : Image.NumberOfSections (sample_stub 0x2000 0x1000 0x30) = 1 := by decide!
    have hva : Image.VirtualAddress out' 1 = 0x2000 := by
      have := hp.virtual_address; rw [hs1] at this; rw [this]; decide!
    have hsh : Image.section_header out' 2 = 408 := by
      unfold Image.section_header Image.section_table
      rw [hp.nt, hp.size_of_optional_header]; decide!
    have hload : CarrierLoaded out' (map_carrier out') :=
      map_carrier_loaded out' (by rw [hn, hsh, hva]; decide)
    exact ⟨out', hout, hload, (hall _ hload).2.2.2.2 (by decide)⟩

/-! ### `relocate` -/

theorem fix_all_frame (delta : Nat) (ts : List Nat) (m : Mem) (x : Nat)
    (h : ∀ a ∈ ts, x < a ∨ a + 8 ≤ x) : Reloc.fix_all delta ts m x = m x := by
  induction ts generalizing m with
  | nil => rfl
  | cons a ts ih =>
    unfold Reloc.fix_all
    rw [List.foldl_cons]
    have := ih (m.write a 8 ((m.read a 8 + delta) % 2 ^ 64))
      (fun b hb => h b (List.mem_cons_of_mem _ hb))
    unfold Reloc.fix_all at this
    rw [this, write_of_not_mem _ _ _ _ _ (h a (List.mem_cons_self _ _))]

theorem fix_all_append (delta : Nat) (ts us : List Nat) (m : Mem) :
    Reloc.fix_all delta (ts ++ us) m = Reloc.fix_all delta us (Reloc.fix_all delta ts m) := by
  unfold Reloc.fix_all
  rw [List.foldl_append]

theorem fix_all_read (delta : Nat) (ts : List Nat) (m : Mem)
    (hp : ts.Pairwise fun a b => a + 8 ≤ b ∨ b + 8 ≤ a) :
    ∀ a ∈ ts, (Reloc.fix_all delta ts m).read a 8 = (m.read a 8 + delta) % 2 ^ 64 := by
  induction ts generalizing m with
  | nil => intro a ha; cases ha
  | cons b ts ih =>
    obtain ⟨hb, hts⟩ := List.pairwise_cons.1 hp
    intro a ha
    have hstep : Reloc.fix_all delta (b :: ts) m =
        Reloc.fix_all delta ts (m.write b 8 ((m.read b 8 + delta) % 2 ^ 64)) := by
      unfold Reloc.fix_all; rw [List.foldl_cons]
    rw [hstep]
    rcases List.mem_cons.1 ha with rfl | hmem
    · rw [read_congr _ (m.write a 8 ((m.read a 8 + delta) % 2 ^ 64)) a 8 (fun i hi =>
        fix_all_frame delta ts _ _ (fun c hc => by have := hb c hc; omega)),
        read_write_same, pow256_8, Nat.mod_mod]
    · rw [ih _ hts a hmem, read_write_other _ _ _ _ _ _ (by have := hb a hmem; omega)]

theorem fix_all_zero (ts : List Nat) (m : Mem) : Reloc.fix_all 0 ts m = m := by
  induction ts generalizing m with
  | nil => rfl
  | cons b ts ih =>
    have hstep : Reloc.fix_all 0 (b :: ts) m =
        Reloc.fix_all 0 ts (m.write b 8 ((m.read b 8 + 0) % 2 ^ 64)) := by
      unfold Reloc.fix_all; rw [List.foldl_cons]
    have hlt : m.read b 8 < 2 ^ 64 := by rw [← pow256_8]; exact read_lt _ _ _
    rw [hstep, Nat.add_zero, Nat.mod_eq_of_lt hlt, write_read_self, ih]

theorem apply_entries_eq (delta p lo hi : Nat) (m0 : Mem) :
    ∀ count i (m : Mem), (∀ x, lo ≤ x → x < hi → m x = m0 x) →
      lo ≤ p → p + 8 + 2 * (i + count) ≤ hi →
      (∀ a ∈ Reloc.block_targets m0 p count i, a + 8 ≤ lo ∨ hi ≤ a) →
      Stub.apply_entries delta p count i m =
        Reloc.fix_all delta (Reloc.block_targets m0 p count i) m := by
  intro count
  induction count with
  | zero => intro i m _ _ _ _; rfl
  | succ count ih =>
    intro i m hag hlo hhi htg
    have he : m.read (p + 8 + 2 * i) 2 = m0.read (p + 8 + 2 * i) 2 :=
      read_congr _ _ _ _ fun k hk => hag _ (by omega) (by omega)
    have hv : m.read p 4 = m0.read p 4 :=
      read_congr _ _ _ _ fun k hk => hag _ (by omega) (by omega)
    unfold Stub.apply_entries Reloc.block_targets
    simp only [he, hv]
    unfold Reloc.block_targets at htg
    by_cases ht : m0.read (p + 8 + 2 * i) 2 >>> 12 = IMAGE_REL_BASED_DIR64
    · rw [if_pos ht] at htg ⊢
      rw [if_pos ht, fix_all_append]
      have hthis := htg _ (List.mem_append_left _ (List.mem_singleton_self _))
      rw [ih (i + 1) _ (fun x h1 h2 => by
        rw [write_of_not_mem _ _ _ _ _ (by omega)]; exact hag x h1 h2) hlo (by omega)
        (fun a ha => htg a (List.mem_append_right _ ha))]
      rfl
    · rw [if_neg ht] at htg ⊢
      rw [if_neg ht, List.nil_append]
      exact ih (i + 1) m hag hlo (by omega) (fun a ha => htg a (by simpa using ha))

theorem le_table_end (bs : List (Nat × Nat)) : ∀ p, p + 4 ≤ Reloc.table_end p bs := by
  induction bs with
  | nil => intro p; exact Nat.le_refl _
  | cons b bs ih =>
    intro p
    obtain ⟨va, sz⟩ := b
    have := ih (p + sz)
    unfold Reloc.table_end
    omega

theorem apply_blocks_eq (delta lo hi : Nat) (m0 : Mem) :
    ∀ (bs : List (Nat × Nat)) (p fuel : Nat) (m : Mem), Reloc.Table m0 p bs →
      (∀ x, lo ≤ x → x < hi → m x = m0 x) → lo ≤ p → Reloc.table_end p bs ≤ hi →
      (∀ a ∈ Reloc.targets m0 p bs, a + 8 ≤ lo ∨ hi ≤ a) → bs.length < fuel →
      Stub.apply_blocks delta fuel m p = .ok (Reloc.fix_all delta (Reloc.targets m0 p bs) m) := by
  intro bs
  induction bs with
  | nil =>
    intro p fuel m htab hag hlo hhi _ hfuel
    unfold Reloc.table_end at hhi
    have hv : m.read p 4 = m0.read p 4 :=
      read_congr _ _ _ _ fun k hk => hag _ (by omega) (by omega)
    cases fuel with
    | zero => simp at hfuel
    | succ fuel =>
      unfold Stub.apply_blocks
      rw [hv, show m0.read p 4 = 0 from htab, if_pos rfl]
      rfl
  | cons b bs ih =>
    intro p fuel m htab hag hlo hhi htg hfuel
    obtain ⟨va, sz⟩ := b
    obtain ⟨h1, h2, h3, h4, h5⟩ := htab
    have hend := le_table_end bs (p + sz)
    unfold Reloc.table_end at hhi
    unfold Reloc.targets at htg ⊢
    have hv : m.read p 4 = m0.read p 4 :=
      read_congr _ _ _ _ fun k hk => hag _ (by omega) (by omega)
    have hs : m.read (p + 4) 4 = sz := by
      rw [← h3]
      exact read_congr _ _ _ _ fun k hk => hag _ (by omega) (by omega)
    have hsz32 : sz < 2 ^ 32 := by rw [← h3, ← pow256_4]; exact read_lt _ _ _
    cases fuel with
    | zero => simp at hfuel
    | succ fuel =>
      unfold Stub.apply_blocks
      rw [hv, h1, if_neg h2]
      simp only [hs]
      rw [show (sz + 2 ^ 64 - 8) % 2 ^ 64 / 2 = (sz - 8) / 2 by omega,
        apply_entries_eq delta p lo hi m0 _ 0 m hag hlo (by omega)
          (fun a ha => htg a (List.mem_append_left _ ha))]
      have hag1 : ∀ x, lo ≤ x → x < hi →
          Reloc.fix_all delta (Reloc.block_targets m0 p ((sz - 8) / 2) 0) m x = m0 x := by
        intro x hx1 hx2
        rw [fix_all_frame _ _ _ _ (fun a ha => by
          have := htg a (List.mem_append_left _ ha); omega)]
        exact hag x hx1 hx2
      have hs1 : (Reloc.fix_all delta (Reloc.block_targets m0 p ((sz - 8) / 2) 0) m).read
          (p + 4) 4 = sz :=
        (read_congr _ m0 _ _ fun k hk => hag1 _ (by omega) (by omega)).trans h3
      rw [hs1, ih (p + sz) fuel _ h5 hag1 (by omega) hhi
        (fun a ha => htg a (List.mem_append_right _ ha))
        (by simp at hfuel; omega), fix_all_append]

theorem not_relocatable_test_false (x : Nat) : Stub.not_relocatable_test x = false := by
  unfold Stub.not_relocatable_test IMAGE_DLLCHARACTERISTICS_DYNAMIC_BASE
  simp

theorem relocate_eq (image : Mem) (image_address fuel : Nat) (bs : List (Nat × Nat))
    (hnt : image.read 60 4 < 2 ^ 31) (hdir : Reloc.directory image ≠ 0)
    (htab : Reloc.Table image (Reloc.directory image) bs) (hfuel : bs.length < fuel)
    (hdisj : ∀ a ∈ Reloc.targets image (Reloc.directory image) bs,
      a + 8 ≤ Reloc.directory image ∨ Reloc.table_end (Reloc.directory image) bs ≤ a) :
    Stub.relocate fuel image image_address =
      .ok (Reloc.fix_all (Reloc.delta image image_address)
        (Reloc.targets image (Reloc.directory image) bs) image) := by
  unfold Stub.relocate Stub.get_nt_headers
  simp only [if_pos hnt, bind, Except.bind, not_relocatable_test_false]
  rw [if_neg (by simp)]
  try simp only [pure, Except.pure]
  rw [if_neg (show ¬ image.read (image.read 60 4 + 24 + 112 + 8 * IMAGE_DIRECTORY_ENTRY_BASERELOC)
    4 = 0 from hdir)]
  try simp only []
  exact apply_blocks_eq _ (Reloc.directory image) (Reloc.table_end (Reloc.directory image) bs)
    image bs _ fuel image htab (fun _ _ _ => rfl) (Nat.le_refl _) (Nat.le_refl _) hdisj hfuel

/-- **C10.** Let `image` be a mapped image at address `image_address` whose
base-relocation directory is present and holds the blocks `bs` (each with
`SizeOfBlock ≥ 8`) ending in a zero-`VirtualAddress` header, and whose `DIR64`
targets are pairwise non-overlapping 8-byte words disjoint from the table.  Then
`relocate` returns (any step bound above the number of blocks suffices), every
`DIR64` target word equals its old value plus `delta = image_address - ImageBase`
modulo `2^64`, every byte outside the target words is unchanged (so is every
location named by an entry of another type), and with `delta = 0` the whole
image is unchanged. -/
theorem relocation_fixups (image : Mem) (image_address fuel : Nat) (bs : List (Nat × Nat))
    (hnt : image.read 60 4 < 2 ^ 31) (hdir : Reloc.directory image ≠ 0)
    (htab : Reloc.Table image (Reloc.directory image) bs) (hfuel : bs.length < fuel)
    (hpair : (Reloc.targets image (Reloc.directory image) bs).Pairwise
      fun a b => a + 8 ≤ b ∨ b + 8 ≤ a)
    (hdisj : ∀ a ∈ Reloc.targets image (Reloc.directory image) bs,
      a + 8 ≤ Reloc.directory image ∨ Reloc.table_end (Reloc.directory image) bs ≤ a) :
    ∃ image', Stub.relocate fuel image image_address = .ok image' ∧
      (∀ a ∈ Reloc.targets image (Reloc.directory image) bs,
        image'.read a 8 = (image.read a 8 + Reloc.delta image image_address) % 2 ^ 64) ∧
      (∀ x, (∀ a ∈ Reloc.targets image (Reloc.directory image) bs, x < a ∨ a + 8 ≤ x) →
        image' x = image x) ∧
      (Reloc.delta image image_address = 0 → image' = image) := by
  refine ⟨_, relocate_eq image image_address fuel bs hnt hdir htab hfuel hdisj,
    fix_all_read _ _ _ hpair, fun x hx => fix_all_frame _ _ _ x hx, ?_⟩
  intro h0
  rw [h0, fix_all_zero]

theorem sample_image_targets :
    Reloc.targets (sample_image 0x0140) 0x3000 [(0x1000, 12), (0x2000, 10)] =
      [0x1010, 0x2008] := by
  decide!

/-- Witness of C10: the sample image (flag `DYNAMIC_BASE` set) loaded at
`0x7FF600000000`; both `DIR64` words move by `delta`, the word named by the
`ABSOLUTE` entry stays. -/
theorem relocation_fixups_witness :
    ∃ image', Stub.relocate 3 (sample_image 0x0140) 0x7FF600000000 = .ok image' ∧
      image'.read 0x1010 8 = 0x7FF600001234 ∧ image'.read 0x2008 8 = 0x7FF600005678 ∧
      image'.read 0x1020 8 = 0x1122334455667788 := by
  have hdir : Reloc.directory (sample_image 0x0140) = 0x3000 := by decide!
  obtain ⟨image', h, h1, h2, _⟩ := relocation_fixups (sample_image 0x0140) 0x7FF600000000 3
    [(0x1000, 12), (0x2000, 10)] (by decide!) (by rw [hdir]; decide)
    (by rw [hdir]; unfold Reloc.Table Reloc.Table Reloc.Table; decide!) (by decide)
    (by rw [hdir, sample_image_targets]; decide)
    (by rw [hdir, sample_image_targets]; decide)
  rw [hdir, sample_image_targets] at h1 h2
  refine ⟨image', h, ?_, ?_, ?_⟩
  · rw [h1 0x1010 (by decide)]; decide!
  · rw [h1 0x2008 (by decide)]; decide!
  · rw [read_congr image' (sample_image 0x0140) 0x1020 8 (fun i hi => h2 _ (by
      intro a ha
      simp only [List.mem_cons, List.mem_singleton, List.not_mem_nil, or_false] at ha
      rcases ha with rfl | rfl <;> omega))]
    decide!

/-! ### The two flag tests -/

/-- **C8 (the code classifies by bit 0).** The test of line 138 is true exactly
for odd entries.  On the sample image, the lookup entry `0x8000000000000002`
(bit 63 set: import by ordinal 2, which the module exports) takes the by-name
branch and the load dies with exit code 6; the entry `0x8000000000000001` takes
the ordinal branch; the entry `0x700` (bit 63 clear, an even offset) is resolved
by name. -/
theorem ordinal_flag_test_reads_bit_zero :
    (∀ e, Stub.ordinal_test e = true ↔ e % 2 = 1) ∧
    (0x8000000000000002 &&& IMAGE_ORDINAL_FLAG64 ≠ 0 ∧
      Stub.ordinal_test 0x8000000000000002 = false ∧
      (Stub.load_imports sample_os 4 (sample_import_image 0x8000000000000002)).map
        (fun m => m.read 0x600 8) = .error (.exit 6)) ∧
    (Stub.ordinal_test 0x8000000000000001 = true ∧
      (Stub.load_imports sample_os 4 (sample_import_image 0x8000000000000001)).map
        (fun m => m.read 0x600 8) = .error (.exit 5)) ∧
    (0x700 &&& IMAGE_ORDINAL_FLAG64 = 0 ∧
      (Stub.load_imports sample_os 4 (sample_import_image 0x700)).map
        (fun m => m.read 0x600 8) = .ok 0x7FFA2222) := by
  refine ⟨?_, ⟨by decide, by decide, by decide!⟩, ⟨by decide, by decide!⟩,
    ⟨by decide, by decide!⟩⟩
  intro e
  unfold Stub.ordinal_test IMAGE_ORDINAL_FLAG64
  simp [Nat.and_one_is_mod]

theorem apply_blocks_ne_exit (delta code : Nat) :
    ∀ fuel image p, Stub.apply_blocks delta fuel image p ≠ .error (.exit code) := by
  intro fuel
  induction fuel with
  | zero =>
    intro image p h
    unfold Stub.apply_blocks at h
    cases h
  | succ fuel ih =>
    intro image p
    unfold Stub.apply_blocks
    split
    · intro h; cases h
    · exact ih _ _

/-- **C9 (the check never fires).** The test of line 181 is false for every
value of `DllCharacteristics`, so `relocate` never ends with exit code 7.  On the
sample image with `DllCharacteristics = 0` (flag `DYNAMIC_BASE` clear) loaded at
`0x7FF600000000`, `relocate` returns and has applied both fixups. -/
theorem relocate_skips_dynamic_base_check :
    (∀ fuel image image_address,
      Stub.relocate fuel image image_address ≠ .error (.exit 7)) ∧
    ((sample_image 0).read 158 2 &&& IMAGE_DLLCHARACTERISTICS_DYNAMIC_BASE = 0 ∧
      (sample_image 0).read 0x1010 8 = 0x140001234 ∧
      (sample_image 0).read 0x2008 8 = 0x140005678 ∧
      (Stub.relocate 3 (sample_image 0) 0x7FF600000000).map
        (fun m => (m.read 0x1010 8, m.read 0x2008 8)) =
          .ok (0x7FF600001234, 0x7FF600005678)) := by
  refine ⟨?_, by decide!, by decide!, by decide!, by decide!⟩
  intro fuel image image_address
  unfold Stub.relocate Stub.get_nt_headers
  by_cases hnt : image.read 60 4 < 2 ^ 31
  · simp only [if_pos hnt, bind, Except.bind, not_relocatable_test_false]
    rw [if_neg (by simp)]
    simp only [pure, Except.pure]
    split
    · intro h; cases h
    · exact apply_blocks_ne_exit _ _ _ _ _
  · rw [if_neg hnt]
    simp only [bind, Except.bind]
    intro h; cases h

/-! ### The raw extent and the frame of the header patch -/

theorem align_mod_eq_zero (w v a : Nat) (ha : 0 < a) (hov : v + a ≤ 2 ^ w) :
    align w v a % a = 0 := by
  rw [align_exact w v a ha hov]
  exact Nat.mul_mod_left _ _

/-- Where the vector stays: for a stub template (so `a = FileAlignment > 0`) and
a target, when the final buffer is shorter than `2^32` bytes the appended
section's `PointerToRawData` and `SizeOfRawData` are both multiples of `a`, and
`PointerToRawData + SizeOfRawData` is the length of the output file: the
`DWORD` raw size of the descriptor agrees with the padding of the buffer. -/
theorem raw_extent_in_place (capacity : Nat) (s t c : Bytes) (hs : StubTemplate s)
    (hc : c.length < 2 ^ 63) (hplace : ¬ Moved capacity s c) :
    ∃ out, Packer.pack capacity s t c = .ok out ∧
      (out.length < 2 ^ 32 →
        Image.FileAlignment s ∣ Image.PointerToRawData out (Image.NumberOfSections s) ∧
        Image.FileAlignment s ∣ Image.SizeOfRawData out (Image.NumberOfSections s) ∧
        Image.PointerToRawData out (Image.NumberOfSections s) +
          Image.SizeOfRawData out (Image.NumberOfSections s) = out.length) := by
  obtain ⟨out, hout, hp⟩ := pack_spec capacity s t c hs hc hplace
  refine ⟨out, hout, ?_⟩
  intro hlen
  have hfa := hs.file_alignment
  have hfa32 : Image.FileAlignment s < 2 ^ 32 := by
    rw [← pow256_4]; exact read_lt _ _ _
  have hsz := hs.size
  rw [hp.pointer_to_raw_data, hp.size_of_raw_data]
  rw [hp.length] at hlen ⊢
  have hr0 := align_mod_eq_zero 64 s.length _ hfa (by omega)
  have hrle := le_align 64 s.length _ hfa (by omega)
  have hrlt := align_lt_add 64 s.length _ hfa
  generalize align 64 s.length (Image.FileAlignment s) = r at *
  generalize Image.FileAlignment s = a at *
  have hL0 := align_mod_eq_zero 64 (r + 8 + c.length) a hfa (by omega)
  have hLle := le_align 64 (r + 8 + c.length) a hfa (by omega)
  have hLlt := align_lt_add 64 (r + 8 + c.length) a hfa
  generalize hLdef : align 64 (r + 8 + c.length) a = L at *
  have hv : (c.length + 8) % 2 ^ 32 = c.length + 8 := Nat.mod_eq_of_lt (by omega)
  rw [hv]
  -- the raw size is `L - r`
  have hdr : a ∣ r := Nat.dvd_of_mod_eq_zero hr0
  have hdL : a ∣ L := Nat.dvd_of_mod_eq_zero hL0
  have hdiff : a ∣ L - r := Nat.dvd_sub' hdL hdr
  have hkey : align 32 (c.length + 8) a = L - r := by
    obtain ⟨q, hq⟩ := hdiff
    unfold align
    by_cases h0 : (c.length + 8) % a = 0
    · rw [if_pos h0, Nat.add_zero, Nat.mod_eq_of_lt (by omega)]
      -- `L - (r + 8 + |c|)` is a multiple of `a` below `a`
      have hd : a ∣ L - (r + 8 + c.length) := by
        have h1 : a ∣ c.length + 8 := Nat.dvd_of_mod_eq_zero h0
        have h2 : a ∣ r + (c.length + 8) := Nat.dvd_add hdr h1
        have h3 := Nat.dvd_sub' hdL h2
        rwa [show r + (c.length + 8) = r + 8 + c.length by omega] at h3
      have := Nat.eq_zero_of_dvd_of_lt hd (by omega)
      omega
    · rw [if_neg h0]
      have hlt : (c.length + 8) % a < a := Nat.mod_lt _ hfa
      -- `c.length + 8 + (a - (c.length + 8) % a)` is the next multiple of `a`
      have hd : a ∣ c.length + 8 + (a - (c.length + 8) % a) := by
        have hdm : a * ((c.length + 8) / a) + (c.length + 8) % a = c.length + 8 :=
          Nat.div_add_mod _ _
        refine ⟨(c.length + 8) / a + 1, ?_⟩
        rw [Nat.mul_add]; omega
      -- both are multiples of `a` in the same window of width `a`
      have e1 : c.length + 8 + (a - (c.length + 8) % a) - (L - r) = 0 :=
        Nat.eq_zero_of_dvd_of_lt (Nat.dvd_sub' hd ⟨q, hq⟩) (by omega)
      have e2 : L - r - (c.length + 8 + (a - (c.length + 8) % a)) = 0 :=
        Nat.eq_zero_of_dvd_of_lt (Nat.dvd_sub' ⟨q, hq⟩ hd) (by omega)
      rw [Nat.mod_eq_of_lt (by omega)]
      omega
  rw [hkey]
  exact ⟨hdr, hdiff, by omega⟩

/-- **C18 (the stores of lines 173-174 are lost when the vector moves).** The
sample stub (560 bytes, `FileAlignment = 0x200`), a target of 3 bytes compressed
to 5 bytes.  With a capacity of 1120 bytes when line 147 is reached the `resize`
of line 148, to 1536 bytes, moves the vector; the file written has 1536 bytes,
below `2^32`, and in the slot of index 1 `PointerToRawData` and `SizeOfRawData`
are still `0`: their sum is not the length of the file.  With a capacity of 1536
bytes the vector stays and the sum is `0x400 + 0x200 = 0x600`, the length. -/
theorem raw_extent_lost_when_buffer_moves :
    (∃ out, Packer.pack 1120 (sample_stub 0x2000 0x1000 0x30) [1, 2, 3] [9, 8, 7, 6, 5] =
        .ok out ∧
      out.length = 0x600 ∧ Image.PointerToRawData out 1 = 0 ∧ Image.SizeOfRawData out 1 = 0 ∧
      Image.PointerToRawData out 1 + Image.SizeOfRawData out 1 ≠ out.length) ∧
    (∃ out, Packer.pack 1536 (sample_stub 0x2000 0x1000 0x30) [1, 2, 3] [9, 8, 7, 6, 5] =
        .ok out ∧
      out.length = 0x600 ∧ Image.PointerToRawData out 1 = 0x400 ∧
      Image.SizeOfRawData out 1 = 0x200 ∧
      Image.PointerToRawData out 1 + Image.SizeOfRawData out 1 = out.length) := by
  constructor
  · exact ⟨_, pack_moved 1120 _ _ _ sample_stub_template (by decide) sample_moved,
      by decide!, by decide!, by decide!, by decide!⟩
  · obtain ⟨out, h, hall⟩ := raw_extent_in_place 1536 (sample_stub 0x2000 0x1000 0x30)
      [1, 2, 3] [9, 8, 7, 6, 5] sample_stub_template (by decide) sample_in_place
    obtain ⟨out', hout', hp⟩ := pack_spec 1536 (sample_stub 0x2000 0x1000 0x30) [1, 2, 3]
      [9, 8, 7, 6, 5] sample_stub_template (by decide) sample_in_place
    have heq : out' = out := by
      rw [h] at hout'
      exact (Except.ok.inj hout').symm
    subst heq
    have hl : out'.length = 0x600 := by rw [hp.length]; decide!
    have hn : Image.NumberOfSections (sample_stub 0x2000 0x1000 0x30) = 1 := by decide!
    have h3 := (hall (by rw [hl]; decide)).2.2
    have hprd := hp.pointer_to_raw_data
    have hsrd := hp.size_of_raw_data
    rw [hn] at h3 hprd hsrd
    exact ⟨out', h, hl, by rw [hprd]; decide!, by rw [hsrd]; decide!, h3⟩

/-- **C19.** For a stub template `s` (its slot of index `NumberOfSections` lies
inside `s`) the packer's output agrees with `s` at every offset below `|s|` except
the 2 bytes of `NumberOfSections`, the 4 bytes of `SizeOfImage`, and the 28 bytes
of that slot that hold `Name`, `VirtualSize`, `VirtualAddress`, `SizeOfRawData`,
`PointerToRawData` (offsets 0-23) and `Characteristics` (offsets 36-39); in
particular the 12 bytes of `PointerToRelocations`, `PointerToLinenumbers`,
`NumberOfRelocations` and `NumberOfLinenumbers` (offsets 24-35) keep the bytes of
the stub.  This holds whatever the capacity of the vector. -/
theorem header_patch_frame (capacity : Nat) (s t c : Bytes) (hs : StubTemplate s)
    (hc : c.length < 2 ^ 63) :
    ∃ out, Packer.pack capacity s t c = .ok out ∧
      (∀ x, x < s.length →
        ¬ (Image.nt s + 6 ≤ x ∧ x < Image.nt s + 8) →
        ¬ (Image.nt s + 24 + 56 ≤ x ∧ x < Image.nt s + 24 + 60) →
        ¬ (Image.section_header s (Image.NumberOfSections s) ≤ x ∧
          x < Image.section_header s (Image.NumberOfSections s) + 24) →
        ¬ (Image.section_header s (Image.NumberOfSections s) + 36 ≤ x ∧
          x < Image.section_header s (Image.NumberOfSections s) + 40) →
        out[x]? = s[x]?) ∧
      (∀ x, Image.section_header s (Image.NumberOfSections s) + 24 ≤ x →
        x < Image.section_header s (Image.NumberOfSections s) + 36 → out[x]? = s[x]?) := by
  obtain ⟨out, hout, hp⟩ := pack_layout capacity s t c hs hc
  have hfa := hs.file_alignment
  have hfa32 : Image.FileAlignment s < 2 ^ 32 := by
    rw [← pow256_4]; exact read_lt _ _ _
  have hsz := hs.size
  have hlen : s.length ≤ out.length := by
    have h1 := le_align 64 s.length _ hfa (by omega)
    have h2 := le_align 64 (align 64 s.length (Image.FileAlignment s) + 8 + c.length) _ hfa
      (by have := align_lt_add 64 s.length _ hfa; omega)
    rw [hp.length]; omega
  have key : ∀ x, x < s.length →
      ¬ (Image.nt s + 6 ≤ x ∧ x < Image.nt s + 8) →
      ¬ (Image.nt s + 24 + 56 ≤ x ∧ x < Image.nt s + 24 + 60) →
      ¬ (Image.section_header s (Image.NumberOfSections s) ≤ x ∧
        x < Image.section_header s (Image.NumberOfSections s) + 24) →
      ¬ (Image.section_header s (Image.NumberOfSections s) + 36 ≤ x ∧
        x < Image.section_header s (Image.NumberOfSections s) + 40) →
      out[x]? = s[x]? := by
    intro x hx h1 h2 h3 h4
    rw [getElem?_of_toMem out x (by omega), getElem?_of_toMem s x hx,
      hp.frame x hx (by omega) (by omega) (by omega) (by omega)]
  refine ⟨out, hout, key, ?_⟩
  intro x h1 h2
  have hspare := hs.spare_slot
  have hopt := hs.optional_header
  unfold Image.section_header Image.section_table at h1 h2 hspare
  apply key x (by omega) (by omega) (by omega)
  · unfold Image.section_header Image.section_table; omega
  · unfold Image.section_header Image.section_table; omega

/-- Witness of C19 on the sample stub: the byte at offset 392 (inside
`PointerToRelocations` of the new slot at 368) and the `e_lfanew` byte at 60 are
those of the stub. -/
theorem header_patch_frame_witness :
    ∃ out, Packer.pack 1536 (sample_stub 0x2000 0x1000 0x30) [1, 2, 3] [9, 8, 7, 6, 5] =
        .ok out ∧
      out[392]? = some 0 ∧ out[60]? = some 64 := by
  obtain ⟨out, h, h1, h2⟩ := header_patch_frame 1536 (sample_stub 0x2000 0x1000 0x30)
    [1, 2, 3] [9, 8, 7, 6, 5] sample_stub_template (by decide)
  have hsh : Image.section_header (sample_stub 0x2000 0x1000 0x30)
      (Image.NumberOfSections (sample_stub 0x2000 0x1000 0x30)) = 368 := by decide!
  have hnt : Image.nt (sample_stub 0x2000 0x1000 0x30) = 64 := by decide!
  rw [hsh] at h2
  rw [hsh, hnt] at h1
  refine ⟨out, h, ?_, ?_⟩
  · rw [h2 392 (by decide) (by decide)]; decide!
  · rw [h1 60 (by decide!) (by decide) (by decide) (by decide) (by decide)]; decide!

/-! ### `validate_target` and the exits of the packer -/

theorem validate_target_magic (target : Bytes) (h2 : 2 ≤ target.length)
    (h : target.toMem.read 0 2 ≠ 0x5A4D) : Packer.validate_target target = .error (.exit 3) := by
  unfold Packer.validate_target
  rw [rd_ok target 0 2 (by omega)]
  simp only [bind, Except.bind]
  rw [if_pos h]

theorem validate_target_signature (target : Bytes) (h64 : 64 ≤ target.length)
    (hlf : Image.nt target < 2 ^ 31) (hin : Image.nt target + 4 ≤ target.length)
    (h1 : target.toMem.read 0 2 = 0x5A4D) (h : target.toMem.read (Image.nt target) 4 ≠ 0x4550) :
    Packer.validate_target target = .error (.exit 4) := by
  unfold Packer.validate_target
  rw [rd_ok target 0 2 (by omega), e_lfanew_ok target h64 hlf]
  simp only [bind, Except.bind]
  rw [if_neg (by simpa using h1)]
  simp only [pure, Except.pure]
  rw [rd_ok target _ 4 hin]
  simp only []
  rw [if_pos h]

theorem validate_target_eq (target : Bytes) (h64 : 64 ≤ target.length)
    (hlf : Image.nt target < 2 ^ 31) (hin : Image.nt target + 26 ≤ target.length) :
    Packer.validate_target target =
      if target.toMem.read 0 2 ≠ 0x5A4D then .error (.exit 3)
      else if target.toMem.read (Image.nt target) 4 ≠ 0x4550 then .error (.exit 4)
      else if target.toMem.read (Image.nt target + 24) 2 ≠ 0x020B then .error (.exit 5)
      else .ok () := by
  unfold Packer.validate_target
  rw [rd_ok target 0 2 (by omega), e_lfanew_ok target h64 hlf]
  simp only [bind, Except.bind]
  by_cases h1 : target.toMem.read 0 2 ≠ 0x5A4D
  · rw [if_pos h1, if_pos h1]
  · rw [if_neg h1, if_neg h1]
    simp only [pure, Except.pure]
    rw [rd_ok target _ 4 (by omega)]
    try simp only []
    by_cases h2 : target.toMem.read (Image.nt target) 4 ≠ 0x4550
    · rw [if_pos h2, if_pos h2]
    · rw [if_neg h2, if_neg h2]
      try simp only []
      rw [rd_ok target _ 2 (by omega)]
      try simp only []
      by_cases h3 : target.toMem.read (Image.nt target + 24) 2 ≠ 0x020B
      · rw [if_pos h3, if_pos h3]
        try rfl
      · rw [if_neg h3, if_neg h3]
        try rfl

/-- **C13 (amended).** For every target buffer that holds each field the
validation comes to read, `validate_target` terminates with exit code 3 exactly
when the 16-bit field at offset 0 differs from `0x5A4D`; otherwise with exit code
4 exactly when the 32-bit field at offset `e_lfanew` differs from `0x00004550`;
otherwise with exit code 5 exactly when `Magic` differs from `0x020B`; and it
returns normally exactly when all three fields match.  The fields read: the 2
bytes at offset 0; when they match, the `e_lfanew` field (so 64 bytes), which is
not negative, and the 4 bytes at offset `e_lfanew`; when those match too, the 2
bytes of `Magic` at offset `e_lfanew + 24`. -/
theorem target_validation (target : Bytes) (h2 : 2 ≤ target.length)
    (hsig : target.toMem.read 0 2 = 0x5A4D →
      64 ≤ target.length ∧ Image.nt target < 2 ^ 31 ∧ Image.nt target + 4 ≤ target.length)
    (hmagic : target.toMem.read 0 2 = 0x5A4D → target.toMem.read (Image.nt target) 4 = 0x4550 →
      Image.nt target + 26 ≤ target.length) :
    (Packer.validate_target target = .error (.exit 3) ↔ target.toMem.read 0 2 ≠ 0x5A4D) ∧
    (Packer.validate_target target = .error (.exit 4) ↔
      target.toMem.read 0 2 = 0x5A4D ∧ target.toMem.read (Image.nt target) 4 ≠ 0x4550) ∧
    (Packer.validate_target target = .error (.exit 5) ↔
      target.toMem.read 0 2 = 0x5A4D ∧ target.toMem.read (Image.nt target) 4 = 0x4550 ∧
        target.toMem.read (Image.nt target + 24) 2 ≠ 0x020B) ∧
    (Packer.validate_target target = .ok () ↔
      target.toMem.read 0 2 = 0x5A4D ∧ target.toMem.read (Image.nt target) 4 = 0x4550 ∧
        target.toMem.read (Image.nt target + 24) 2 = 0x020B) := by
  by_cases h1 : target.toMem.read 0 2 = 0x5A4D
  · obtain ⟨h64, hlf, hin4⟩ := hsig h1
    by_cases hs : target.toMem.read (Image.nt target) 4 = 0x4550
    · rw [validate_target_eq target h64 hlf (hmagic h1 hs)]
      by_cases h3 : target.toMem.read (Image.nt target + 24) 2 = 0x020B <;> simp [h1, hs, h3]
    · rw [validate_target_signature target h64 hlf hin4 h1 hs]
      simp [h1, hs]
  · rw [validate_target_magic target h2 h1]
    simp [h1]

/-- Witness of the amended C13: the sample stub passes all three checks, and the
three-byte buffer `1 2 3` ends with exit code 3. -/
theorem target_validation_witness :
    Packer.validate_target (sample_stub 0x2000 0x1000 0x30) = .ok () ∧
    Packer.validate_target [1, 2, 3] = .error (.exit 3) :=
  ⟨(target_validation (sample_stub 0x2000 0x1000 0x30) (by decide!)
      (fun _ => ⟨by decide!, by decide!, by decide!⟩) (fun _ _ => by decide!)).2.2.2.2
      ⟨by decide!, by decide!, by decide!⟩,
    (target_validation [1, 2, 3] (by decide) (fun h => absurd h (by decide!))
      (fun h => absurd h (by decide!))).1.2 (by decide!)⟩

/-- **C13, counterexample.** The empty file: there is no field at offset 0, the
read of `e_magic` leaves the (empty) buffer, and the run is none of exit 3,
exit 4, exit 5 and normal return. -/
theorem validate_target_reads_outside :
    ([] : Bytes).length = 0 ∧
    Packer.validate_target [] = .error .fault ∧
    Packer.validate_target [] ≠ .error (.exit 3) ∧
    Packer.validate_target [] ≠ .error (.exit 4) ∧
    Packer.validate_target [] ≠ .error (.exit 5) ∧
    Packer.validate_target [] ≠ .ok () := by
  decide

theorem main_output_none (env : Packer.Env) (h : (Packer.main env).1 ≠ .ok ()) :
    (Packer.main env).2 = none := by
  revert h
  unfold Packer.main
  split
  · intro _; rfl
  · split
    · intro _; rfl
    · split
      · intro _; rfl
      · split
        · intro _; rfl
        · split
          · intro _; rfl
          · split
            · intro _; rfl
            · split
              · intro _; rfl
              · intro h; exact absurd rfl h

/-- **C14.** In every run of the packer that does not return 0 (it ends at an
`ExitProcess`, whose codes 1-9 are all non-zero, or at a fault) the file
`packed.exe` has not been opened, so no byte has been written to it; in
particular, for every input file with valid DOS and NT signatures whose
`OptionalHeader.Magic` is not `0x020B`, the run ends with exit code 5 and the
file has not been opened. -/
theorem no_output_on_failure (env : Packer.Env) :
    ((Packer.main env).1 ≠ .ok () → (Packer.main env).2 = none) ∧
    (∀ target : Bytes, env.argc = 2 → env.file = some target →
      64 ≤ target.length → Image.nt target < 2 ^ 31 → Image.nt target + 26 ≤ target.length →
      target.toMem.read 0 2 = 0x5A4D → target.toMem.read (Image.nt target) 4 = 0x4550 →
      target.toMem.read (Image.nt target + 24) 2 ≠ 0x020B →
      Packer.main env = (.error (.exit 5), none)) := by
  refine ⟨main_output_none env, ?_⟩
  intro target hargc hfile h64 hlf hin h1 h2 h3
  have hv : Packer.validate_target target = .error (.exit 5) := by
    rw [validate_target_eq target h64 hlf hin, if_neg (by simpa using h1),
      if_neg (by simpa using h2), if_pos h3]
  unfold Packer.main Packer.read_file
  rw [if_neg (by simpa using hargc), hfile]
  simp only [hv]

/-- A run of C14: a 32-bit image (the sample stub with `Magic = 0x010B`) given to
the packer ends with exit code 5 and no output file, although zlib, the stub
resource and the output file are all available. -/
theorem no_output_on_failure_witness :
    Packer.main
      { argc := 2
        file := some ((sample_stub 0x2000 0x1000 0x30).patch 88 (leBytes 2 0x010B))
        uLong_bits := 32
        compress := fun source => some source
        resource_found := true
        resource := some (sample_stub 0x2000 0x1000 0x30)
        capacity := 1536
        output_opens := true } = (.error (.exit 5), none) :=
  (no_output_on_failure _).2 _ rfl rfl (by decide!) (by decide!) (by decide!) (by decide!)
    (by decide!) (by decide!)

/-- A successful run, for contrast: the sample stub packed into itself is
written to `packed.exe`. -/
theorem main_sample_run :
    ∃ out, Packer.main
      { argc := 2
        file := some (sample_stub 0x2000 0x1000 0x30)
        uLong_bits := 32
        compress := fun _ => some [9, 8, 7, 6, 5]
        resource_found := true
        resource := some (sample_stub 0x2000 0x1000 0x30)
        capacity := 1536
        output_opens := true } = (.ok (), some out) ∧ out.length = 0x600 := by
  obtain ⟨out, hout, hp⟩ := pack_layout 1536 (sample_stub 0x2000 0x1000 0x30)
    (sample_stub 0x2000 0x1000 0x30) [9, 8, 7, 6, 5] sample_stub_template (by decide)
  have hv : Packer.validate_target (sample_stub 0x2000 0x1000 0x30) = .ok () := by decide!
  refine ⟨out, ?_, by rw [hp.length]; decide!⟩
  unfold Packer.main Packer.read_file Packer.load_resource
  simp only [hv]
  rw [if_neg (by decide), if_neg (by simp)]
  simp only [hout]
  rw [if_neg (by simp)]

/-! ### `relocate` observed: the missing directory and the walk over the blocks -/

theorem apply_entries_walk_eq (delta p : Nat) :
    ∀ count i m, Stub.apply_entries_walk delta p count i m =
      (List.range' i count, Stub.apply_entries delta p count i m) := by
  intro count
  induction count with
  | zero => intro i m; rfl
  | succ count ih =>
    intro i m
    unfold Stub.apply_entries_walk Stub.apply_entries
    simp only [ih, List.range'_succ]

theorem apply_blocks_walk_result (delta : Nat) :
    ∀ fuel m p, (Stub.apply_blocks_walk delta fuel m p).result =
      Stub.apply_blocks delta fuel m p := by
  intro fuel
  induction fuel with
  | zero => intro m p; rfl
  | succ fuel ih =>
    intro m p
    unfold Stub.apply_blocks_walk Stub.apply_blocks
    by_cases h : m.read p 4 = 0
    · rw [if_pos h, if_pos h]; rfl
    · rw [if_neg h, if_neg h]
      simp only [apply_entries_walk_eq]
      rw [← ih]
      rfl

/-- The observed routine is `relocate`: same halts, same returned memory. -/
theorem relocate_walk_result (fuel : Nat) (image : Mem) (image_address : Nat) :
    (Stub.relocate_walk fuel image image_address).result =
      Stub.relocate fuel image image_address := by
  unfold Stub.relocate_walk Stub.relocate Stub.get_nt_headers
  by_cases hnt : image.read 60 4 < 2 ^ 31
  · simp only [if_pos hnt, bind, Except.bind]
    by_cases h7 : Stub.not_relocatable_test (image.read (image.read 60 4 + 24 + 70) 2) = true
    · rw [if_pos h7, if_pos h7]; rfl
    · rw [if_neg h7, if_neg h7]
      simp only [pure, Except.pure]
      by_cases h8 : image.read
          (image.read 60 4 + 24 + 112 + 8 * IMAGE_DIRECTORY_ENTRY_BASERELOC) 4 = 0
      · rw [if_pos h8, if_pos h8]; rfl
      · rw [if_neg h8, if_neg h8]
        exact apply_blocks_walk_result _ _ _ _
  · simp only [if_neg hnt, bind, Except.bind]
    rfl


theorem apply_blocks_walk_eq (delta lo hi : Nat) (m0 : Mem) :
    ∀ (bs : List (Nat × Nat)) (p fuel : Nat) (m : Mem), Reloc.Table m0 p bs →
      (∀ x, lo ≤ x → x < hi → m x = m0 x) → lo ≤ p → Reloc.table_end p bs ≤ hi →
      (∀ a ∈ Reloc.targets m0 p bs, a + 8 ≤ lo ∨ hi ≤ a) → bs.length < fuel →
      Stub.apply_blocks_walk delta fuel m p =
        ⟨none, Reloc.fix_all delta (Reloc.targets m0 p bs) m, Reloc.blocks p bs⟩ := by
  intro bs
  induction bs with
  | nil =>
    intro p fuel m htab hag hlo hhi _ hfuel
    unfold Reloc.table_end at hhi
    have hv : m.read p 4 = m0.read p 4 :=
      read_congr _ _ _ _ fun k hk => hag _ (by omega) (by omega)
    cases fuel with
    | zero => simp at hfuel
    | succ fuel =>
      unfold Stub.apply_blocks_walk
      rw [hv, show m0.read p 4 = 0 from htab, if_pos rfl]
      rfl
  | cons b bs ih =>
    intro p fuel m htab hag hlo hhi htg hfuel
    obtain ⟨va, sz⟩ := b
    obtain ⟨h1, h2, h3, h4, h5⟩ := htab
    have hend := le_table_end bs (p + sz)
    unfold Reloc.table_end at hhi
    unfold Reloc.targets at htg ⊢
    have hv : m.read p 4 = m0.read p 4 :=
      read_congr _ _ _ _ fun k hk => hag _ (by omega) (by omega)
    have hs : m.read (p + 4) 4 = sz := by
      rw [← h3]
      exact read_congr _ _ _ _ fun k hk => hag _ (by omega) (by omega)
    have hsz32 : sz < 2 ^ 32 := by rw [← h3, ← pow256_4]; exact read_lt _ _ _
    cases fuel with
    | zero => simp at hfuel
    | succ fuel =>
      unfold Stub.apply_blocks_walk
      rw [hv, h1, if_neg h2]
      simp only [hs, apply_entries_walk_eq]
      rw [show (sz + 2 ^ 64 - 8) % 2 ^ 64 / 2 = (sz - 8) / 2 by omega,
        apply_entries_eq delta p lo hi m0 _ 0 m hag hlo (by omega)
          (fun a ha => htg a (List.mem_append_left _ ha))]
      have hag1 : ∀ x, lo ≤ x → x < hi →
          Reloc.fix_all delta (Reloc.block_targets m0 p ((sz - 8) / 2) 0) m x = m0 x := by
        intro x hx1 hx2
        rw [fix_all_frame _ _ _ _ (fun a ha => by
          have := htg a (List.mem_append_left _ ha); omega)]
        exact hag x hx1 hx2
      have hs1 : (Reloc.fix_all delta (Reloc.block_targets m0 p ((sz - 8) / 2) 0) m).read
          (p + 4) 4 = sz :=
        (read_congr _ m0 _ _ fun k hk => hag1 _ (by omega) (by omega)).trans h3
      rw [hs1, ih (p + sz) fuel _ h5 hag1 (by omega) hhi
        (fun a ha => htg a (List.mem_append_right _ ha))
        (by simp at hfuel; omega), fix_all_append]
      simp only [Reloc.blocks, List.range_eq_range']

theorem blocks_increasing (m0 : Mem) :
    ∀ (bs : List (Nat × Nat)) (p : Nat), Reloc.Table m0 p bs →
      (∀ b ∈ Reloc.blocks p bs, p ≤ b.1) ∧
      (Reloc.blocks p bs).Pairwise (fun a b => a.1 < b.1) := by
  intro bs
  induction bs with
  | nil => intro p _; exact ⟨fun b hb => (by cases hb), List.Pairwise.nil⟩
  | cons b bs ih =>
    intro p htab
    obtain ⟨va, sz⟩ := b
    obtain ⟨h1, h2, h3, h4, h5⟩ := htab
    obtain ⟨ih1, ih2⟩ := ih (p + sz) h5
    unfold Reloc.blocks
    refine ⟨?_, ?_⟩
    · intro b hb
      rcases List.mem_cons.1 hb with rfl | hb
      · exact Nat.le_refl _
      · have := ih1 b hb; omega
    · refine List.Pairwise.cons ?_ ih2
      intro b hb
      have := ih1 b hb
      show p < b.1
      omega

theorem blocks_length : ∀ (bs : List (Nat × Nat)) (p : Nat),
    (Reloc.blocks p bs).length = bs.length := by
  intro bs
  induction bs with
  | nil => intro p; rfl
  | cons b bs ih => intro p; obtain ⟨va, sz⟩ := b; simp [Reloc.blocks, ih]

theorem relocate_walk_eq (image : Mem) (image_address fuel : Nat) (bs : List (Nat × Nat))
    (hnt : image.read 60 4 < 2 ^ 31) (hdir : Reloc.directory image ≠ 0)
    (htab : Reloc.Table image (Reloc.directory image) bs) (hfuel : bs.length < fuel)
    (hdisj : ∀ a ∈ Reloc.targets image (Reloc.directory image) bs,
      a + 8 ≤ Reloc.directory image ∨ Reloc.table_end (Reloc.directory image) bs ≤ a) :
    Stub.relocate_walk fuel image image_address =
      ⟨none, Reloc.fix_all (Reloc.delta image image_address)
        (Reloc.targets image (Reloc.directory image) bs) image,
        Reloc.blocks (Reloc.directory image) bs⟩ := by
  unfold Stub.relocate_walk Stub.get_nt_headers
  simp only [if_pos hnt, not_relocatable_test_false]
  rw [if_neg (by simp)]
  try simp only [pure, Except.pure]
  rw [if_neg (show ¬ image.read (image.read 60 4 + 24 + 112 + 8 * IMAGE_DIRECTORY_ENTRY_BASERELOC)
    4 = 0 from hdir)]
  try simp only []
  exact apply_blocks_walk_eq _ (Reloc.directory image) (Reloc.table_end (Reloc.directory image) bs)
    image bs _ fuel image htab (fun _ _ _ => rfl) (Nat.le_refl _) (Nat.le_refl _) hdisj hfuel


theorem blocks_entries (m0 : Mem) :
    ∀ (bs : List (Nat × Nat)) (p : Nat), Reloc.Table m0 p bs →
      ∀ b ∈ Reloc.blocks p bs, b.2 = List.range ((m0.read (b.1 + 4) 4 - 8) / 2) := by
  intro bs
  induction bs with
  | nil => intro p _ b hb; cases hb
  | cons b bs ih =>
    intro p htab c hc
    obtain ⟨va, sz⟩ := b
    obtain ⟨h1, h2, h3, h4, h5⟩ := htab
    unfold Reloc.blocks at hc
    rcases List.mem_cons.1 hc with rfl | hc
    · show List.range ((sz - 8) / 2) = _
      rw [h3]
    · exact ih (p + sz) h5 c hc

/-- **C17.** Let `image` be a mapped image (with a non-negative `e_lfanew`) that
passes the relocatability test of line 181 and whose base-relocation data
directory has `VirtualAddress = 0`.  Then `relocate` ends at `ExitProcess(8)`,
for every load address and every step bound; at that moment every byte of the
image is what it was, and the block loop has visited nothing. -/
theorem missing_relocation_directory (fuel : Nat) (image : Mem) (image_address : Nat)
    (hnt : image.read 60 4 < 2 ^ 31)
    (hpass : Stub.not_relocatable_test (image.read (image.read 60 4 + 24 + 70) 2) = false)
    (hdir : Reloc.directory image = 0) :
    Stub.relocate fuel image image_address = .error (.exit 8) ∧
    (Stub.relocate_walk fuel image image_address).halt = some (.exit 8) ∧
    (∀ x, (Stub.relocate_walk fuel image image_address).image x = image x) ∧
    (Stub.relocate_walk fuel image image_address).visited = [] := by
  have hw : Stub.relocate_walk fuel image image_address = ⟨some (.exit 8), image, []⟩ := by
    unfold Stub.relocate_walk Stub.get_nt_headers
    simp only [if_pos hnt, hpass]
    rw [if_neg (by simp)]
    try simp only []
    rw [if_pos (show image.read
      (image.read 60 4 + 24 + 112 + 8 * IMAGE_DIRECTORY_ENTRY_BASERELOC) 4 = 0 from hdir)]
  refine ⟨?_, ?_, ?_, ?_⟩
  · rw [← relocate_walk_result, hw]; rfl
  · rw [hw]
  · intro x; rw [hw]
  · rw [hw]

/-- Witness of C17: the sample image with imports has no relocation directory;
`relocate` ends with exit code 8 and, for instance, the import address slot at
`0x600` still holds what it held. -/
theorem missing_relocation_directory_witness :
    Stub.relocate 5 (sample_import_image 0x700) 0x7FF600000000 = .error (.exit 8) ∧
    (Stub.relocate_walk 5 (sample_import_image 0x700) 0x7FF600000000).halt =
      some (.exit 8) ∧
    (Stub.relocate_walk 5 (sample_import_image 0x700) 0x7FF600000000).image.read 0x600 8 =
      (sample_import_image 0x700).read 0x600 8 := by
  obtain ⟨h1, h2, h3, _⟩ := missing_relocation_directory 5 (sample_import_image 0x700)
    0x7FF600000000 (by decide!) (by decide!) (by decide!)
  exact ⟨h1, h2, read_congr _ _ _ _ fun k _ => h3 _⟩

/-- **C20.** Let `image` be a mapped image whose relocation directory is present
and holds the blocks `bs`, each with `SizeOfBlock ≥ 8`, followed by a header with
`VirtualAddress = 0`, and let no `DIR64` target word overlap the table.  Then the
block loop of `relocate` terminates (every step bound above the number of blocks
is enough, and `relocate` returns); the headers it visits are those of the
blocks of the table, one visit each, at strictly increasing offsets; and at the
block at offset `p` the entry loop runs through the indices
`0, ..., (SizeOfBlock(p) - 8) / 2 - 1`, once each. -/
theorem relocation_walk_terminates (image : Mem) (image_address fuel : Nat)
    (bs : List (Nat × Nat))
    (hnt : image.read 60 4 < 2 ^ 31) (hdir : Reloc.directory image ≠ 0)
    (htab : Reloc.Table image (Reloc.directory image) bs) (hfuel : bs.length < fuel)
    (hdisj : ∀ a ∈ Reloc.targets image (Reloc.directory image) bs,
      a + 8 ≤ Reloc.directory image ∨ Reloc.table_end (Reloc.directory image) bs ≤ a) :
    (∃ image', Stub.relocate fuel image image_address = .ok image') ∧
    (Stub.relocate_walk fuel image image_address).halt = none ∧
    (Stub.relocate_walk fuel image image_address).visited =
      Reloc.blocks (Reloc.directory image) bs ∧
    (Stub.relocate_walk fuel image image_address).visited.length = bs.length ∧
    (Stub.relocate_walk fuel image image_address).visited.Pairwise
      (fun a b => a.1 < b.1) ∧
    (∀ b ∈ (Stub.relocate_walk fuel image image_address).visited,
      b.2 = List.range ((image.read (b.1 + 4) 4 - 8) / 2)) := by
  have hw := relocate_walk_eq image image_address fuel bs hnt hdir htab hfuel hdisj
  refine ⟨⟨_, relocate_eq image image_address fuel bs hnt hdir htab hfuel hdisj⟩, ?_, ?_, ?_,
    ?_, ?_⟩
  · rw [hw]
  · rw [hw]
  · rw [hw]; exact blocks_length bs _
  · rw [hw]; exact (blocks_increasing image bs _ htab).2
  · rw [hw]; exact blocks_entries image bs _ htab

/-- Witness of C20: on the sample image the walk visits the block at `0x3000`
(two entries) and then the block at `0x300C` (one entry), and stops at the zero
header at `0x3016`. -/
theorem relocation_walk_terminates_witness :
    (∃ image', Stub.relocate 3 (sample_image 0x0140) 0x7FF600000000 = .ok image') ∧
    (Stub.relocate_walk 3 (sample_image 0x0140) 0x7FF600000000).halt = none ∧
    (Stub.relocate_walk 3 (sample_image 0x0140) 0x7FF600000000).visited =
      [(0x3000, [0, 1]), (0x300C, [0])] := by
  have hdir : Reloc.directory (sample_image 0x0140) = 0x3000 := by decide!
  obtain ⟨h1, h2, h3, _⟩ := relocation_walk_terminates (sample_image 0x0140) 0x7FF600000000 3
    [(0x1000, 12), (0x2000, 10)] (by decide!) (by rw [hdir]; decide)
    (by rw [hdir]; unfold Reloc.Table Reloc.Table Reloc.Table; decide!) (by decide)
    (by rw [hdir, sample_image_targets]; decide)
  refine ⟨h1, h2, ?_⟩
  rw [h3, hdir]
  decide

/-! ### `load_image`: the mapped region -/

theorem copy_sections_spec (image : Bytes) (st L : Nat) :
    ∀ count i (base : Bytes), base.length = L → st + 40 * (i + count) ≤ image.length →
      (∀ j, i ≤ j → j < i + count → 0 < image.toMem.read (st + 40 * j + 16) 4 →
        image.toMem.read (st + 40 * j + 20) 4 + image.toMem.read (st + 40 * j + 16) 4 ≤
          image.length ∧
        image.toMem.read (st + 40 * j + 12) 4 + image.toMem.read (st + 40 * j + 16) 4 ≤ L) →
      ∃ out, Stub.copy_sections image st count i base = .ok out ∧ out.length = L ∧
        (∀ x, (∀ j, i ≤ j → j < i + count → x < image.toMem.read (st + 40 * j + 12) 4 ∨
            image.toMem.read (st + 40 * j + 12) 4 + image.toMem.read (st + 40 * j + 16) 4 ≤ x) →
          out.toMem x = base.toMem x) ∧
        (∀ j, i ≤ j → j < i + count →
          (∀ j2, j < j2 → j2 < i + count → 0 < image.toMem.read (st + 40 * j2 + 16) 4 →
            image.toMem.read (st + 40 * j + 12) 4 + image.toMem.read (st + 40 * j + 16) 4 ≤
              image.toMem.read (st + 40 * j2 + 12) 4 ∨
            image.toMem.read (st + 40 * j2 + 12) 4 + image.toMem.read (st + 40 * j2 + 16) 4 ≤
              image.toMem.read (st + 40 * j + 12) 4) →
          ∀ k, k < image.toMem.read (st + 40 * j + 16) 4 →
            out.toMem (image.toMem.read (st + 40 * j + 12) 4 + k) =
              image.toMem (image.toMem.read (st + 40 * j + 20) 4 + k)) := by
  intro count
  induction count with
  | zero =>
    intro i base hl _ _
    exact ⟨base, rfl, hl, fun _ _ => rfl, fun j h1 h2 => by omega⟩
  | succ count ih =>
    intro i base hl htbl hsec
    unfold Stub.copy_sections
    rw [rd_ok image (st + 40 * i + 16) 4 (by omega)]
    simp only []
    by_cases hraw : image.toMem.read (st + 40 * i + 16) 4 > 0
    · rw [if_pos hraw, rd_ok image (st + 40 * i + 12) 4 (by omega),
        rd_ok image (st + 40 * i + 20) 4 (by omega)]
      simp only []
      obtain ⟨hs1, hs2⟩ := hsec i (Nat.le_refl _) (by omega) hraw
      rw [if_neg (by omega)]
      have hdl : ((image.drop (image.toMem.read (st + 40 * i + 20) 4)).take
          (image.toMem.read (st + 40 * i + 16) 4)).length =
          image.toMem.read (st + 40 * i + 16) 4 := by
        rw [List.length_take, List.length_drop]; omega
      rw [copyIn_ok _ _ _ (by rw [hdl, hl]; exact hs2)]
      simp only []
      have hpl := length_patch base _ (image.toMem.read (st + 40 * i + 12) 4)
        (by rw [hdl, hl]; exact hs2)
      have hpm := fun x => toMem_patch base
        ((image.drop (image.toMem.read (st + 40 * i + 20) 4)).take
          (image.toMem.read (st + 40 * i + 16) 4))
        (image.toMem.read (st + 40 * i + 12) 4) x (by rw [hdl, hl]; exact hs2)
      rw [hdl] at hpm
      obtain ⟨out, ho, hol, hfr, hcp⟩ := ih (i + 1) _ (hpl.trans hl) (by
        have : i + 1 + count = i + (count + 1) := by omega
        rw [this]; exact htbl) (fun j h1 h2 => hsec j (by omega) (by omega))
      refine ⟨out, ho, hol, ?_, ?_⟩
      · intro x hx
        rw [hfr x (fun j h1 h2 => hx j (by omega) (by omega)), hpm,
          if_neg (by have := hx i (Nat.le_refl _) (by omega); omega)]
      · intro j h1 h2 hd k hk
        by_cases hji : j = i
        · subst hji
          rw [hfr _ (fun j2 h3 h4 => by
            by_cases hr2 : 0 < image.toMem.read (st + 40 * j2 + 16) 4
            · have := hd j2 (by omega) (by omega) hr2; omega
            · omega), hpm, if_pos (by omega), toMem_take, if_pos (by omega), toMem_drop]
          congr 1; omega
        · exact hcp j (by omega) (by omega) (fun j2 h3 h4 => hd j2 h3 (by omega)) k hk
    · rw [if_neg hraw]
      obtain ⟨out, ho, hol, hfr, hcp⟩ := ih (i + 1) base hl (by
        have : i + 1 + count = i + (count + 1) := by omega
        rw [this]; exact htbl) (fun j h1 h2 => hsec j (by omega) (by omega))
      refine ⟨out, ho, hol, ?_, ?_⟩
      · intro x hx
        exact hfr x (fun j h1 h2 => hx j (by omega) (by omega))
      · intro j h1 h2 hd k hk
        by_cases hji : j = i
        · subst hji; omega
        · exact hcp j (by omega) (by omega) (fun j2 h3 h4 => hd j2 h3 (by omega)) k hk


theorem load_image_eq (VirtualAlloc : Nat → Bool) (image : Bytes)
    (h64 : 64 ≤ image.length) (hnt : Image.nt image < 2 ^ 31)
    (hopt : Image.nt image + 24 + 64 ≤ image.length)
    (halloc : VirtualAlloc (Image.SizeOfImage image) = true)
    (hh1 : Image.SizeOfHeaders image ≤ image.length)
    (hh2 : Image.SizeOfHeaders image ≤ Image.SizeOfImage image) :
    Stub.load_image VirtualAlloc image =
      Stub.copy_sections image (Image.section_table image) (Image.NumberOfSections image) 0
        (Bytes.patch (List.replicate (Image.SizeOfImage image) 0) 0
          (image.take (Image.SizeOfHeaders image))) := by
  unfold Image.nt at hnt hopt
  unfold Image.SizeOfImage Image.nt at halloc hh2
  unfold Image.SizeOfHeaders Image.nt at hh1 hh2
  unfold Stub.load_image Image.section_table Image.NumberOfSections Image.SizeOfImage
    Image.SizeOfHeaders Image.SizeOfOptionalHeader Image.nt
  rw [rd_ok image 60 4 (by omega)]
  simp only [bind, Except.bind]
  rw [if_neg (by simpa using hnt)]
  simp only [pure, Except.pure]
  rw [rd_ok image _ 2 (by omega)]
  try simp only []
  rw [rd_ok image _ 4 (by omega)]
  try simp only []
  rw [if_neg (by simp [halloc])]
  try simp only []
  rw [rd_ok image _ 4 (by omega)]
  try simp only []
  rw [if_neg (by omega)]
  try simp only []
  rw [copyIn_ok _ _ _ (by rw [List.length_take, List.length_replicate]; omega)]
  try simp only []
  rw [rd_ok image _ 2 (by omega)]


/-- **C15 (amended).** Let `image` be a source image whose NT headers and section
table lie inside the buffer, whose `SizeOfHeaders` is at most the buffer length
and at most `SizeOfImage`, and whose sections with `SizeOfRawData > 0` have their
raw bytes inside the buffer, start at or after `SizeOfHeaders`, end at or before
`SizeOfImage` and have pairwise disjoint ranges
`[VirtualAddress, VirtualAddress + SizeOfRawData)`; let the allocation succeed.
Then `load_image` returns a region of `SizeOfImage` bytes in which the bytes
`[0, SizeOfHeaders)` are those of the source, the range of every section with
raw data holds its raw bytes, and every byte outside the header range and the
copied ranges is zero.  In particular the virtual extent
`[VirtualAddress, VirtualAddress + VirtualSize)` of a section with
`SizeOfRawData = 0` is zero throughout when it lies inside the region and meets
neither the header range nor a copied range. -/
theorem manual_mapping (VirtualAlloc : Nat → Bool) (image : Bytes)
    (h64 : 64 ≤ image.length) (hnt : Image.nt image < 2 ^ 31)
    (hopt : Image.nt image + 24 + 64 ≤ image.length)
    (htbl : Image.section_header image (Image.NumberOfSections image) ≤ image.length)
    (halloc : VirtualAlloc (Image.SizeOfImage image) = true)
    (hh1 : Image.SizeOfHeaders image ≤ image.length)
    (hh2 : Image.SizeOfHeaders image ≤ Image.SizeOfImage image)
    (hsec : ∀ i, i < Image.NumberOfSections image → 0 < Image.SizeOfRawData image i →
      Image.PointerToRawData image i + Image.SizeOfRawData image i ≤ image.length ∧
      Image.SizeOfHeaders image ≤ Image.VirtualAddress image i ∧
      Image.VirtualAddress image i + Image.SizeOfRawData image i ≤ Image.SizeOfImage image)
    (hdisj : ∀ i j, i < j → j < Image.NumberOfSections image →
      0 < Image.SizeOfRawData image i → 0 < Image.SizeOfRawData image j →
      Image.VirtualAddress image i + Image.SizeOfRawData image i ≤
        Image.VirtualAddress image j ∨
      Image.VirtualAddress image j + Image.SizeOfRawData image j ≤
        Image.VirtualAddress image i) :
    ∃ region, Stub.load_image VirtualAlloc image = .ok region ∧
      region.length = Image.SizeOfImage image ∧
      (∀ x, x < Image.SizeOfHeaders image → region[x]? = image[x]?) ∧
      (∀ i, i < Image.NumberOfSections image → ∀ k, k < Image.SizeOfRawData image i →
        region[Image.VirtualAddress image i + k]? =
          image[Image.PointerToRawData image i + k]?) ∧
      (∀ x, Image.SizeOfHeaders image ≤ x → x < Image.SizeOfImage image →
        (∀ i, i < Image.NumberOfSections image → x < Image.VirtualAddress image i ∨
          Image.VirtualAddress image i + Image.SizeOfRawData image i ≤ x) →
        region[x]? = some 0) ∧
      (∀ i, i < Image.NumberOfSections image → Image.SizeOfRawData image i = 0 →
        Image.VirtualAddress image i + Image.VirtualSize image i ≤ Image.SizeOfImage image →
        (∀ x, Image.VirtualAddress image i ≤ x →
          x < Image.VirtualAddress image i + Image.VirtualSize image i →
          Image.SizeOfHeaders image ≤ x ∧
          ∀ j, j < Image.NumberOfSections image → x < Image.VirtualAddress image j ∨
            Image.VirtualAddress image j + Image.SizeOfRawData image j ≤ x) →
        ∀ x, Image.VirtualAddress image i ≤ x →
          x < Image.VirtualAddress image i + Image.VirtualSize image i →
          region[x]? = some 0) := by
  rw [load_image_eq VirtualAlloc image h64 hnt hopt halloc hh1 hh2]
  simp only [Image.VirtualAddress, Image.SizeOfRawData, Image.PointerToRawData,
    Image.VirtualSize, Image.section_header] at htbl hsec hdisj ⊢
  have htl : (image.take (Image.SizeOfHeaders image)).length = Image.SizeOfHeaders image := by
    rw [List.length_take]; omega
  have hb : 0 + (image.take (Image.SizeOfHeaders image)).length ≤
      (List.replicate (Image.SizeOfImage image) (0 : Byte)).length := by
    rw [htl, List.length_replicate]; omega
  have hbl := length_patch (List.replicate (Image.SizeOfImage image) (0 : Byte)) _ 0 hb
  have hbm := fun x => toMem_patch (List.replicate (Image.SizeOfImage image) (0 : Byte)) _ 0 x hb
  rw [htl] at hbm
  rw [List.length_replicate] at hbl
  obtain ⟨region, hr, hrl, hfr, hcp⟩ := copy_sections_spec image (Image.section_table image)
    (Image.SizeOfImage image) (Image.NumberOfSections image) 0 _ hbl
    (by rw [Nat.zero_add]; exact htbl)
    (fun j _ h2 h3 => by
      obtain ⟨a, _, c⟩ := hsec j (by omega) h3
      exact ⟨a, c⟩)
  have hzero : ∀ x, Image.SizeOfHeaders image ≤ x → x < Image.SizeOfImage image →
      (∀ i, i < Image.NumberOfSections image →
        x < image.toMem.read (Image.section_table image + 40 * i + 12) 4 ∨
        image.toMem.read (Image.section_table image + 40 * i + 12) 4 +
          image.toMem.read (Image.section_table image + 40 * i + 16) 4 ≤ x) →
      region[x]? = some 0 := by
    intro x h1 h2 h3
    rw [getElem?_of_toMem region x (by omega), hfr x (fun j _ hj => h3 j (by omega)), hbm,
      if_neg (by omega), toMem_replicate]
  refine ⟨region, hr, hrl, ?_, ?_, hzero, ?_⟩
  · intro x hx
    rw [getElem?_of_toMem region x (by omega), getElem?_of_toMem image x (by omega),
      hfr x (fun j _ hj => by
        by_cases h0 : 0 < image.toMem.read (Image.section_table image + 40 * j + 16) 4
        · have := hsec j (by omega) h0; omega
        · omega), hbm, if_pos (by omega), Nat.sub_zero, toMem_take, if_pos hx]
  · intro i hi k hk
    obtain ⟨a, _, c⟩ := hsec i hi (by omega)
    rw [getElem?_of_toMem region _ (by omega), getElem?_of_toMem image _ (by omega),
      hcp i (Nat.zero_le _) (by omega) (fun j2 h1 h2 h3 =>
        hdisj i j2 h1 (by omega) (by omega) h3) k hk]
  · intro i hi _ hin hclear x h1 h2
    obtain ⟨a, b⟩ := hclear x h1 h2
    exact hzero x a (by omega) b


/-- Witness of C15: the sample source with `.data` at `0x220`.  The region has
`0x240` bytes, starts with the header bytes `4D 5A`, holds the raw bytes
`DE AD BE EF` at `0x220`, and the extent `[0x200, 0x210)` of `.bss` is zero. -/
theorem manual_mapping_witness :
    ∃ region, Stub.load_image (fun _ => true) (sample_source 0x220) = .ok region ∧
      region.length = 0x240 ∧ region[0]? = some 0x4D ∧ region[1]? = some 0x5A ∧
      region[0x220]? = some 0xDE ∧ region[0x223]? = some 0xEF ∧
      (∀ x, 0x200 ≤ x → x < 0x210 → region[x]? = some 0) := by
  have hn : Image.NumberOfSections (sample_source 0x220) = 2 := by decide!
  have hsi : Image.SizeOfImage (sample_source 0x220) = 0x240 := by decide!
  have hsh : Image.SizeOfHeaders (sample_source 0x220) = 0x198 := by decide!
  have hva0 : Image.VirtualAddress (sample_source 0x220) 0 = 0x200 := by decide!
  have hvs0 : Image.VirtualSize (sample_source 0x220) 0 = 0x10 := by decide!
  have hraw0 : Image.SizeOfRawData (sample_source 0x220) 0 = 0 := by decide!
  have hva1 : Image.VirtualAddress (sample_source 0x220) 1 = 0x220 := by decide!
  have hraw1 : Image.SizeOfRawData (sample_source 0x220) 1 = 4 := by decide!
  have hprd1 : Image.PointerToRawData (sample_source 0x220) 1 = 0x198 := by decide!
  have hranges : ∀ x j, 0x200 ≤ x → x < 0x210 → j < 2 →
      x < Image.VirtualAddress (sample_source 0x220) j ∨
        Image.VirtualAddress (sample_source 0x220) j +
          Image.SizeOfRawData (sample_source 0x220) j ≤ x := by
    intro x j h1 h2 hj
    interval_cases j
    · rw [hva0, hraw0]; omega
    · rw [hva1, hraw1]; omega
  obtain ⟨region, h, hl, hh, hc, _, hb⟩ := manual_mapping (fun _ => true) (sample_source 0x220)
    (by decide!) (by decide!) (by decide!) (by decide!) rfl (by decide!) (by decide!)
    (by
      intro i hi
      rw [hn] at hi
      interval_cases i
      · decide!
      · decide!)
    (by
      intro i j hij hj
      rw [hn] at hj
      interval_cases j
      · omega
      · interval_cases i
        decide!)
  rw [hsi] at hl
  rw [hsh] at hh
  rw [hn] at hc hb
  have c0 := hc 1 (by decide) 0 (by rw [hraw1]; decide)
  have c3 := hc 1 (by decide) 3 (by rw [hraw1]; decide)
  rw [hva1, hprd1] at c0 c3
  refine ⟨region, h, hl, (hh 0 (by decide)).trans (by decide!),
    (hh 1 (by decide)).trans (by decide!), c0.trans (by decide!), c3.trans (by decide!), ?_⟩
  have hb0 := hb 0 (by decide) hraw0
  rw [hva0, hvs0, hsi, hsh] at hb0
  exact hb0 (by decide) (fun x h1 h2 => ⟨by omega, fun j hj => hranges x j h1 h2 hj⟩)

/-- **C15 (counterexample to the claim as worded).** The sample source with
`.data` at `0x200`: `SizeOfHeaders` and all raw and virtual extents lie inside
the buffer and inside `SizeOfImage`, and the header range `[0, 0x198)` and the
ranges `[VirtualAddress, VirtualAddress + SizeOfRawData)`, that is `[0x200, 0x200)`
for `.bss` and `[0x200, 0x204)` for `.data`, are pairwise disjoint.  The section
`.bss` has `SizeOfRawData = 0` and the extent `[0x200, 0x210)`, yet in the region
that `load_image` returns the bytes at `0x200` to `0x203` of that extent are
`DE AD BE EF`, the raw bytes of `.data`. -/
theorem zero_raw_extent_overwritten :
    (Image.NumberOfSections (sample_source 0x200) = 2 ∧
      Image.SizeOfHeaders (sample_source 0x200) = 0x198 ∧
      Image.SizeOfImage (sample_source 0x200) = 0x240 ∧
      (sample_source 0x200).length = 412 ∧
      (∀ i, i < 2 →
        Image.PointerToRawData (sample_source 0x200) i +
          Image.SizeOfRawData (sample_source 0x200) i ≤ 412 ∧
        0x198 ≤ Image.VirtualAddress (sample_source 0x200) i ∧
        Image.VirtualAddress (sample_source 0x200) i +
          Image.SizeOfRawData (sample_source 0x200) i ≤ 0x240 ∧
        Image.VirtualAddress (sample_source 0x200) i +
          Image.VirtualSize (sample_source 0x200) i ≤ 0x240) ∧
      Image.VirtualAddress (sample_source 0x200) 0 +
        Image.SizeOfRawData (sample_source 0x200) 0 ≤
          Image.VirtualAddress (sample_source 0x200) 1) ∧
    (Image.SizeOfRawData (sample_source 0x200) 0 = 0 ∧
      Image.VirtualAddress (sample_source 0x200) 0 = 0x200 ∧
      Image.VirtualSize (sample_source 0x200) 0 = 0x10) ∧
    (Stub.load_image (fun _ => true) (sample_source 0x200)).map
      (fun region => (region.length, [region[0x200]?, region[0x201]?, region[0x202]?,
        region[0x203]?, region[0x204]?])) =
      .ok (0x240, [some 0xDE, some 0xAD, some 0xBE, some 0xEF, some 0]) := by
  refine ⟨⟨by decide!, by decide!, by decide!, by decide!, ?_, by decide!⟩,
    ⟨by decide!, by decide!, by decide!⟩, by decide!⟩
  intro i hi
  interval_cases i
  · decide!
  · decide!

/-! ### `load_imports` observed: all entries resolved, or a fatal exit -/

theorem resolve_thunks_walk_succ (os : Stub.Os) (dll desc fuel : Nat) (m : Mem) (lt adr : Nat) :
    Stub.resolve_thunks_walk os dll desc (fuel + 1) m lt adr =
    if m.read lt 8 = 0 then ⟨none, m, []⟩
    else if Stub.ordinal_test (m.read lt 8) then
      if os.GetProcAddress_ordinal dll (m.read lt 8 &&& 0xFFFFFFFF) = 0 then
        ⟨some (.exit 5), m, []⟩
      else
        ⟨(Stub.resolve_thunks_walk os dll desc fuel
            (m.write adr 8 (os.GetProcAddress_ordinal dll (m.read lt 8 &&& 0xFFFFFFFF)))
            (lt + 8) (adr + 8)).halt,
          (Stub.resolve_thunks_walk os dll desc fuel
            (m.write adr 8 (os.GetProcAddress_ordinal dll (m.read lt 8 &&& 0xFFFFFFFF)))
            (lt + 8) (adr + 8)).image,
          ⟨desc, lt, adr, os.GetProcAddress_ordinal dll (m.read lt 8 &&& 0xFFFFFFFF)⟩ ::
          (Stub.resolve_thunks_walk os dll desc fuel
            (m.write adr 8 (os.GetProcAddress_ordinal dll (m.read lt 8 &&& 0xFFFFFFFF)))
            (lt + 8) (adr + 8)).resolved⟩
    else
      if os.GetProcAddress_name m dll (m.read lt 8 + 2) = 0 then ⟨some (.exit 6), m, []⟩
      else
        ⟨(Stub.resolve_thunks_walk os dll desc fuel
            (m.write adr 8 (os.GetProcAddress_name m dll (m.read lt 8 + 2)))
            (lt + 8) (adr + 8)).halt,
          (Stub.resolve_thunks_walk os dll desc fuel
            (m.write adr 8 (os.GetProcAddress_name m dll (m.read lt 8 + 2)))
            (lt + 8) (adr + 8)).image,
          ⟨desc, lt, adr, os.GetProcAddress_name m dll (m.read lt 8 + 2)⟩ ::
          (Stub.resolve_thunks_walk os dll desc fuel
            (m.write adr 8 (os.GetProcAddress_name m dll (m.read lt 8 + 2)))
            (lt + 8) (adr + 8)).resolved⟩ := rfl

theorem resolve_thunks_succ (os : Stub.Os) (dll fuel : Nat) (m : Mem) (lt adr : Nat) :
    Stub.resolve_thunks os dll (fuel + 1) m lt adr =
    if m.read lt 8 = 0 then .ok m
    else if Stub.ordinal_test (m.read lt 8) then
      if os.GetProcAddress_ordinal dll (m.read lt 8 &&& 0xFFFFFFFF) = 0 then .error (.exit 5)
      else Stub.resolve_thunks os dll fuel
        (m.write adr 8 (os.GetProcAddress_ordinal dll (m.read lt 8 &&& 0xFFFFFFFF)))
        (lt + 8) (adr + 8)
    else
      if os.GetProcAddress_name m dll (m.read lt 8 + 2) = 0 then .error (.exit 6)
      else Stub.resolve_thunks os dll fuel
        (m.write adr 8 (os.GetProcAddress_name m dll (m.read lt 8 + 2)))
        (lt + 8) (adr + 8) := rfl

theorem resolve_thunks_walk_result (os : Stub.Os) (dll desc : Nat) :
    ∀ fuel m lt adr, (Stub.resolve_thunks_walk os dll desc fuel m lt adr).result =
      Stub.resolve_thunks os dll fuel m lt adr := by
  intro fuel
  induction fuel with
  | zero => intro m lt adr; rfl
  | succ fuel ih =>
    intro m lt adr
    rw [resolve_thunks_walk_succ, resolve_thunks_succ]
    by_cases h0 : m.read lt 8 = 0
    · rw [if_pos h0, if_pos h0]; simp only [Stub.ImportWalk.result]
    · rw [if_neg h0, if_neg h0]
      by_cases ho : Stub.ordinal_test (m.read lt 8) = true
      · rw [if_pos ho, if_pos ho]
        by_cases hf : os.GetProcAddress_ordinal dll (m.read lt 8 &&& 0xFFFFFFFF) = 0
        · rw [if_pos hf, if_pos hf]; simp only [Stub.ImportWalk.result]
        · rw [if_neg hf, if_neg hf, ← ih]; simp only [Stub.ImportWalk.result]
      · rw [if_neg ho, if_neg ho]
        by_cases hf : os.GetProcAddress_name m dll (m.read lt 8 + 2) = 0
        · rw [if_pos hf, if_pos hf]; simp only [Stub.ImportWalk.result]
        · rw [if_neg hf, if_neg hf, ← ih]; simp only [Stub.ImportWalk.result]

theorem resolve_descriptors_walk_result (os : Stub.Os) :
    ∀ fuel m p, (Stub.resolve_descriptors_walk os fuel m p).result =
      Stub.resolve_descriptors os fuel m p := by
  intro fuel
  induction fuel with
  | zero => intro m p; rfl
  | succ fuel ih =>
    intro m p
    unfold Stub.resolve_descriptors_walk Stub.resolve_descriptors
    simp only []
    split
    · rfl
    · split
      · rfl
      · rw [← resolve_thunks_walk_result os _ p]
        generalize Stub.resolve_thunks_walk os _ p fuel m _ _ = w
        obtain ⟨h, im, rs⟩ := w
        cases h with
        | none =>
          simp only [Stub.ImportWalk.result]
          rw [← ih]
          rfl
        | some e => rfl

/-- The observed routine is `load_imports`: same halts, same returned memory. -/
theorem load_imports_walk_result (os : Stub.Os) (fuel : Nat) (image : Mem) :
    (Stub.load_imports_walk os fuel image).result = Stub.load_imports os fuel image := by
  unfold Stub.load_imports_walk Stub.load_imports Stub.get_nt_headers
  by_cases hnt : image.read 60 4 < 2 ^ 31
  · simp only [if_pos hnt, bind, Except.bind]
    split
    · rfl
    · exact resolve_descriptors_walk_result _ _ _ _
  · simp only [if_neg hnt, bind, Except.bind]
    rfl


theorem resolve_thunks_walk_step (os : Stub.Os) (dll desc fuel : Nat) (m : Mem) (lt adr : Nat)
    (h0 : m.read lt 8 ≠ 0) :
    (Import.resolve os m dll (m.read lt 8) = 0 →
      Stub.resolve_thunks_walk os dll desc (fuel + 1) m lt adr =
        ⟨some (.exit (if Stub.ordinal_test (m.read lt 8) then 5 else 6)), m, []⟩) ∧
    (Import.resolve os m dll (m.read lt 8) ≠ 0 →
      Stub.resolve_thunks_walk os dll desc (fuel + 1) m lt adr =
        ⟨(Stub.resolve_thunks_walk os dll desc fuel
            (m.write adr 8 (Import.resolve os m dll (m.read lt 8))) (lt + 8) (adr + 8)).halt,
          (Stub.resolve_thunks_walk os dll desc fuel
            (m.write adr 8 (Import.resolve os m dll (m.read lt 8))) (lt + 8) (adr + 8)).image,
          ⟨desc, lt, adr, Import.resolve os m dll (m.read lt 8)⟩ ::
          (Stub.resolve_thunks_walk os dll desc fuel
            (m.write adr 8 (Import.resolve os m dll (m.read lt 8))) (lt + 8)
            (adr + 8)).resolved⟩) := by
  rw [resolve_thunks_walk_succ, if_neg h0]
  unfold Import.resolve
  by_cases ho : Stub.ordinal_test (m.read lt 8) = true
  · rw [if_pos ho, if_pos ho, if_pos ho]
    exact ⟨fun h => by rw [if_pos h], fun h => by rw [if_neg h]⟩
  · rw [if_neg ho, if_neg ho, if_neg ho]
    exact ⟨fun h => by rw [if_pos h], fun h => by rw [if_neg h]⟩

theorem replay_cons (r : Stub.Resolution) (rs : List Stub.Resolution) (m : Mem) :
    Import.replay (r :: rs) m = Import.replay rs (m.write r.address_table 8 r.function) := by
  unfold Import.replay; rw [List.foldl_cons]

theorem replay_append (rs ts : List Stub.Resolution) (m : Mem) :
    Import.replay (rs ++ ts) m = Import.replay ts (Import.replay rs m) := by
  unfold Import.replay; rw [List.foldl_append]

theorem replay_frame : ∀ (rs : List Stub.Resolution) (m : Mem) (x : Nat),
    (∀ r ∈ rs, x < r.address_table ∨ r.address_table + 8 ≤ x) →
    Import.replay rs m x = m x := by
  intro rs
  induction rs with
  | nil => intro m x _; rfl
  | cons r rs ih =>
    intro m x h
    rw [replay_cons, ih _ x (fun t ht => h t (List.mem_cons_of_mem _ ht)),
      write_of_not_mem _ _ _ _ _ (h r (List.mem_cons_self _ _))]

theorem replay_read : ∀ (rs : List Stub.Resolution) (m : Mem),
    rs.Pairwise (fun a b => a.address_table + 8 ≤ b.address_table ∨
      b.address_table + 8 ≤ a.address_table) →
    (∀ r ∈ rs, r.function < 2 ^ 64) →
    ∀ r ∈ rs, (Import.replay rs m).read r.address_table 8 = r.function := by
  intro rs
  induction rs with
  | nil => intro m _ _ r hr; cases hr
  | cons a rs ih =>
    intro m hp hf r hr
    rw [replay_cons]
    rw [List.pairwise_cons] at hp
    rcases List.mem_cons.1 hr with rfl | hr
    · rw [read_congr _ (m.write r.address_table 8 r.function) _ _ (fun i hi =>
        replay_frame rs _ _ (fun t ht => by have := hp.1 t ht; omega)),
        read_write_same, pow256_8, Nat.mod_eq_of_lt (hf r (List.mem_cons_self _ _))]
    · exact ih _ hp.2 (fun t ht => hf t (List.mem_cons_of_mem _ ht)) r hr

theorem resolve_thunks_walk_spec (os : Stub.Os) (dll desc : Nat) (image0 : Mem)
    (W : Nat → Prop)
    (E : Nat → Prop)
    (hptr : ∀ m a b, os.GetProcAddress_ordinal a b < 2 ^ 64 ∧
      os.GetProcAddress_name m a b < 2 ^ 64) :
    ∀ (es : List Nat) (fuel : Nat) (m : Mem) (lt adr : Nat),
      Import.Lookup image0 lt es → (∀ e ∈ es, E e) →
      (∀ x, ¬ W x → m x = image0 x) →
      (∀ x, lt ≤ x → x < lt + 8 * (es.length + 1) → ¬ W x) →
      (∀ k ∈ Import.entries_of desc lt adr es.length,
        ∀ x, k.2.2 ≤ x → x < k.2.2 + 8 → W x) →
      es.length < fuel →
      ∃ rest, Import.entries_of desc lt adr es.length =
          (Stub.resolve_thunks_walk os dll desc fuel m lt adr).resolved.map
            Stub.Resolution.key ++ rest ∧
        (Stub.resolve_thunks_walk os dll desc fuel m lt adr).image =
          Import.replay (Stub.resolve_thunks_walk os dll desc fuel m lt adr).resolved m ∧
        (∀ x, ¬ W x →
          (Stub.resolve_thunks_walk os dll desc fuel m lt adr).image x = image0 x) ∧
        ((Stub.resolve_thunks_walk os dll desc fuel m lt adr).halt = none ∧ rest = [] ∨
          ((Stub.resolve_thunks_walk os dll desc fuel m lt adr).halt = some (.exit 5) ∨
            (Stub.resolve_thunks_walk os dll desc fuel m lt adr).halt = some (.exit 6)) ∧
          rest ≠ []) ∧
        (∀ r ∈ (Stub.resolve_thunks_walk os dll desc fuel m lt adr).resolved,
          r.function ≠ 0 ∧ r.descriptor = desc ∧ r.function < 2 ^ 64) ∧
        ((∀ m2 : Mem, (∀ x, ¬ W x → m2 x = image0 x) → ∀ e, E e →
            ∀ a, os.GetProcAddress_name m2 a (e + 2) =
              os.GetProcAddress_name image0 a (e + 2)) →
          ∀ r ∈ (Stub.resolve_thunks_walk os dll desc fuel m lt adr).resolved,
            r.function = Import.resolve os image0 dll (image0.read r.lookup_table 8)) := by
  intro es
  induction es with
  | nil =>
    intro fuel m lt adr hlk _ hag hrd _ hfuel
    have hv : m.read lt 8 = image0.read lt 8 :=
      read_congr _ _ _ _ fun k hk => hag _ (hrd _ (by omega) (by simp; omega))
    cases fuel with
    | zero => simp at hfuel
    | succ fuel =>
      rw [resolve_thunks_walk_succ, hv, show image0.read lt 8 = 0 from hlk, if_pos rfl]
      exact ⟨[], rfl, rfl, hag, Or.inl ⟨rfl, rfl⟩, fun r hr => (by cases hr),
        fun _ r hr => (by cases hr)⟩
  | cons e es ih =>
    intro fuel m lt adr hlk hE hag hrd hsl hfuel
    obtain ⟨h1, h2, h3⟩ := hlk
    have hv : m.read lt 8 = e := by
      rw [← h1]
      exact read_congr _ _ _ _ fun k hk => hag _ (hrd _ (by omega) (by simp; omega))
    have hslot : ∀ x, adr ≤ x → x < adr + 8 → W x :=
      hsl (desc, lt, adr) (by simp [Import.entries_of])
    cases fuel with
    | zero => simp at hfuel
    | succ fuel =>
      obtain ⟨s0, s1⟩ := resolve_thunks_walk_step os dll desc fuel m lt adr (by rw [hv]; exact h2)
      rw [hv] at s0 s1
      by_cases hf : Import.resolve os m dll e = 0
      · rw [s0 hf]
        refine ⟨_, rfl, rfl, hag, Or.inr ⟨?_, by simp [Import.entries_of]⟩,
          fun r hr => (by cases hr), fun _ r hr => (by cases hr)⟩
        by_cases ho : Stub.ordinal_test e = true
        · rw [if_pos ho]; exact Or.inl rfl
        · rw [if_neg ho]; exact Or.inr rfl
      · rw [s1 hf]
        have hag1 : ∀ x, ¬ W x → (m.write adr 8 (Import.resolve os m dll e)) x = image0 x := by
          intro x hx
          rw [write_of_not_mem _ _ _ _ _ (by
            by_contra hc
            exact hx (hslot x (by omega) (by omega)))]
          exact hag x hx
        obtain ⟨rest, e1, e2, e3, e4, e5, e6⟩ := ih fuel
          (m.write adr 8 (Import.resolve os m dll e)) (lt + 8) (adr + 8) h3
          (fun e2 he2 => hE e2 (List.mem_cons_of_mem _ he2)) hag1
          (fun x hx1 hx2 => hrd x (by omega) (by simp at hx2 ⊢; omega))
          (fun k hk => hsl k (by
            simp only [List.length_cons, Import.entries_of]
            exact List.mem_cons_of_mem _ hk))
          (by simp at hfuel; omega)
        refine ⟨rest, ?_, ?_, e3, ?_, ?_, ?_⟩
        · simp only [List.length_cons, Import.entries_of, List.map_cons, List.cons_append]
          rw [← e1]
          rfl
        · rw [replay_cons]; exact e2
        · exact e4
        · intro r hr
          rcases List.mem_cons.1 hr with rfl | hr
          · refine ⟨hf, rfl, ?_⟩
            show Import.resolve os m dll e < 2 ^ 64
            unfold Import.resolve
            split
            · exact (hptr m _ _).1
            · exact (hptr m _ _).2
          · exact e5 r hr
        · intro hst r hr
          rcases List.mem_cons.1 hr with rfl | hr
          · show Import.resolve os m dll e = Import.resolve os image0 dll (image0.read lt 8)
            rw [h1]
            unfold Import.resolve
            rw [hst m hag e (hE e (List.mem_cons_self _ _))]
          · exact e6 hst r hr


theorem entries_of_length (desc : Nat) : ∀ n lt adr,
    (Import.entries_of desc lt adr n).length = n := by
  intro n
  induction n with
  | zero => intro lt adr; rfl
  | succ n ih => intro lt adr; simp [Import.entries_of, ih]

theorem resolve_descriptors_walk_succ (os : Stub.Os) (fuel : Nat) (m : Mem) (p : Nat) :
    Stub.resolve_descriptors_walk os (fuel + 1) m p =
    if m.read p 4 = 0 then ⟨none, m, []⟩
    else
      if os.LoadLibraryA m (m.read (p + 12) 4) = 0 then ⟨some (.exit 4), m, []⟩
      else
        match (Stub.resolve_thunks_walk os (os.LoadLibraryA m (m.read (p + 12) 4)) p fuel m
          (m.read p 4) (m.read (p + 16) 4)).halt with
        | some e => ⟨some e,
            (Stub.resolve_thunks_walk os (os.LoadLibraryA m (m.read (p + 12) 4)) p fuel m
              (m.read p 4) (m.read (p + 16) 4)).image,
            (Stub.resolve_thunks_walk os (os.LoadLibraryA m (m.read (p + 12) 4)) p fuel m
              (m.read p 4) (m.read (p + 16) 4)).resolved⟩
        | none =>
          ⟨(Stub.resolve_descriptors_walk os fuel
              (Stub.resolve_thunks_walk os (os.LoadLibraryA m (m.read (p + 12) 4)) p fuel m
                (m.read p 4) (m.read (p + 16) 4)).image (p + 20)).halt,
            (Stub.resolve_descriptors_walk os fuel
              (Stub.resolve_thunks_walk os (os.LoadLibraryA m (m.read (p + 12) 4)) p fuel m
                (m.read p 4) (m.read (p + 16) 4)).image (p + 20)).image,
            (Stub.resolve_thunks_walk os (os.LoadLibraryA m (m.read (p + 12) 4)) p fuel m
              (m.read p 4) (m.read (p + 16) 4)).resolved ++
            (Stub.resolve_descriptors_walk os fuel
              (Stub.resolve_thunks_walk os (os.LoadLibraryA m (m.read (p + 12) 4)) p fuel m
                (m.read p 4) (m.read (p + 16) 4)).image (p + 20)).resolved⟩ := rfl

theorem resolve_descriptors_walk_step (os : Stub.Os) (fuel : Nat) (m : Mem) (p : Nat)
    (h0 : m.read p 4 ≠ 0) (hdll : os.LoadLibraryA m (m.read (p + 12) 4) ≠ 0)
    (w : Stub.ImportWalk)
    (hw : Stub.resolve_thunks_walk os (os.LoadLibraryA m (m.read (p + 12) 4)) p fuel m
      (m.read p 4) (m.read (p + 16) 4) = w) :
    (∀ e, w.halt = some e →
      Stub.resolve_descriptors_walk os (fuel + 1) m p = ⟨some e, w.image, w.resolved⟩) ∧
    (w.halt = none →
      Stub.resolve_descriptors_walk os (fuel + 1) m p =
        ⟨(Stub.resolve_descriptors_walk os fuel w.image (p + 20)).halt,
          (Stub.resolve_descriptors_walk os fuel w.image (p + 20)).image,
          w.resolved ++ (Stub.resolve_descriptors_walk os fuel w.image (p + 20)).resolved⟩) := by
  rw [resolve_descriptors_walk_succ, if_neg h0, if_neg hdll]
  simp only [hw]
  obtain ⟨h, im, rs⟩ := w
  cases h with
  | none => exact ⟨fun e he => (by cases he), fun _ => rfl⟩
  | some e0 => exact ⟨fun e he => (by cases he; rfl), fun he => (by cases he)⟩

theorem resolve_descriptors_walk_spec (os : Stub.Os) (image0 : Mem) (W : Nat → Prop)
    (N E : Nat → Prop)
    (hptr : ∀ m a b, os.GetProcAddress_ordinal a b < 2 ^ 64 ∧
      os.GetProcAddress_name m a b < 2 ^ 64) :
    ∀ (ds : List Import.Descriptor) (fuel : Nat) (m : Mem) (p : Nat),
      Import.Table image0 p ds → (∀ d ∈ ds, N d.Name ∧ ∀ e ∈ d.entries, E e) →
      (∀ x, ¬ W x → m x = image0 x) →
      (∀ x, Import.reads p ds x → ¬ W x) →
      (∀ k ∈ Import.entries p ds, ∀ x, k.2.2 ≤ x → x < k.2.2 + 8 → W x) →
      (Import.entries p ds).length + ds.length < fuel →
      ∃ w rest, Stub.resolve_descriptors_walk os fuel m p = w ∧
        Import.entries p ds = w.resolved.map Stub.Resolution.key ++ rest ∧
        w.image = Import.replay w.resolved m ∧
        (∀ x, ¬ W x → w.image x = image0 x) ∧
        (w.halt = none ∧ rest = [] ∨ w.halt = some (.exit 4) ∨
          (w.halt = some (.exit 5) ∨ w.halt = some (.exit 6)) ∧ rest ≠ []) ∧
        (∀ r ∈ w.resolved, r.function ≠ 0 ∧ r.function < 2 ^ 64) ∧
        ((∀ m2 : Mem, (∀ x, ¬ W x → m2 x = image0 x) →
            (∀ n, N n → os.LoadLibraryA m2 n = os.LoadLibraryA image0 n) ∧
            (∀ e, E e → ∀ a, os.GetProcAddress_name m2 a (e + 2) =
              os.GetProcAddress_name image0 a (e + 2))) →
          ∀ r ∈ w.resolved, r.function = Import.resolve os image0
            (os.LoadLibraryA image0 (image0.read (r.descriptor + 12) 4))
            (image0.read r.lookup_table 8)) := by
  intro ds
  induction ds with
  | nil =>
    intro fuel m p htab _ hag hrd _ hfuel
    have hv : m.read p 4 = image0.read p 4 :=
      read_congr _ _ _ _ fun k hk => hag _ (hrd _ ⟨by omega, by omega⟩)
    cases fuel with
    | zero => simp at hfuel
    | succ fuel =>
      refine ⟨_, [], rfl, ?_⟩
      rw [resolve_descriptors_walk_succ, hv, show image0.read p 4 = 0 from htab, if_pos rfl]
      exact ⟨rfl, rfl, hag, Or.inl ⟨rfl, rfl⟩, fun r hr => (by cases hr),
        fun _ r hr => (by cases hr)⟩
  | cons d ds ih =>
    intro fuel m p htab hNE hag hrd hsl hfuel
    obtain ⟨t1, t2, t3, t4, t5, t6⟩ := htab
    have hv : m.read p 4 = d.OriginalFirstThunk := by
      rw [← t1]
      exact read_congr _ _ _ _ fun k hk => hag _ (hrd _ (Or.inl ⟨by omega, by omega⟩))
    have hn : m.read (p + 12) 4 = d.Name := by
      rw [← t3]
      exact read_congr _ _ _ _ fun k hk => hag _ (hrd _ (Or.inl ⟨by omega, by omega⟩))
    have hft : m.read (p + 16) 4 = d.FirstThunk := by
      rw [← t4]
      exact read_congr _ _ _ _ fun k hk => hag _ (hrd _ (Or.inl ⟨by omega, by omega⟩))
    have hlen := entries_of_length p d.entries.length d.OriginalFirstThunk d.FirstThunk
    have hfuel2 : d.entries.length + ((Import.entries (p + 20) ds).length + ds.length) + 1 <
        fuel := by
      simp only [Import.entries, List.length_append, List.length_cons, hlen] at hfuel
      omega
    cases fuel with
    | zero => simp at hfuel
    | succ fuel =>
      by_cases hdll : os.LoadLibraryA m (m.read (p + 12) 4) = 0
      · refine ⟨_, Import.entries p (d :: ds), rfl, ?_⟩
        rw [resolve_descriptors_walk_succ, if_neg (by rw [hv]; exact t2), if_pos hdll]
        exact ⟨rfl, rfl, hag, Or.inr (Or.inl rfl), fun r hr => (by cases hr),
          fun _ r hr => (by cases hr)⟩
      · obtain ⟨s0, s1⟩ := resolve_descriptors_walk_step os fuel m p (by rw [hv]; exact t2)
          hdll _ rfl
        obtain ⟨rest1, e1, e2, e3, e4, e5, e6⟩ := resolve_thunks_walk_spec os
          (os.LoadLibraryA m (m.read (p + 12) 4)) p image0 W E hptr d.entries fuel m
          d.OriginalFirstThunk d.FirstThunk t5 (hNE d (List.mem_cons_self _ _)).2 hag
          (fun x h1 h2 => hrd x (Or.inr (Or.inl ⟨h1, h2⟩)))
          (fun k hk => hsl k (by
            unfold Import.entries
            exact List.mem_append_left _ hk))
          (by omega)
        rw [hv, hft] at s0 s1
        generalize Stub.resolve_thunks_walk os (os.LoadLibraryA m (m.read (p + 12) 4)) p fuel m
          d.OriginalFirstThunk d.FirstThunk = w1 at s0 s1 e1 e2 e3 e4 e5 e6
        have hstab : (∀ m2 : Mem, (∀ x, ¬ W x → m2 x = image0 x) →
            (∀ n, N n → os.LoadLibraryA m2 n = os.LoadLibraryA image0 n) ∧
            (∀ e, E e → ∀ a, os.GetProcAddress_name m2 a (e + 2) =
              os.GetProcAddress_name image0 a (e + 2))) →
            ∀ r ∈ w1.resolved, r.function = Import.resolve os image0
              (os.LoadLibraryA image0 (image0.read (r.descriptor + 12) 4))
              (image0.read r.lookup_table 8) := by
          intro hst r hr
          rw [e6 (fun m2 h2 => (hst m2 h2).2) r hr, (e5 r hr).2.1, t3, hn,
            (hst m hag).1 _ (hNE d (List.mem_cons_self _ _)).1]
        rcases e4 with ⟨h1, h2⟩ | ⟨h1, h2⟩
        · obtain ⟨w2, rest2, f0, f1, f2, f3, f4, f5, f6⟩ := ih fuel w1.image (p + 20) t6
            (fun d2 hd2 => hNE d2 (List.mem_cons_of_mem _ hd2)) e3
            (fun x hx => hrd x (Or.inr (Or.inr hx)))
            (fun k hk => hsl k (by
              unfold Import.entries
              exact List.mem_append_right _ hk))
            (by omega)
          rw [f0] at s1
          refine ⟨_, rest2, s1 h1, ?_, ?_, f3, f4, ?_, ?_⟩
          · unfold Import.entries
            rw [e1, h2, List.append_nil, f1, List.map_append, List.append_assoc]
          · rw [replay_append, ← e2]; exact f2
          · intro r hr
            rcases List.mem_append.1 hr with hr | hr
            · exact ⟨(e5 r hr).1, (e5 r hr).2.2⟩
            · exact f5 r hr
          · intro hst r hr
            rcases List.mem_append.1 hr with hr | hr
            · exact hstab hst r hr
            · exact f6 hst r hr
        · have hex : ∃ e, w1.halt = some e ∧ (e = .exit 5 ∨ e = .exit 6) := by
            rcases h1 with h1 | h1
            · exact ⟨_, h1, Or.inl rfl⟩
            · exact ⟨_, h1, Or.inr rfl⟩
          obtain ⟨e, he, hcode⟩ := hex
          refine ⟨_, rest1 ++ Import.entries (p + 20) ds, s0 e he, ?_, e2, e3, ?_, ?_, hstab⟩
          · show Import.entries p (d :: ds) =
              w1.resolved.map Stub.Resolution.key ++ (rest1 ++ Import.entries (p + 20) ds)
            rw [← List.append_assoc, ← e1]
            rfl
          · refine Or.inr (Or.inr ⟨?_, by simp [h2]⟩)
            rcases hcode with rfl | rfl
            · exact Or.inl rfl
            · exact Or.inr rfl
          · exact fun r hr => ⟨(e5 r hr).1, (e5 r hr).2.2⟩


/-- **C11.** Let `image` be a mapped image whose import directory is present and
holds the descriptors `ds` with their lookup tables, each list ending in a zero
entry; let the address-table entries be pairwise disjoint 8-byte words that
share no byte with the descriptor array or a lookup table; let the resolver
return pointers (values below `2^64`).  Then `load_imports` terminates (any step
bound above the number of entries plus the number of descriptors suffices): it
returns or ends at exit code 4, 5 or 6.  The stores it made are those of an
initial segment of the entries in table order, all entries when it returned;
after exit code 5 or 6 at least the failing entry is left.  Every store put a
non-zero address, the one the resolver returned, and the word still holds it at
the end.  Every byte outside the stored words is unchanged; so are the
address-table entries of all entries that were not reached, the failing one
included.  When the resolver's answers do not depend on the bytes of the
address tables, the address stored for an entry is the resolver's answer, on the
initial image, for the module of its descriptor and its lookup entry. -/
theorem import_resolution (os : Stub.Os) (fuel : Nat) (image : Mem)
    (ds : List Import.Descriptor)
    (hnt : image.read 60 4 < 2 ^ 31) (hdir : Import.directory image ≠ 0)
    (htab : Import.Table image (Import.directory image) ds)
    (hfuel : (Import.entries (Import.directory image) ds).length + ds.length < fuel)
    (hdisj : ∀ x, Import.written (Import.entries (Import.directory image) ds) x →
      ¬ Import.reads (Import.directory image) ds x)
    (hpair : (Import.entries (Import.directory image) ds).Pairwise
      (fun a b => a.2.2 + 8 ≤ b.2.2 ∨ b.2.2 + 8 ≤ a.2.2))
    (hptr : ∀ m a b, os.GetProcAddress_ordinal a b < 2 ^ 64 ∧
      os.GetProcAddress_name m a b < 2 ^ 64) :
    ∃ w rest, Stub.load_imports_walk os fuel image = w ∧
      Stub.load_imports os fuel image = w.result ∧
      Import.entries (Import.directory image) ds =
        w.resolved.map Stub.Resolution.key ++ rest ∧
      (w.halt = none ∧ rest = [] ∨ w.halt = some (.exit 4) ∨
        (w.halt = some (.exit 5) ∨ w.halt = some (.exit 6)) ∧ rest ≠ []) ∧
      (∀ r ∈ w.resolved, r.function ≠ 0 ∧ w.image.read r.address_table 8 = r.function) ∧
      (∀ k ∈ rest, w.image.read k.2.2 8 = image.read k.2.2 8) ∧
      (∀ x, ¬ Import.written (w.resolved.map Stub.Resolution.key) x → w.image x = image x) ∧
      (Import.Stable os image (Import.entries (Import.directory image) ds) ds →
        ∀ r ∈ w.resolved, r.function = Import.resolve os image
          (os.LoadLibraryA image (image.read (r.descriptor + 12) 4))
          (image.read r.lookup_table 8)) := by
  have hwalk : Stub.load_imports_walk os fuel image =
      Stub.resolve_descriptors_walk os fuel image (Import.directory image) := by
    unfold Stub.load_imports_walk Stub.get_nt_headers
    simp only [if_pos hnt]
    rw [if_neg (show ¬ image.read
      (image.read 60 4 + 24 + 112 + 8 * IMAGE_DIRECTORY_ENTRY_IMPORT) 4 = 0 from hdir)]
    rfl
  obtain ⟨w, rest, f0, f1, f2, _, f4, f5, f6⟩ := resolve_descriptors_walk_spec os image
    (Import.written (Import.entries (Import.directory image) ds))
    (fun n => ∃ d ∈ ds, d.Name = n) (fun e => ∃ d ∈ ds, e ∈ d.entries) hptr ds fuel image
    (Import.directory image) htab (fun d hd => ⟨⟨d, hd, rfl⟩, fun e he => ⟨d, hd, he⟩⟩)
    (fun _ _ => rfl) (fun x hx hw => hdisj x hw hx)
    (fun k hk x h1 h2 => ⟨k, hk, h1, h2⟩) hfuel
  have hframe : ∀ x, ¬ Import.written (w.resolved.map Stub.Resolution.key) x →
      w.image x = image x := by
    intro x hx
    rw [f2]
    refine replay_frame _ _ _ (fun r hr => ?_)
    by_contra hc
    exact hx ⟨r.key, List.mem_map_of_mem _ hr, by
      show r.address_table ≤ x; omega, by show x < r.address_table + 8; omega⟩
  rw [f1] at hpair
  obtain ⟨hp1, _, hp3⟩ := List.pairwise_append.1 hpair
  refine ⟨w, rest, hwalk.trans f0, ?_, f1, f4, ?_, ?_, hframe, fun hst => f6 fun m2 h2 =>
    ⟨fun n hn => (by
      obtain ⟨d, hd, rfl⟩ := hn
      exact (hst m2 h2).1 d hd),
     fun e he a => (by
      obtain ⟨d, hd, hed⟩ := he
      exact (hst m2 h2).2 d hd e hed a)⟩⟩
  · rw [← load_imports_walk_result, hwalk, f0]
  · intro r hr
    refine ⟨(f5 r hr).1, ?_⟩
    rw [f2]
    exact replay_read _ _ (List.pairwise_map.1 hp1) (fun t ht => (f5 t ht).2) r hr
  · intro k hk
    refine read_congr _ _ _ _ (fun i hi => hframe _ ?_)
    rintro ⟨a, ha, h1, h2⟩
    have := hp3 a ha k hk
    omega


/-- Witness of C11: the sample image with the lookup entries `0x700` (the name
`"open"`, which the module exports) and `0x8000000000000003` (odd, so taken as
ordinal 3, which it does not export).  The load ends with exit code 5 after one
store: the entry at `0x600` holds the resolver's answer `0x7FFA2222`, and the
entry at `0x608`, where it failed, is as it was. -/
theorem import_resolution_witness :
    Stub.load_imports sample_os 4 (sample_import_pair 0x8000000000000003) =
      .error (.exit 5) ∧
    ∃ w, Stub.load_imports_walk sample_os 4 (sample_import_pair 0x8000000000000003) = w ∧
      w.resolved.map Stub.Resolution.key = [(0x300, 0x400, 0x600)] ∧
      (∀ r ∈ w.resolved, r.function = 0x7FFA2222 ∧ w.image.read r.address_table 8 = 0x7FFA2222) ∧
      w.image.read 0x608 8 = (sample_import_pair 0x8000000000000003).read 0x608 8 := by
  have hd : Import.directory (sample_import_pair 0x8000000000000003) = 0x300 := by decide!
  have hent : Import.entries 0x300 [⟨0x400, 0x500, 0x600, [0x700, 0x8000000000000003]⟩] =
      [(0x300, 0x400, 0x600), (0x300, 0x408, 0x608)] := by decide
  obtain ⟨w, rest, h0, h1, h2, _, h4, h5, _, h7⟩ := import_resolution sample_os 4
    (sample_import_pair 0x8000000000000003)
    [⟨0x400, 0x500, 0x600, [0x700, 0x8000000000000003]⟩]
    (by decide!) (by rw [hd]; decide)
    (by
      rw [hd]
      simp only [Import.Table, Import.Lookup]
      decide!)
    (by rw [hd, hent]; decide)
    (by
      rw [hd, hent]
      rintro x ⟨k, hk, h1, h2⟩ hr
      simp only [Import.reads, List.length_cons, List.length_nil] at hr
      simp only [List.mem_cons, List.mem_singleton, List.not_mem_nil, or_false] at hk
      rcases hk with rfl | rfl <;> simp only at h1 h2 <;> omega)
    (by rw [hd, hent]; decide)
    (by
      intro m a b
      unfold sample_os
      refine ⟨?_, ?_⟩
      · show (if a = 0x7FFA0000 ∧ b = 2 then 0x7FFA1111 else 0) < 2 ^ 64
        split <;> decide
      · show (if a = 0x7FFA0000 ∧ Stub.bytes_at m b 5 = [0x6F, 0x70, 0x65, 0x6E, 0] then
          0x7FFA2222 else 0) < 2 ^ 64
        split <;> decide)
  rw [hd, hent] at h2 h7
  have hk : w.resolved.map Stub.Resolution.key = [(0x300, 0x400, 0x600)] := by
    rw [← h0]; decide!
  have hhalt : w.halt = some (.exit 5) := by rw [← h0]; decide!
  have hrest : rest = [(0x300, 0x408, 0x608)] := by
    rw [hk] at h2
    exact (List.cons_inj_right _ |>.1 h2).symm
  have hstable : Import.Stable sample_os (sample_import_pair 0x8000000000000003)
      [(0x300, 0x400, 0x600), (0x300, 0x408, 0x608)]
      [⟨0x400, 0x500, 0x600, [0x700, 0x8000000000000003]⟩] := by
    intro m hm
    refine ⟨fun d _ => rfl, fun d hd e he module => ?_⟩
    have hb : Stub.bytes_at m (e + 2) 5 =
        Stub.bytes_at (sample_import_pair 0x8000000000000003) (e + 2) 5 := by
      refine bytes_at_congr _ _ _ _ (fun i hi => hm _ ?_)
      rintro ⟨k, hk, h1, h2⟩
      simp only [List.mem_singleton] at hd
      subst hd
      simp only [List.mem_cons, List.mem_singleton, List.not_mem_nil, or_false] at he hk
      rcases he with rfl | rfl <;> rcases hk with rfl | rfl <;> simp only at h1 h2 <;> omega
    show (if module = 0x7FFA0000 ∧ Stub.bytes_at m (e + 2) 5 = [0x6F, 0x70, 0x65, 0x6E, 0] then
      0x7FFA2222 else 0) = (if module = 0x7FFA0000 ∧
        Stub.bytes_at (sample_import_pair 0x8000000000000003) (e + 2) 5 =
          [0x6F, 0x70, 0x65, 0x6E, 0] then 0x7FFA2222 else 0)
    rw [hb]
  refine ⟨?_, w, h0, hk, ?_, ?_⟩
  · rw [h1]; unfold Stub.ImportWalk.result; rw [hhalt]
  · intro r hr
    have hkey : r.key = (0x300, 0x400, 0x600) := by
      have := List.mem_map_of_mem Stub.Resolution.key hr
      rw [hk] at this
      exact List.mem_singleton.1 this
    have hdesc : r.descriptor = 0x300 := congrArg (fun k => k.1) hkey
    have hlt : r.lookup_table = 0x400 := congrArg (fun k => k.2.1) hkey
    have hf : r.function = 0x7FFA2222 := by
      rw [h7 hstable r hr, hdesc, hlt]
      decide!
    exact ⟨hf, by rw [(h4 r hr).2, hf]⟩
  · exact h5 (0x300, 0x408, 0x608) (by rw [hrest]; exact List.mem_singleton_self _)

end PackerTutorial
